import Mathlib

/-!
PATTauHybridProducer.

A shallow embedding of `PhysicsTools/PatAlgos/plugins/PATTauHybridProducer.cc`
and a verification of its specification.

Modelling conventions.

* Floating point.  `float` and `double` values are elements of a carrier `R`
  that comes with the operations of the class `Arith`: the comparison `lt`, the
  conversion `narrow` from `double` to `float`, the `float` operations `addF`
  and `divF`, the `double` operations `subD`, `divD` and `absD`, the conversion
  `ofInt` of an `int` (also used for the literals `0`, `-1` and `1.`), and the
  `double` literals `half` (`0.5`) and `fifth` (`0.2`).  Each operation of the
  source is translated to the operation of its C++ type: a comparison of a
  `float` with a `double` promotes the `float`, which changes no value.
  Two instances are given: `Fp`, IEEE 754 binary32/binary64 with rounding to
  nearest-even, infinities and NaN (the sign of zero is not modelled), and the
  exact arithmetic of `ℚ`, where `narrow` is the identity and no operation
  rounds.  Statements that do not name an instance hold for every `Arith`.
* `std::string` is `String`; a position is an index into `String.data`
  (characters stand for bytes).  `find` returns `none` for `std::string::npos`.
* An exception (`std::out_of_range` from `substr`) is `none` in `Option`.
* `std::set<unsigned int>` is the duplicate-free list of its keys; a `size_t`
  index is converted to a key modulo `2 ^ 32`.
* `reco::deltaR` and `reco::PFTau::kNull` are declared outside this source file
  and are parameters (`Framework`); `deltaR` returns a `double`.
* `pat::Jet::bDiscriminator` is a total function from the full score label to
  its `float` value.
-/

set_option autoImplicit false

namespace PatAlgos

/-! ## Strings -/

/-- Position of the first occurrence of `pat` in a character list. -/
def findAux (pat : List Char) : List Char → Option Nat
  | [] => if pat.isEmpty then some 0 else none
  | c :: cs => if pat.isPrefixOf (c :: cs) then some 0 else (findAux pat cs).map (· + 1)

/-- `s.find(pat)`: the first position where `pat` occurs in `s`; `none` is `npos`. -/
def find (s pat : String) : Option Nat := findAux pat.data s.data

/-- `s.substr(pos)`: the suffix of `s` from `pos`; throws when `pos > s.size()`. -/
def substr (s : String) (pos : Nat) : Option String :=
  if pos ≤ s.data.length then some ⟨s.data.drop pos⟩ else none

/-- `npos + 3` evaluated in `size_t` (64 bit): `(2 ^ 64 - 1 + 3) % 2 ^ 64`. -/
def nposPlus3 : Nat := (2 ^ 64 - 1 + 3) % 2 ^ 64

/-! ## Floating point -/

/-- The floating-point arithmetic used by the producer, over a carrier `R` of
`float` and `double` values.  The laws are those the proofs need; they hold in
IEEE 754 arithmetic (instance on `Fp`) and in exact arithmetic (instance on `ℚ`). -/
class Arith (R : Type) where
  /-- The comparison `a < b` (false when an operand is NaN). -/
  lt : R → R → Prop
  /-- The comparison is computable. -/
  decLt : DecidableRel lt
  /-- Conversion of an `int` to `float`; also the literals `0`, `-1`, `1.`. -/
  ofInt : Int → R
  /-- Conversion of a `double` to `float`. -/
  narrow : R → R
  /-- Addition of two `float`s, rounded to `float`. -/
  addF : R → R → R
  /-- Division of two `float`s, rounded to `float`. -/
  divF : R → R → R
  /-- Subtraction of two `double`s, rounded to `double`. -/
  subD : R → R → R
  /-- Division of two `double`s, rounded to `double`. -/
  divD : R → R → R
  /-- The function `std::abs` on `double`. -/
  absD : R → R
  /-- The `double` literal `0.5`. -/
  half : R
  /-- The `double` literal `0.2`. -/
  fifth : R
  /-- No value is below itself. -/
  lt_irrefl : ∀ a, ¬ lt a a
  /-- The comparison is transitive. -/
  lt_trans : ∀ a b c, lt a b → lt b c → lt a c
  /-- A value `b` that is above some value is comparable with every other one. -/
  lt_cases : ∀ a b c s, lt a s → lt c b → lt a b ∨ lt b s
  /-- The literal `-1` is below the literal `0`. -/
  neg_one_lt_zero : lt (ofInt (-1)) (ofInt 0)
  /-- A `float` sum of two values that are not positive is not positive. -/
  addF_nonpos : ∀ a b, ¬ lt (ofInt 0) a → ¬ lt (ofInt 0) b → ¬ lt (ofInt 0) (addF a b)

instance {R : Type} [Arith R] (a b : R) : Decidable (Arith.lt a b) := Arith.decLt a b

/-- Exact arithmetic: the values are rationals and no operation rounds.
Division by zero gives `0`. -/
instance exactArith : Arith ℚ where
  lt a b := a < b
  decLt := fun a b => inferInstanceAs (Decidable (a < b))
  ofInt i := (i : ℚ)
  narrow x := x
  addF a b := a + b
  divF a b := a / b
  subD a b := a - b
  divD a b := a / b
  absD a := |a|
  half := 1 / 2
  fifth := 1 / 5
  lt_irrefl := fun a => lt_irrefl a
  lt_trans := fun _ _ _ h1 h2 => lt_trans h1 h2
  lt_cases := fun a b _ s h _ => by
    rcases lt_or_le a b with h1 | h1
    · exact Or.inl h1
    · exact Or.inr (lt_of_le_of_lt h1 h)
  neg_one_lt_zero := by norm_num
  addF_nonpos := fun a b ha hb => by
    simp only [Int.cast_zero, not_lt] at ha hb ⊢
    linarith

/-! ## Data model -/

/-- `pat::Tau::IdPair`, a `std::pair<std::string, float>`. -/
abbrev IdPair (R : Type) := String × R

/-- Four-momentum of a candidate. -/
structure LorentzVector (R : Type) where
  pt : R
  eta : R
  phi : R
  mass : R
deriving DecidableEq

/-- The part of `pat::Tau` the producer reads or writes; every other member is
copied unchanged with the object. -/
structure Tau (R : Type) where
  charge : Int
  p4 : LorentzVector R
  tauIDs : List (IdPair R)
deriving DecidableEq

/-- The part of `pat::Jet` the producer reads. -/
structure Jet (R : Type) where
  p4 : LorentzVector R
  bDiscriminator : String → R

/-- Transverse momentum `jet.pt()`, a `double`. -/
def Jet.pt {R : Type} (jet : Jet R) : R := jet.p4.pt

/-- Pseudorapidity `jet.eta()`, a `double`. -/
def Jet.eta {R : Type} (jet : Jet R) : R := jet.p4.eta

/-- What the producer uses from other packages: `reco::deltaR(jet, tau)`, a
`double`, and the enumerator `reco::PFTau::kNull`. -/
structure Framework (R : Type) where
  deltaR : Jet R → Tau R → R
  kNull : Int

/-- The configuration `cfg` read by the constructor; the three thresholds are
read as `double`. -/
structure ParameterSet (R : Type) where
  dRMax : R
  jetPtMin : R
  jetEtaMax : R
  pnetLabel : String
  pnetScoreNames : List String

/-- Data members of `PATTauHybridProducer`; the three thresholds are `float`. -/
structure PATTauHybridProducer (R : Type) where
  dRMax_ : R
  jetPtMin_ : R
  jetEtaMax_ : R
  pnetLabel_ : String
  nPnetScores_ : Nat
  pnetTauScoreNames_ : List String
  pnetJetScoreNames_ : List String
  pnetLepScoreNames_ : List String
  tagToDM_ : List (String × Int)
deriving DecidableEq

/-- Variables of the loop over the tau-flavor score names (lines 110-112), all
of type `float`. -/
structure TauScores (R : Type) where
  bestPnetTauScore : String × R
  sumOfPnetTauScores : R
  plusChargeProb : R

/-- Variables of the loop over the lepton-flavor score names (lines 126-127);
the sums are of type `float`. -/
structure LepScores (R : Type) where
  sumOfPnetLepScores : R
  sumOfPnetEleScores : R
  sumOfPnetMuScores : R
  isTauScoreBest : Bool

/-- Variables that live across the iterations of the jet loop (`jet_idx` is
only incremented, never read, and is left out). -/
structure LoopState (R : Type) where
  outputTaus : List (Tau R)
  tauIds_pnet : List (IdPair R)
  matched_taus : List Nat

variable {R : Type} [Arith R]

/-! ## Constructor (lines 36-63) -/

/-- Member initialisers of the constructor (lines 37-44); the `double`
parameters are converted to the `float` members (line 23). -/
def PATTauHybridProducer.init (cfg : ParameterSet R) : PATTauHybridProducer R where
  dRMax_ := Arith.narrow cfg.dRMax
  jetPtMin_ := Arith.narrow cfg.jetPtMin
  jetEtaMax_ := Arith.narrow cfg.jetEtaMax
  pnetLabel_ := cfg.pnetLabel
  nPnetScores_ := 0
  pnetTauScoreNames_ := []
  pnetJetScoreNames_ := []
  pnetLepScoreNames_ := []
  tagToDM_ := [("1h0p", 0), ("1h1or2p", 1), ("1h1p", 1), ("1h2p", 2), ("3h0p", 10), ("3h1p", 11)]

/-- Body of the loop over `pnetScoreNames` (lines 48-58). -/
def PATTauHybridProducer.readScoreName (self : PATTauHybridProducer R) (scoreName : String) :
    Option (PATTauHybridProducer R) :=
  let labelLenght : Nat :=
    match find scoreName ":" with
    | none => 0
    | some i => i + 1
  match substr scoreName labelLenght with
  | none => none
  | some name =>
    if find name "prob" = none then
      some self
    else
      let self := { self with nPnetScores_ := (self.nPnetScores_ + 1) % 2 ^ 32 }
      if find name "tau" ≠ none then
        some { self with pnetTauScoreNames_ := self.pnetTauScoreNames_ ++ [name] }
      else if find name "ele" ≠ none ∨ find name "mu" ≠ none then
        some { self with pnetLepScoreNames_ := self.pnetLepScoreNames_ ++ [name] }
      else
        some { self with pnetJetScoreNames_ := self.pnetJetScoreNames_ ++ [name] }

/-- The loop over `pnetScoreNames` (lines 47-59). -/
def PATTauHybridProducer.readScoreNames (self : PATTauHybridProducer R) :
    List String → Option (PATTauHybridProducer R)
  | [] => some self
  | scoreName :: rest =>
    match self.readScoreName scoreName with
    | none => none
    | some self => self.readScoreNames rest

/-- The constructor `PATTauHybridProducer::PATTauHybridProducer(cfg)`. -/
def PATTauHybridProducer.ctor (cfg : ParameterSet R) : Option (PATTauHybridProducer R) :=
  (PATTauHybridProducer.init cfg).readScoreNames cfg.pnetScoreNames

/-! ## `produce` (lines 65-238) -/

/-- The local `tauIds_minimal` (lines 79-80). -/
def tauIds_minimal : List (IdPair R) := [("decayModeFindingNewDMs", Arith.ofInt (-1))]

/-- The local `tauIds_pnet` as initialised before the jet loop (lines 92-96);
positions follow `tauId_pnet_idx`: dm, vsjet, vse, vsmu. -/
def tauIds_pnet_init (fw : Framework R) : List (IdPair R) :=
  [("byPNetDecayMode", Arith.ofInt fw.kNull), ("byPNetVSjetraw", Arith.ofInt (-1)),
    ("byPNetVSeraw", Arith.ofInt (-1)), ("byPNetVSmuraw", Arith.ofInt (-1))]

/-- The assignment `ids[idx].second = v`. -/
def setSecond : List (IdPair R) → Nat → R → List (IdPair R)
  | [], _, _ => []
  | p :: ps, 0, v => (p.1, v) :: ps
  | p :: ps, idx + 1, v => p :: setSecond ps idx v

/-- Body of the loop over `pnetTauScoreNames_` (lines 114-121). -/
def tauScoreStep (self : PATTauHybridProducer R) (jet : Jet R) (v : TauScores R)
    (scoreName : String) : TauScores R :=
  let score := jet.bDiscriminator (self.pnetLabel_ ++ ":" ++ scoreName)
  let sumOfPnetTauScores := Arith.addF v.sumOfPnetTauScores score
  let plusChargeProb :=
    if find scoreName "taup" ≠ none then Arith.addF v.plusChargeProb score
    else v.plusChargeProb
  let bestPnetTauScore :=
    if Arith.lt v.bestPnetTauScore.2 score then (scoreName, score) else v.bestPnetTauScore
  { bestPnetTauScore := bestPnetTauScore, sumOfPnetTauScores := sumOfPnetTauScores,
    plusChargeProb := plusChargeProb }

/-- The loop over `pnetTauScoreNames_` (lines 110-122), before the normalisation. -/
def tauScoreLoop (self : PATTauHybridProducer R) (jet : Jet R) : TauScores R :=
  self.pnetTauScoreNames_.foldl (tauScoreStep self jet)
    { bestPnetTauScore := ("probtauundef", Arith.ofInt (-1)),
      sumOfPnetTauScores := Arith.ofInt 0, plusChargeProb := Arith.ofInt 0 }

/-- Lines 110-124: the tau-score loop followed by
`if (sumOfPnetTauScores > 0) plusChargeProb /= sumOfPnetTauScores`. -/
def tauScores (self : PATTauHybridProducer R) (jet : Jet R) : TauScores R :=
  let v := tauScoreLoop self jet
  if Arith.lt (Arith.ofInt 0) v.sumOfPnetTauScores then
    { v with plusChargeProb := Arith.divF v.plusChargeProb v.sumOfPnetTauScores }
  else v

/-- Body of the loop over `pnetLepScoreNames_` (lines 129-136). -/
def lepScoreStep (self : PATTauHybridProducer R) (jet : Jet R) (best : String × R)
    (v : LepScores R) (scoreName : String) : LepScores R :=
  let score := jet.bDiscriminator (self.pnetLabel_ ++ ":" ++ scoreName)
  let sumOfPnetLepScores := Arith.addF v.sumOfPnetLepScores score
  let isTauScoreBest := if Arith.lt best.2 score then false else v.isTauScoreBest
  if find scoreName "ele" ≠ none then
    { sumOfPnetLepScores := sumOfPnetLepScores,
      sumOfPnetEleScores := Arith.addF v.sumOfPnetEleScores score,
      sumOfPnetMuScores := v.sumOfPnetMuScores, isTauScoreBest := isTauScoreBest }
  else if find scoreName "mu" ≠ none then
    { sumOfPnetLepScores := sumOfPnetLepScores,
      sumOfPnetEleScores := v.sumOfPnetEleScores,
      sumOfPnetMuScores := Arith.addF v.sumOfPnetMuScores score,
      isTauScoreBest := isTauScoreBest }
  else
    { sumOfPnetLepScores := sumOfPnetLepScores,
      sumOfPnetEleScores := v.sumOfPnetEleScores,
      sumOfPnetMuScores := v.sumOfPnetMuScores, isTauScoreBest := isTauScoreBest }

/-- Lines 126-137: the loop over `pnetLepScoreNames_`. -/
def lepScores (self : PATTauHybridProducer R) (jet : Jet R) : LepScores R :=
  let t := tauScores self jet
  self.pnetLepScoreNames_.foldl (lepScoreStep self jet t.bestPnetTauScore)
    { sumOfPnetLepScores := Arith.ofInt 0, sumOfPnetEleScores := Arith.ofInt 0,
      sumOfPnetMuScores := Arith.ofInt 0,
      isTauScoreBest := decide (Arith.lt (Arith.ofInt 0) t.sumOfPnetTauScores) }

/-- The value of `isTauScoreBest` after lines 138-142: the jet-flavor scores are
scanned only when the flag is still set. -/
def isTauScoreBest (self : PATTauHybridProducer R) (jet : Jet R) : Bool :=
  let t := tauScores self jet
  let l := lepScores self jet
  if l.isTauScoreBest then
    self.pnetJetScoreNames_.foldl
      (fun b scoreName =>
        if Arith.lt t.bestPnetTauScore.2 (jet.bDiscriminator (self.pnetLabel_ ++ ":" ++ scoreName))
        then false else b)
      l.isTauScoreBest
  else l.isTauScoreBest

/-- Lines 145-151: the three ratio discriminants written into `tauIds_pnet`.
The first is computed in `double` (the literal `1.`) and converted to `float`
by the assignment; the other two are computed in `float`. -/
def setDiscriminants (self : PATTauHybridProducer R) (jet : Jet R)
    (tauIds_pnet : List (IdPair R)) : List (IdPair R) :=
  let t := tauScores self jet
  let l := lepScores self jet
  let ids := setSecond tauIds_pnet 1
    (Arith.narrow
      (Arith.divD t.sumOfPnetTauScores (Arith.subD (Arith.ofInt 1) l.sumOfPnetLepScores)))
  let ids := setSecond ids 2
    (Arith.divF t.sumOfPnetTauScores (Arith.addF t.sumOfPnetTauScores l.sumOfPnetEleScores))
  setSecond ids 3
    (Arith.divF t.sumOfPnetTauScores (Arith.addF t.sumOfPnetTauScores l.sumOfPnetMuScores))

/-- Lines 154-163: from the best score name, the position of the decay tag and
the charge. -/
def chargeMarker (name : String) : Nat × Int :=
  let pos : Nat :=
    match find name "tau" with
    | some i => i + 3
    | none => nposPlus3
  let q : Char := if h : pos < name.data.length then name.data[pos] else 'u'
  if q = 'm' then (pos + 1, -1)
  else if q = 'p' then (pos + 1, 1)
  else (pos, 0)

/-- Lines 152-167: `bestCharge` and the update of the decay-mode entry of
`tauIds_pnet`; `none` when `substr` throws. -/
def chargeAndDM (self : PATTauHybridProducer R) (jet : Jet R) (tauIds_pnet : List (IdPair R)) :
    Option (Int × List (IdPair R)) :=
  if isTauScoreBest self jet then
    let name := (tauScores self jet).bestPnetTauScore.1
    match substr name (chargeMarker name).1 with
    | none => none
    | some tag =>
      match self.tagToDM_.lookup tag with
      | some dm => some ((chargeMarker name).2, setSecond tauIds_pnet 0 (Arith.ofInt dm))
      | none => some ((chargeMarker name).2, tauIds_pnet)
  else some (0, tauIds_pnet)

/-- The key under which the tau at position `tau_idx - 1` is stored in
`std::set<unsigned int>`. -/
def tauKey (idx : Nat) : Nat := idx % 2 ^ 32

/-- Lines 176-186: a copy of the input tau with `tauIds_pnet` appended to its IDs. -/
def augmentedTau (inputTau : Tau R) (tauIds_pnet : List (IdPair R)) : Tau R :=
  { inputTau with tauIDs := inputTau.tauIDs ++ tauIds_pnet }

/-- The loop over the input taus (lines 168-192) for one jet; the remaining
taus and the current `tau_idx` are arguments.  Line 172 converts the `double`
returned by `deltaR` to the `float dR`, which line 173 compares with the
`float` member `dRMax_`.  Returns the new state and the flag `matched`. -/
def tauLoop (self : PATTauHybridProducer R) (fw : Framework R) (jet : Jet R) :
    List (Tau R) → Nat → LoopState R → LoopState R × Bool
  | [], _, st => (st, false)
  | inputTau :: rest, tau_idx, st =>
    let tau_idx := tau_idx + 1
    if tauKey (tau_idx - 1) ∈ st.matched_taus then
      tauLoop self fw jet rest tau_idx st
    else
      let dR := Arith.narrow (fw.deltaR jet inputTau)
      if Arith.lt dR self.dRMax_ then
        ({ st with
            matched_taus := (tauKey (tau_idx - 1)) :: st.matched_taus
            outputTaus := st.outputTaus ++ [augmentedTau inputTau st.tauIds_pnet] }, true)
      else
        tauLoop self fw jet rest tau_idx st

/-- Lines 202-212: the tau built from a jet that matched no input tau. -/
def tauFromJet (jet : Jet R) (bestCharge : Int) (tauIds_pnet : List (IdPair R)) : Tau R :=
  { charge := bestCharge, p4 := jet.p4, tauIDs := tauIds_minimal ++ tauIds_pnet }

/-- Body of the jet loop (lines 101-214); `none` when an exception is thrown. -/
def jetStep (self : PATTauHybridProducer R) (fw : Framework R) (inputTaus : List (Tau R))
    (st : LoopState R) (jet : Jet R) : Option (LoopState R) :=
  if Arith.lt jet.pt self.jetPtMin_ then some st
  else if Arith.lt self.jetEtaMax_ (Arith.absD jet.eta) then some st
  else
    let tauIds_pnet := setDiscriminants self jet st.tauIds_pnet
    match chargeAndDM self jet tauIds_pnet with
    | none => none
    | some (bestCharge, tauIds_pnet) =>
      let (st, matched) := tauLoop self fw jet inputTaus 0 { st with tauIds_pnet := tauIds_pnet }
      if matched then some st
      else if !(isTauScoreBest self jet)
          || decide (Arith.lt
            (Arith.absD (Arith.subD Arith.half (tauScores self jet).plusChargeProb))
            Arith.fifth) then
        some st
      else
        some { st with
          outputTaus := st.outputTaus ++ [tauFromJet jet bestCharge st.tauIds_pnet] }

/-- The jet loop (lines 100-215). -/
def jetLoop (self : PATTauHybridProducer R) (fw : Framework R) (inputTaus : List (Tau R)) :
    LoopState R → List (Jet R) → Option (LoopState R)
  | st, [] => some st
  | st, jet :: rest =>
    match jetStep self fw inputTaus st jet with
    | none => none
    | some st => jetLoop self fw inputTaus st rest

/-- State at the entry of the jet loop (lines 70, 92-98). -/
def LoopState.init (fw : Framework R) : LoopState R :=
  { outputTaus := [], tauIds_pnet := tauIds_pnet_init fw, matched_taus := [] }

/-- Lines 222-233: a copy of an unmatched input tau; the appended IDs carry the
value `-1`. -/
def unmatchedTau (inputTau : Tau R) (tauIds_pnet : List (IdPair R)) : Tau R :=
  { inputTau with
    tauIDs := inputTau.tauIDs ++ tauIds_pnet.map (fun p => (p.1, (Arith.ofInt (-1) : R))) }

/-- The loop over the taus not matched to jets (lines 219-234); the remaining
taus and the index `i` are arguments. -/
def unmatchedLoop (st : LoopState R) : List (Tau R) → Nat → List (Tau R)
  | [], _ => []
  | inputTau :: rest, i =>
    if tauKey i ∈ st.matched_taus then unmatchedLoop st rest (i + 1)
    else unmatchedTau inputTau st.tauIds_pnet :: unmatchedLoop st rest (i + 1)

/-- The method `produce`: the collection handed to `evt.put`, or `none` when an
exception is thrown. -/
def PATTauHybridProducer.produce (self : PATTauHybridProducer R) (fw : Framework R)
    (inputTaus : List (Tau R)) (jets : List (Jet R)) : Option (List (Tau R)) :=
  match jetLoop self fw inputTaus (LoopState.init fw) jets with
  | none => none
  | some st =>
    if st.matched_taus.length < inputTaus.length then
      some (st.outputTaus ++ unmatchedLoop st inputTaus 0)
    else some st.outputTaus

/-! ## Vocabulary of the specification -/

/-- The words "`s` contains `pat`": `pat` occurs in `s` as a contiguous block. -/
def contains (s pat : String) : Prop := pat.data <:+: s.data

instance (s pat : String) : Decidable (contains s pat) := by
  unfold contains; infer_instance

/-- The words "the name with the label (everything up to and including the
first ':') stripped". -/
def stripLabel (s : String) : String :=
  if ':' ∈ s.data then ⟨(s.data.dropWhile (fun c => c ≠ ':')).drop 1⟩ else s

/-- The raw score of a catalogued name for a jet. -/
def score (self : PATTauHybridProducer R) (jet : Jet R) (name : String) : R :=
  jet.bDiscriminator (self.pnetLabel_ ++ ":" ++ name)

/-- The `float` sum of a list of scores, accumulated from `0` in list order,
as the loops of lines 114-136 do. -/
def sumF (xs : List R) : R := xs.foldl Arith.addF (Arith.ofInt 0)

/-- State of the jet loop after the first `k` jets of the event. -/
def stateAfter (self : PATTauHybridProducer R) (fw : Framework R) (inputTaus : List (Tau R))
    (jets : List (Jet R)) (k : Nat) : Option (LoopState R) :=
  jetLoop self fw inputTaus (LoopState.init fw) (jets.take k)

/-- The taus claimed by the jet at position `k`: the keys that are in
`matched_taus` after its iteration and were not before. -/
def claimedBy (self : PATTauHybridProducer R) (fw : Framework R) (inputTaus : List (Tau R))
    (jets : List (Jet R)) (k : Nat) : List Nat :=
  match stateAfter self fw inputTaus jets k, stateAfter self fw inputTaus jets (k + 1) with
  | some s, some s' => s'.matched_taus.filter (fun i => decide (i ∉ s.matched_taus))
  | _, _ => []

/-- The output entries pushed by the jet at position `k`: what its iteration
added at the end of `outputTaus`. -/
def emittedBy (self : PATTauHybridProducer R) (fw : Framework R) (inputTaus : List (Tau R))
    (jets : List (Jet R)) (k : Nat) : List (Tau R) :=
  match stateAfter self fw inputTaus jets k, stateAfter self fw inputTaus jets (k + 1) with
  | some s, some s' => s'.outputTaus.drop s.outputTaus.length
  | _, _ => []

/-- Every tau-flavor name of the catalog contains "tau". -/
def TauNamesOk (self : PATTauHybridProducer R) : Prop :=
  ∀ n ∈ self.pnetTauScoreNames_, contains n "tau"

/-- The cuts of lines 102-105: the jet is not skipped, that is, neither
`jet.pt() < jetPtMin_` nor `std::abs(jet.eta()) > jetEtaMax_` holds for the
`float` members. -/
def passesCuts (self : PATTauHybridProducer R) (jet : Jet R) : Prop :=
  ¬ Arith.lt jet.pt self.jetPtMin_ ∧ ¬ Arith.lt self.jetEtaMax_ (Arith.absD jet.eta)

instance (self : PATTauHybridProducer R) (jet : Jet R) : Decidable (passesCuts self jet) := by
  unfold passesCuts; infer_instance

/-- The test of lines 172-173 for a jet and a tau: the `float dR` is below the
`float` member `dRMax_`. -/
def withinDR (self : PATTauHybridProducer R) (fw : Framework R) (jet : Jet R) (tau : Tau R) :
    Prop :=
  Arith.lt (Arith.narrow (fw.deltaR jet tau)) self.dRMax_

instance (self : PATTauHybridProducer R) (fw : Framework R) (jet : Jet R) (tau : Tau R) :
    Decidable (withinDR self fw jet tau) := by
  unfold withinDR; infer_instance

/-- Invariant of the jet loop: `matched_taus` holds distinct positions of the
input collection, and the names in `tauIds_pnet` are those set before the loop. -/
def LoopInv (fw : Framework R) (inputTaus : List (Tau R)) (st : LoopState R) : Prop :=
  st.matched_taus.Nodup ∧ (∀ i ∈ st.matched_taus, i < inputTaus.length) ∧
    st.tauIds_pnet.map Prod.fst = (tauIds_pnet_init fw).map Prod.fst

/-- Tau `i` has not been claimed by any jet before position `k`. -/
def unclaimedBefore (self : PATTauHybridProducer R) (fw : Framework R)
    (inputTaus : List (Tau R)) (jets : List (Jet R)) (k i : Nat) : Prop :=
  ∀ k', k' < k → i ∉ claimedBy self fw inputTaus jets k'

instance (self : PATTauHybridProducer R) (fw : Framework R) (inputTaus : List (Tau R))
    (jets : List (Jet R)) (k i : Nat) :
    Decidable (unclaimedBefore self fw inputTaus jets k i) := by
  unfold unclaimedBefore; infer_instance

/-- The gate of line 197: the jet is not skipped by
`!isTauScoreBest || std::abs(0.5 - plusChargeProb) < 0.2`; the difference, the
absolute value and the comparison are in `double`. -/
def passesGate (self : PATTauHybridProducer R) (jet : Jet R) : Prop :=
  isTauScoreBest self jet = true ∧
    ¬ Arith.lt (Arith.absD (Arith.subD Arith.half (tauScores self jet).plusChargeProb))
      Arith.fifth

instance (self : PATTauHybridProducer R) (jet : Jet R) : Decidable (passesGate self jet) := by
  unfold passesGate; infer_instance

/-- The three ratios of section 4.2 for a jet, as the code computes them from
the `float` sums of the catalogued scores, after a decay-mode code `dm`. -/
def derivedTags (self : PATTauHybridProducer R) (jet : Jet R) (dm : R) : List (IdPair R) :=
  [("byPNetDecayMode", dm),
    ("byPNetVSjetraw",
      Arith.narrow (Arith.divD (sumF (self.pnetTauScoreNames_.map (score self jet)))
        (Arith.subD (Arith.ofInt 1) (sumF (self.pnetLepScoreNames_.map (score self jet)))))),
    ("byPNetVSeraw",
      Arith.divF (sumF (self.pnetTauScoreNames_.map (score self jet)))
        (Arith.addF (sumF (self.pnetTauScoreNames_.map (score self jet)))
          (sumF ((self.pnetLepScoreNames_.filter (fun n => decide (contains n "ele"))).map
              (score self jet))))),
    ("byPNetVSmuraw",
      Arith.divF (sumF (self.pnetTauScoreNames_.map (score self jet)))
        (Arith.addF (sumF (self.pnetTauScoreNames_.map (score self jet)))
          (sumF ((self.pnetLepScoreNames_.filter
              (fun n => decide (contains n "mu" ∧ ¬ contains n "ele"))).map
              (score self jet)))))]

instance {α : Type} (l : List α) : Decidable (l = []) :=
  match l with
  | [] => isTrue rfl
  | _ :: _ => isFalse (fun h => List.noConfusion h)

/-- The number of jets of the event that push an entry without claiming a tau. -/
def synthesizedCount (self : PATTauHybridProducer R) (fw : Framework R)
    (inputTaus : List (Tau R)) (jets : List (Jet R)) : Nat :=
  ((List.range jets.length).filter
    (fun k => decide (claimedBy self fw inputTaus jets k = [] ∧
      emittedBy self fw inputTaus jets k ≠ []))).length


/-! ## IEEE 754 arithmetic -/

/-- A `float` or `double` value: a finite number, an infinity, or NaN.  The
sign of zero is not represented; a zero divisor counts as `+0`. -/
inductive Fp where
  | fin (q : ℚ)
  | pinf
  | ninf
  | nan
deriving DecidableEq

/-- The power `2 ^ z` for an integer exponent. -/
def pow2 (z : Int) : ℚ := if 0 ≤ z then (2 : ℚ) ^ z.toNat else 1 / (2 : ℚ) ^ (-z).toNat

/-- Binary logarithm of a natural number, rounded down, with recursion depth
`fuel`. -/
def log2Aux : Nat → Nat → Nat
  | 0, _ => 0
  | fuel + 1, n => if 2 ≤ n then log2Aux fuel (n / 2) + 1 else 0

/-- Binary logarithm of a natural number, rounded down. -/
def log2 (n : Nat) : Nat := log2Aux n n

/-- The exponent `e` with `2 ^ e ≤ |q| < 2 ^ (e + 1)`, for `q ≠ 0`. -/
def ilog2 (q : ℚ) : Int :=
  if pow2 ((log2 q.num.natAbs : Int) - (log2 q.den : Int)) ≤ |q| then
    (log2 q.num.natAbs : Int) - (log2 q.den : Int)
  else (log2 q.num.natAbs : Int) - (log2 q.den : Int) - 1

/-- Rounding to the nearest integer, ties to even. -/
def roundEven (x : ℚ) : Int :=
  if x - (⌊x⌋ : ℚ) < 1 / 2 then ⌊x⌋
  else if 1 / 2 < x - (⌊x⌋ : ℚ) then ⌊x⌋ + 1
  else if ⌊x⌋ % 2 = 0 then ⌊x⌋ else ⌊x⌋ + 1

/-- Rounding of a rational to the binary format with `p` significand bits and
exponent range `emin .. emax` (round to nearest, ties to even; subnormals
below `2 ^ emin`; overflow to an infinity). -/
def roundTo (p : Nat) (emin emax : Int) (q : ℚ) : Fp :=
  if q = 0 then Fp.fin 0
  else if pow2 (emax + 1)
      ≤ |(roundEven (q / pow2 (max (ilog2 q) emin - (p : Int) + 1)) : ℚ)
          * pow2 (max (ilog2 q) emin - (p : Int) + 1)| then
    (if 0 < q then Fp.pinf else Fp.ninf)
  else
    Fp.fin ((roundEven (q / pow2 (max (ilog2 q) emin - (p : Int) + 1)) : ℚ)
      * pow2 (max (ilog2 q) emin - (p : Int) + 1))

/-- Rounding to `float` (binary32). -/
def round32 (q : ℚ) : Fp := roundTo 24 (-126) 127 q

/-- Rounding to `double` (binary64). -/
def round64 (q : ℚ) : Fp := roundTo 53 (-1022) 1023 q

/-- The comparison `a < b` of IEEE 754: false when an operand is NaN. -/
def Fp.lt : Fp → Fp → Prop
  | .fin x, .fin y => x < y
  | .fin _, .pinf => True
  | .ninf, .fin _ => True
  | .ninf, .pinf => True
  | _, _ => False

instance (a b : Fp) : Decidable (Fp.lt a b) := by
  cases a <;> cases b <;> unfold Fp.lt <;> infer_instance

/-- Addition, rounded by `rnd`. -/
def Fp.add (rnd : ℚ → Fp) : Fp → Fp → Fp
  | .fin x, .fin y => rnd (x + y)
  | .nan, _ => .nan
  | _, .nan => .nan
  | .pinf, .ninf => .nan
  | .ninf, .pinf => .nan
  | .pinf, _ => .pinf
  | _, .pinf => .pinf
  | .ninf, _ => .ninf
  | _, .ninf => .ninf

/-- Negation. -/
def Fp.neg : Fp → Fp
  | .fin x => .fin (-x)
  | .pinf => .ninf
  | .ninf => .pinf
  | .nan => .nan

/-- Subtraction, rounded by `rnd`. -/
def Fp.sub (rnd : ℚ → Fp) (a b : Fp) : Fp := Fp.add rnd a (Fp.neg b)

/-- Division, rounded by `rnd`; a zero divisor is `+0`. -/
def Fp.div (rnd : ℚ → Fp) : Fp → Fp → Fp
  | .fin x, .fin y =>
    if y = 0 then (if x = 0 then .nan else if 0 < x then .pinf else .ninf) else rnd (x / y)
  | .nan, _ => .nan
  | _, .nan => .nan
  | .fin _, _ => .fin 0
  | .pinf, .fin y => if 0 ≤ y then .pinf else .ninf
  | .ninf, .fin y => if 0 ≤ y then .ninf else .pinf
  | _, _ => .nan

/-- Absolute value. -/
def Fp.abs : Fp → Fp
  | .fin x => .fin |x|
  | .pinf => .pinf
  | .ninf => .pinf
  | .nan => .nan

/-- Conversion of a `double` to `float`. -/
def Fp.narrow : Fp → Fp
  | .fin x => round32 x
  | a => a


/-- IEEE 754 arithmetic: `float` is binary32 and `double` is binary64, and every
operation rounds its exact result to nearest-even. -/
instance ieeeArith : Arith Fp where
  lt := Fp.lt
  decLt := fun a b => inferInstanceAs (Decidable (Fp.lt a b))
  ofInt i := round32 (i : ℚ)
  narrow := Fp.narrow
  addF := Fp.add round32
  divF := Fp.div round32
  subD := Fp.sub round64
  divD := Fp.div round64
  absD := Fp.abs
  half := Fp.fin (1 / 2)
  fifth := round64 (1 / 5)
  lt_irrefl := by
    intro a
    cases a <;> simp [Fp.lt]
  lt_trans := by
    intro a b c h1 h2
    cases a <;> cases b <;> cases c <;> simp_all [Fp.lt]
    exact lt_trans h1 h2
  lt_cases := by
    intro a b c s h1 h2
    cases a <;> cases b <;> cases c <;> cases s <;> simp_all [Fp.lt]
    all_goals
      by_contra hc
      push_neg at hc
      linarith [hc.1, hc.2]
  neg_one_lt_zero := by decide!
  addF_nonpos := by
    have hpow : ∀ z : Int, 0 < pow2 z := by
      intro z
      unfold pow2
      split_ifs <;> positivity
    have hround : ∀ x : ℚ, x ≤ 0 → roundEven x ≤ 0 := by
      intro x h
      have hf : ⌊x⌋ ≤ 0 := Int.floor_nonpos h
      have hstep : ¬ x - (⌊x⌋ : ℚ) < 1 / 2 → ⌊x⌋ + 1 ≤ 0 := by
        intro hh
        by_contra hcon
        have h0 : ⌊x⌋ = 0 := by omega
        rw [h0] at hh
        simp only [Int.cast_zero, sub_zero, not_lt] at hh
        linarith
      unfold roundEven
      split_ifs with h1 h2 h3
      · exact hf
      · exact hstep h1
      · exact hf
      · exact hstep h1
    have hto : ∀ q : ℚ, q ≤ 0 → ¬ Fp.lt (Fp.fin 0) (round32 q) := by
      intro q h
      unfold round32 roundTo
      split_ifs with h0 h1 h2
      · simp [Fp.lt]
      · exact absurd h2 (not_lt.mpr h)
      · simp [Fp.lt]
      · simp only [Fp.lt, not_lt]
        apply mul_nonpos_of_nonpos_of_nonneg
        · have := hround (q / pow2 (max (ilog2 q) (-126) - ((24 : Nat) : Int) + 1))
            (div_nonpos_of_nonpos_of_nonneg h (le_of_lt (hpow _)))
          exact_mod_cast this
        · exact le_of_lt (hpow _)
    have hzero : round32 ((0 : Int) : ℚ) = Fp.fin 0 := by
      simp [round32, roundTo]
    intro a b ha hb
    simp only [hzero] at ha hb ⊢
    cases a <;> cases b <;> simp_all [Fp.lt, Fp.add]
    exact hto _ (add_nonpos ha hb)


/-! ## Concrete inputs (exact arithmetic) -/

/-- A configuration with one plus-charge and one minus-charge tau score. -/
def cfgTwoTau : ParameterSet ℚ :=
  { dRMax := 2 / 5, jetPtMin := 20, jetEtaMax := 5 / 2, pnetLabel := "reco",
    pnetScoreNames := ["reco:probtaup1h0p", "reco:probtaum1h0p"] }

/-- The producer the constructor builds from `cfgTwoTau`. -/
def prodTwoTau : PATTauHybridProducer ℚ :=
  { dRMax_ := 2 / 5, jetPtMin_ := 20, jetEtaMax_ := 5 / 2, pnetLabel_ := "reco",
    nPnetScores_ := 2,
    pnetTauScoreNames_ := ["probtaup1h0p", "probtaum1h0p"],
    pnetJetScoreNames_ := [],
    pnetLepScoreNames_ := [],
    tagToDM_ := [("1h0p", 0), ("1h1or2p", 1), ("1h1p", 1), ("1h2p", 2), ("3h0p", 10),
      ("3h1p", 11)] }

/-- A jet all of whose scores are `0`. -/
def jetZero : Jet ℚ :=
  { p4 := { pt := 50, eta := 0, phi := 0, mass := 0 }, bDiscriminator := fun _ => 0 }

/-- A jet all of whose scores are `-1`. -/
def jetNegative : Jet ℚ :=
  { p4 := { pt := 50, eta := 0, phi := 0, mass := 0 }, bDiscriminator := fun _ => -1 }

/-- A jet all of whose scores are `1 / 4`. -/
def jetQuarter : Jet ℚ :=
  { p4 := { pt := 50, eta := 0, phi := 0, mass := 0 }, bDiscriminator := fun _ => 1 / 4 }

/-- A configuration with one tau score and one electron score. -/
def cfgEvent : ParameterSet ℚ :=
  { dRMax := 2 / 5, jetPtMin := 20, jetEtaMax := 5 / 2, pnetLabel := "reco",
    pnetScoreNames := ["reco:probtaup3h1p", "reco:probele"] }

/-- The producer the constructor builds from `cfgEvent`. -/
def prodEvent : PATTauHybridProducer ℚ :=
  { dRMax_ := 2 / 5, jetPtMin_ := 20, jetEtaMax_ := 5 / 2, pnetLabel_ := "reco",
    nPnetScores_ := 2,
    pnetTauScoreNames_ := ["probtaup3h1p"],
    pnetJetScoreNames_ := [],
    pnetLepScoreNames_ := ["probele"],
    tagToDM_ := [("1h0p", 0), ("1h1or2p", 1), ("1h1p", 1), ("1h2p", 2), ("3h0p", 10),
      ("3h1p", 11)] }

/-- A stand-in for `reco::deltaR` that separates candidates by pseudorapidity,
with `kNull = -1`. -/
def fwEta : Framework ℚ :=
  { deltaR := fun jet tau => |jet.p4.eta - tau.p4.eta|, kNull := -1 }

/-- A jet at `eta = 0` whose tau score `9 / 10` is the best score. -/
def jetTauLike : Jet ℚ :=
  { p4 := { pt := 50, eta := 0, phi := 0, mass := 0 },
    bDiscriminator := fun s => if s = "reco:probtaup3h1p" then 9 / 10 else 1 / 10 }

/-- A jet at `eta = 1` whose electron score `9 / 10` is the best score. -/
def jetLepLike : Jet ℚ :=
  { p4 := { pt := 60, eta := 1, phi := 0, mass := 0 },
    bDiscriminator := fun s => if s = "reco:probtaup3h1p" then 1 / 10 else 9 / 10 }

/-- An input tau at `eta = 1`. -/
def tauNear : Tau ℚ :=
  { charge := 1, p4 := { pt := 30, eta := 1, phi := 0, mass := 0 },
    tauIDs := [("decayModeFinding", 1)] }

/-- A configuration whose only score name has the character 'x' after "tau". -/
def cfgOtherMarker : ParameterSet ℚ :=
  { dRMax := 2 / 5, jetPtMin := 20, jetEtaMax := 5 / 2, pnetLabel := "reco",
    pnetScoreNames := ["reco:probtaux1h0p"] }

/-- A configuration whose only score name contains both "ele" and "mu". -/
def cfgEleMu : ParameterSet ℚ :=
  { dRMax := 2 / 5, jetPtMin := 20, jetEtaMax := 5 / 2, pnetLabel := "reco",
    pnetScoreNames := ["reco:probelemu"] }

/-- A configuration with one plus-charge and three minus-charge tau scores. -/
def cfgFourTau : ParameterSet ℚ :=
  { dRMax := 2 / 5, jetPtMin := 20, jetEtaMax := 5 / 2, pnetLabel := "reco",
    pnetScoreNames := ["reco:probtaup1h0p", "reco:probtaum1h0p", "reco:probtaum3h0p",
      "reco:probtaum1h1p"] }

/-- A configuration whose only score name is spelled like the placeholder of
line 110. -/
def cfgUndef : ParameterSet ℚ :=
  { dRMax := 2 / 5, jetPtMin := 20, jetEtaMax := 5 / 2, pnetLabel := "reco",
    pnetScoreNames := ["reco:probtauundef"] }

/-- A jet whose plus-charge score `3 / 10` is the best single score and exactly
`3 / 10` of the sum of the tau scores of `cfgFourTau`. -/
def jetBoundary : Jet ℚ :=
  { p4 := { pt := 50, eta := 0, phi := 0, mass := 0 },
    bDiscriminator := fun s =>
      if s = "reco:probtaup1h0p" then 3 / 10
      else if s = "reco:probtaum1h1p" then 1 / 5 else 1 / 4 }

/-! ## Concrete inputs (IEEE arithmetic) -/

/-- A configuration with the `double` thresholds `0.4`, `20.3` and `2.5`, two
tau scores and one electron score. -/
def cfgIeee : ParameterSet Fp :=
  { dRMax := round64 (2 / 5), jetPtMin := round64 (203 / 10), jetEtaMax := round64 (5 / 2),
    pnetLabel := "reco",
    pnetScoreNames := ["reco:probtaup3h1p", "reco:probtaum1h0p", "reco:probele"] }

/-- The producer the constructor builds from `cfgIeee`: the `float` members are
`0.4f = 13421773 / 2 ^ 25`, `20.3f = 5321523 / 2 ^ 18` and `2.5f`. -/
def prodIeee : PATTauHybridProducer Fp :=
  { dRMax_ := Fp.fin (13421773 / 33554432), jetPtMin_ := Fp.fin (5321523 / 262144),
    jetEtaMax_ := Fp.fin (5 / 2), pnetLabel_ := "reco",
    nPnetScores_ := 3,
    pnetTauScoreNames_ := ["probtaup3h1p", "probtaum1h0p"],
    pnetJetScoreNames_ := [],
    pnetLepScoreNames_ := ["probele"],
    tagToDM_ := [("1h0p", 0), ("1h1or2p", 1), ("1h1p", 1), ("1h2p", 2), ("3h0p", 10),
      ("3h1p", 11)] }

/-- A stand-in for `reco::deltaR` that separates candidates by pseudorapidity,
computed in `double`, with `kNull = -1`. -/
def fwIeee : Framework Fp :=
  { deltaR := fun jet tau => Fp.abs (Fp.sub round64 jet.p4.eta tau.p4.eta), kNull := -1 }

/-- A jet with `double` kinematics `pt`, `eta` and the `float` scores `plus`
(for "probtaup3h1p"), `minus` (for "probtaum1h0p") and `other` (for every other
label). -/
def jetIeee (pt eta plus minus other : ℚ) : Jet Fp :=
  { p4 := { pt := round64 pt, eta := round64 eta, phi := Fp.fin 0, mass := Fp.fin 0 },
    bDiscriminator := fun s =>
      if s = "reco:probtaup3h1p" then round32 plus
      else if s = "reco:probtaum1h0p" then round32 minus
      else round32 other }

/-- An input tau with `double` pseudorapidity `eta` and one tag. -/
def tauIeee (eta : ℚ) : Tau Fp :=
  { charge := 1, p4 := { pt := Fp.fin 30, eta := round64 eta, phi := Fp.fin 0, mass := Fp.fin 0 },
    tauIDs := [("decayModeFinding", Fp.fin 1)] }

/-- Three input taus at `eta = 1`, `1.2` and `1.3999999999`. -/
def tausIeee : List (Tau Fp) :=
  [tauIeee 1, tauIeee (6 / 5), tauIeee (13999999999 / 10000000000)]

/-- Three jets at `eta = 1.1`, `1` and `1`. -/
def jetsIeee : List (Jet Fp) :=
  [jetIeee 50 (11 / 10) (9 / 10) (1 / 20) (1 / 20), jetIeee 60 1 (9 / 10) (1 / 20) (1 / 20),
    jetIeee 70 1 (9 / 10) (1 / 20) (1 / 20)]

/-- Two jets far from a tau at `eta = 1`: the first with the tau scores `0.4375`
and `0.1875`, the second with the tau scores `0.9` and `0.05`. -/
def jetsGate : List (Jet Fp) :=
  [jetIeee 50 (-1) (7 / 16) (3 / 16) (1 / 10), jetIeee 50 2 (9 / 10) (1 / 20) (1 / 20)]

/-- A producer with four tau names, in IEEE arithmetic. -/
def prodTie : PATTauHybridProducer Fp :=
  { dRMax_ := Fp.fin (13421773 / 33554432), jetPtMin_ := Fp.fin (5321523 / 262144),
    jetEtaMax_ := Fp.fin (5 / 2), pnetLabel_ := "reco",
    nPnetScores_ := 4,
    pnetTauScoreNames_ := ["probtaup1h0p", "probtaum1h0p", "probtaum3h0p", "probtaup3h1p"],
    pnetJetScoreNames_ := [],
    pnetLepScoreNames_ := [],
    tagToDM_ := [("1h0p", 0), ("1h1or2p", 1), ("1h1p", 1), ("1h2p", 2), ("3h0p", 10),
      ("3h1p", 11)] }

/-- A jet whose scores for "probtaum1h0p" and "probtaum3h0p" are `0.5` and whose
other scores are `2 ^ (-26)`. -/
def jetTie : Jet Fp :=
  { p4 := { pt := Fp.fin 50, eta := Fp.fin 0, phi := Fp.fin 0, mass := Fp.fin 0 },
    bDiscriminator := fun s =>
      if s = "reco:probtaum1h0p" ∨ s = "reco:probtaum3h0p" then Fp.fin (1 / 2)
      else Fp.fin (1 / 67108864) }

/-- Two jets: the first at `eta = 2` with the best score `0.9` for
"probtaup3h1p", the second at `eta = 1` with the best score `0.9` for the
electron name. -/
def jetsStale : List (Jet Fp) :=
  [jetIeee 50 2 (9 / 10) (1 / 20) (1 / 20), jetIeee 60 1 (1 / 20) (1 / 20) (9 / 10)]

/-- Two tau-like jets at `eta = 1`: the first with `pt = 20.1`, the second with
`pt = 20.2999995`. -/
def jetsSoft : List (Jet Fp) :=
  [jetIeee (201 / 10) 1 (9 / 10) (1 / 20) (1 / 20),
    jetIeee (202999995 / 10000000) 1 (9 / 10) (1 / 20) (1 / 20)]

/-! ## Lemmas on strings and on the constructor -/

theorem isPrefixOf_eq_false {pat s : List Char} (h : ¬ pat <+: s) :
    pat.isPrefixOf s = false := by
  rw [Bool.eq_false_iff]
  intro hh
  exact h (List.isPrefixOf_iff_prefix.mp hh)

theorem findAux_eq_none_iff (pat s : List Char) : findAux pat s = none ↔ ¬ pat <:+: s := by
  induction s with
  | nil =>
    cases pat <;> simp [findAux]
  | cons c cs ih =>
    by_cases h : pat <+: c :: cs
    · have h' : pat.isPrefixOf (c :: cs) = true := List.isPrefixOf_iff_prefix.mpr h
      simp [findAux, h', h.isInfix]
    · simp [findAux, isPrefixOf_eq_false h, List.infix_cons_iff, h, ih]

theorem find_ne_none_iff (s pat : String) : find s pat ≠ none ↔ contains s pat := by
  unfold find contains
  rw [Ne, findAux_eq_none_iff, not_not]

theorem find_eq_none_iff (s pat : String) : find s pat = none ↔ ¬ contains s pat := by
  unfold find contains
  exact findAux_eq_none_iff _ _

/-- A found position leaves room for the pattern. -/
theorem findAux_add_le (pat s : List Char) (i : Nat) (h : findAux pat s = some i) :
    i + pat.length ≤ s.length := by
  induction s generalizing i with
  | nil =>
    cases pat <;> simp [findAux] at h
    simp [h]
  | cons c cs ih =>
    by_cases hp : pat <+: c :: cs
    · have h' : pat.isPrefixOf (c :: cs) = true := List.isPrefixOf_iff_prefix.mpr hp
      simp [findAux, h'] at h
      subst h
      simpa using hp.length_le
    · simp [findAux, isPrefixOf_eq_false hp] at h
      obtain ⟨j, hj, rfl⟩ := h
      have := ih j hj
      simp; omega

theorem findAux_colon_eq_none (s : List Char) : findAux [':'] s = none ↔ ':' ∉ s := by
  rw [findAux_eq_none_iff, not_iff_not]
  constructor
  · intro h
    exact h.subset (List.mem_singleton_self _)
  · intro h
    obtain ⟨a, b, rfl⟩ := List.append_of_mem h
    exact ⟨a, b, by simp⟩

theorem findAux_colon (s : List Char) :
    (match findAux [':'] s with | none => 0 | some i => i + 1) ≤ s.length ∧
    s.drop (match findAux [':'] s with | none => 0 | some i => i + 1)
      = if ':' ∈ s then (s.dropWhile (fun c => c ≠ ':')).drop 1 else s := by
  induction s with
  | nil => simp [findAux]
  | cons c cs ih =>
    by_cases hc : c = ':'
    · subst hc
      simp [findAux, List.isPrefixOf]
    · have h1 : List.isPrefixOf [':'] (c :: cs) = false := by
        simp [List.isPrefixOf, Ne.symm hc]
      have h2 : ¬ (':' = c) := Ne.symm hc
      simp only [findAux, h1]
      cases hf : findAux [':'] cs with
      | none =>
        have hn := (findAux_colon_eq_none cs).mp hf
        simp [hn, h2]
      | some i =>
        have hn : ':' ∈ cs := by
          by_contra hcon
          rw [(findAux_colon_eq_none cs).mpr hcon] at hf
          cases hf
        rw [hf] at ih
        simp [hn] at ih
        simp [hn, hc, ih.1, ih.2]


theorem substr_label (scoreName : String) :
    substr scoreName (match find scoreName ":" with | none => 0 | some i => i + 1)
      = some (stripLabel scoreName) := by
  have h := findAux_colon scoreName.data
  have hf : find scoreName ":" = findAux [':'] scoreName.data := rfl
  rw [hf]
  unfold substr stripLabel
  rw [if_pos h.1, h.2]
  by_cases hc : ':' ∈ scoreName.data <;> simp [hc]

omit [Arith R] in
/-- Effect of one iteration of the constructor loop on the three buckets. -/
theorem readScoreName_spec (self : PATTauHybridProducer R) (scoreName : String) :
    ∃ self', self.readScoreName scoreName = some self' ∧
      self'.pnetTauScoreNames_ = self.pnetTauScoreNames_ ++
        [stripLabel scoreName].filter
          (fun n => decide (contains n "prob" ∧ contains n "tau")) ∧
      self'.pnetLepScoreNames_ = self.pnetLepScoreNames_ ++
        [stripLabel scoreName].filter
          (fun n => decide (contains n "prob" ∧ ¬ contains n "tau" ∧
            (contains n "ele" ∨ contains n "mu"))) ∧
      self'.pnetJetScoreNames_ = self.pnetJetScoreNames_ ++
        [stripLabel scoreName].filter
          (fun n => decide (contains n "prob" ∧ ¬ contains n "tau" ∧
            ¬ (contains n "ele" ∨ contains n "mu"))) ∧
      self'.dRMax_ = self.dRMax_ ∧ self'.jetPtMin_ = self.jetPtMin_ ∧
      self'.jetEtaMax_ = self.jetEtaMax_ ∧ self'.pnetLabel_ = self.pnetLabel_ ∧
      self'.tagToDM_ = self.tagToDM_ := by
  unfold PATTauHybridProducer.readScoreName
  simp only [substr_label]
  by_cases hp : contains (stripLabel scoreName) "prob"
  · have hp' : ¬ find (stripLabel scoreName) "prob" = none := (find_ne_none_iff _ _).mpr hp
    by_cases ht : contains (stripLabel scoreName) "tau"
    · have ht' : find (stripLabel scoreName) "tau" ≠ none := (find_ne_none_iff _ _).mpr ht
      simp [hp', ht', hp, ht, List.filter]
    · have ht' : ¬ find (stripLabel scoreName) "tau" ≠ none := by
        rw [find_ne_none_iff]; exact ht
      by_cases hl : contains (stripLabel scoreName) "ele" ∨ contains (stripLabel scoreName) "mu"
      · have hl' : find (stripLabel scoreName) "ele" ≠ none ∨
            find (stripLabel scoreName) "mu" ≠ none := by
          rw [find_ne_none_iff, find_ne_none_iff]; exact hl
        simp only [if_neg hp', if_neg ht', if_pos hl']
        simp [hp, ht, hl, List.filter]
      · have hl' : ¬ (find (stripLabel scoreName) "ele" ≠ none ∨
            find (stripLabel scoreName) "mu" ≠ none) := by
          rw [find_ne_none_iff, find_ne_none_iff]; exact hl
        simp only [if_neg hp', if_neg ht', if_neg hl']
        simp [hp, ht, hl, List.filter]
  · have hp' : find (stripLabel scoreName) "prob" = none := (find_eq_none_iff _ _).mpr hp
    simp [hp', hp, List.filter]

omit [Arith R] in
theorem readScoreNames_spec (names : List String) (self : PATTauHybridProducer R) :
    ∃ self', self.readScoreNames names = some self' ∧
      self'.pnetTauScoreNames_ = self.pnetTauScoreNames_ ++
        (names.map stripLabel).filter
          (fun n => decide (contains n "prob" ∧ contains n "tau")) ∧
      self'.pnetLepScoreNames_ = self.pnetLepScoreNames_ ++
        (names.map stripLabel).filter
          (fun n => decide (contains n "prob" ∧ ¬ contains n "tau" ∧
            (contains n "ele" ∨ contains n "mu"))) ∧
      self'.pnetJetScoreNames_ = self.pnetJetScoreNames_ ++
        (names.map stripLabel).filter
          (fun n => decide (contains n "prob" ∧ ¬ contains n "tau" ∧
            ¬ (contains n "ele" ∨ contains n "mu"))) ∧
      self'.dRMax_ = self.dRMax_ ∧ self'.jetPtMin_ = self.jetPtMin_ ∧
      self'.jetEtaMax_ = self.jetEtaMax_ ∧ self'.pnetLabel_ = self.pnetLabel_ ∧
      self'.tagToDM_ = self.tagToDM_ := by
  induction names generalizing self with
  | nil => exact ⟨self, rfl, by simp⟩
  | cons n rest ih =>
    obtain ⟨s1, h1, ht1, hl1, hj1, e1, e2, e3, e4, e5⟩ := readScoreName_spec self n
    obtain ⟨s2, h2, ht2, hl2, hj2, f1, f2, f3, f4, f5⟩ := ih s1
    refine ⟨s2, ?_, ?_, ?_, ?_, ?_, ?_, ?_, ?_, ?_⟩
    · simp only [PATTauHybridProducer.readScoreNames, h1, h2]
    · rw [ht2, ht1, List.map_cons, ← List.singleton_append (l := List.map stripLabel rest),
        List.filter_append, List.append_assoc]
    · rw [hl2, hl1, List.map_cons, ← List.singleton_append (l := List.map stripLabel rest),
        List.filter_append, List.append_assoc]
    · rw [hj2, hj1, List.map_cons, ← List.singleton_append (l := List.map stripLabel rest),
        List.filter_append, List.append_assoc]
    · rw [f1, e1]
    · rw [f2, e2]
    · rw [f3, e3]
    · rw [f4, e4]
    · rw [f5, e5]

/-- The constructor returns, and its members are the configured values and the
three filtered name lists. -/
theorem ctor_spec (cfg : ParameterSet R) :
    ∃ self, PATTauHybridProducer.ctor cfg = some self ∧
      self.pnetTauScoreNames_ = (cfg.pnetScoreNames.map stripLabel).filter
          (fun n => decide (contains n "prob" ∧ contains n "tau")) ∧
      self.pnetLepScoreNames_ = (cfg.pnetScoreNames.map stripLabel).filter
          (fun n => decide (contains n "prob" ∧ ¬ contains n "tau" ∧
            (contains n "ele" ∨ contains n "mu"))) ∧
      self.pnetJetScoreNames_ = (cfg.pnetScoreNames.map stripLabel).filter
          (fun n => decide (contains n "prob" ∧ ¬ contains n "tau" ∧
            ¬ (contains n "ele" ∨ contains n "mu"))) ∧
      self.dRMax_ = Arith.narrow cfg.dRMax ∧ self.jetPtMin_ = Arith.narrow cfg.jetPtMin ∧
      self.jetEtaMax_ = Arith.narrow cfg.jetEtaMax ∧ self.pnetLabel_ = cfg.pnetLabel ∧
      self.tagToDM_ = (PATTauHybridProducer.init cfg).tagToDM_ := by
  obtain ⟨s, h, ht, hl, hj, e1, e2, e3, e4, e5⟩ :=
    readScoreNames_spec cfg.pnetScoreNames (PATTauHybridProducer.init cfg)
  exact ⟨s, h, by simpa [PATTauHybridProducer.init] using ht,
    by simpa [PATTauHybridProducer.init] using hl,
    by simpa [PATTauHybridProducer.init] using hj, e1, e2, e3, e4, e5⟩

/-! ## Lemmas on the score loops -/

@[simp] theorem lt_rat (a b : ℚ) : Arith.lt a b ↔ a < b := Iff.rfl

@[simp] theorem ofInt_rat (i : Int) : (Arith.ofInt i : ℚ) = (i : ℚ) := rfl

@[simp] theorem narrow_rat (a : ℚ) : Arith.narrow a = a := rfl

@[simp] theorem addF_rat (a b : ℚ) : Arith.addF a b = a + b := rfl

@[simp] theorem divF_rat (a b : ℚ) : Arith.divF a b = a / b := rfl

@[simp] theorem subD_rat (a b : ℚ) : Arith.subD a b = a - b := rfl

@[simp] theorem divD_rat (a b : ℚ) : Arith.divD a b = a / b := rfl

@[simp] theorem absD_rat (a : ℚ) : Arith.absD a = |a| := rfl

@[simp] theorem half_rat : (Arith.half : ℚ) = 1 / 2 := rfl

@[simp] theorem fifth_rat : (Arith.fifth : ℚ) = 1 / 5 := rfl

theorem foldl_addF_rat (xs : List ℚ) (a : ℚ) : xs.foldl Arith.addF a = a + xs.sum := by
  induction xs generalizing a with
  | nil => simp
  | cons x rest ih => simp [List.foldl_cons, ih, add_assoc]

/-- In exact arithmetic the accumulated sum is the sum of the list. -/
theorem sumF_rat (xs : List ℚ) : sumF xs = xs.sum := by
  unfold sumF
  rw [foldl_addF_rat]
  simp

theorem sumF_append_singleton (xs : List R) (x : R) :
    sumF (xs ++ [x]) = Arith.addF (sumF xs) x := by
  unfold sumF
  rw [List.foldl_append]
  rfl

theorem tauScoreLoop_fold_sumF (self : PATTauHybridProducer R) (jet : Jet R)
    (names : List String) (v : TauScores R) :
    (names.foldl (tauScoreStep self jet) v).sumOfPnetTauScores
      = (names.map (score self jet)).foldl Arith.addF v.sumOfPnetTauScores := by
  induction names generalizing v with
  | nil => simp
  | cons n rest ih =>
    rw [List.foldl_cons, ih]
    simp [tauScoreStep, score]

theorem tauScoreLoop_fold_plusF (self : PATTauHybridProducer R) (jet : Jet R)
    (names : List String) (v : TauScores R) :
    (names.foldl (tauScoreStep self jet) v).plusChargeProb
      = ((names.filter (fun n => decide (contains n "taup"))).map (score self jet)).foldl
          Arith.addF v.plusChargeProb := by
  induction names generalizing v with
  | nil => simp
  | cons n rest ih =>
    rw [List.foldl_cons, ih]
    by_cases h : contains n "taup"
    · have h' : find n "taup" ≠ none := (find_ne_none_iff _ _).mpr h
      simp [tauScoreStep, score, h, h']
    · have h' : ¬ find n "taup" ≠ none := by rw [find_ne_none_iff]; exact h
      simp only [tauScoreStep, if_neg h']
      simp [h]

/-- The accumulated `float` sum of the tau-flavor scores. -/
theorem tauScores_sumF (self : PATTauHybridProducer R) (jet : Jet R) :
    (tauScores self jet).sumOfPnetTauScores
      = sumF (self.pnetTauScoreNames_.map (score self jet)) := by
  have h : (tauScoreLoop self jet).sumOfPnetTauScores
      = sumF (self.pnetTauScoreNames_.map (score self jet)) := by
    unfold tauScoreLoop sumF
    rw [tauScoreLoop_fold_sumF]
  unfold tauScores
  simp only []
  split_ifs <;> simp [h]

/-- The value of `plusChargeProb` after line 124, from the accumulated sums. -/
theorem tauScores_plusF (self : PATTauHybridProducer R) (jet : Jet R) :
    (tauScores self jet).plusChargeProb
      = (if Arith.lt (Arith.ofInt 0) (sumF (self.pnetTauScoreNames_.map (score self jet))) then
          Arith.divF
            (sumF ((self.pnetTauScoreNames_.filter (fun n => decide (contains n "taup"))).map
              (score self jet)))
            (sumF (self.pnetTauScoreNames_.map (score self jet)))
        else
          sumF ((self.pnetTauScoreNames_.filter (fun n => decide (contains n "taup"))).map
              (score self jet))) := by
  have h : (tauScoreLoop self jet).sumOfPnetTauScores
      = sumF (self.pnetTauScoreNames_.map (score self jet)) := by
    unfold tauScoreLoop sumF
    rw [tauScoreLoop_fold_sumF]
  have hp : (tauScoreLoop self jet).plusChargeProb
      = sumF ((self.pnetTauScoreNames_.filter (fun n => decide (contains n "taup"))).map
              (score self jet)) := by
    unfold tauScoreLoop sumF
    rw [tauScoreLoop_fold_plusF]
  unfold tauScores
  simp only [h]
  split_ifs <;> simp [h, hp]

theorem lepScores_fold_best (self : PATTauHybridProducer R) (jet : Jet R) (best : String × R)
    (names : List String) (v : LepScores R) :
    (names.foldl (lepScoreStep self jet best) v).isTauScoreBest = true ↔
      v.isTauScoreBest = true ∧ ∀ n ∈ names, ¬ Arith.lt best.2 (score self jet n) := by
  induction names generalizing v with
  | nil => simp
  | cons n rest ih =>
    rw [List.foldl_cons, ih]
    have hstep : (lepScoreStep self jet best v n).isTauScoreBest
        = if Arith.lt best.2 (score self jet n) then false else v.isTauScoreBest := by
      unfold lepScoreStep score
      split_ifs <;> simp_all
    rw [hstep]
    by_cases h : Arith.lt best.2 (score self jet n)
    · simp [h]
    · simp [h, and_assoc]

theorem jetScores_fold_best (self : PATTauHybridProducer R) (jet : Jet R) (best : R)
    (names : List String) (b : Bool) :
    names.foldl (fun b scoreName =>
        if Arith.lt best (jet.bDiscriminator (self.pnetLabel_ ++ ":" ++ scoreName))
        then false else b) b
      = true ↔ b = true ∧ ∀ n ∈ names, ¬ Arith.lt best (score self jet n) := by
  induction names generalizing b with
  | nil => simp
  | cons n rest ih =>
    rw [List.foldl_cons, ih]
    by_cases h : Arith.lt best (score self jet n)
    · have h' : Arith.lt best (jet.bDiscriminator (self.pnetLabel_ ++ ":" ++ n)) := h
      simp [h, h']
    · have h' : ¬ Arith.lt best (jet.bDiscriminator (self.pnetLabel_ ++ ":" ++ n)) := h
      simp [h', h]

theorem isTauScoreBest_iff (self : PATTauHybridProducer R) (jet : Jet R) :
    isTauScoreBest self jet = true ↔
      Arith.lt (Arith.ofInt 0) (tauScores self jet).sumOfPnetTauScores ∧
      (∀ n ∈ self.pnetLepScoreNames_,
        ¬ Arith.lt (tauScores self jet).bestPnetTauScore.2 (score self jet n)) ∧
      (∀ n ∈ self.pnetJetScoreNames_,
        ¬ Arith.lt (tauScores self jet).bestPnetTauScore.2 (score self jet n)) := by
  have hl : (lepScores self jet).isTauScoreBest = true ↔
      Arith.lt (Arith.ofInt 0) (tauScores self jet).sumOfPnetTauScores ∧
      ∀ n ∈ self.pnetLepScoreNames_,
        ¬ Arith.lt (tauScores self jet).bestPnetTauScore.2 (score self jet n) := by
    unfold lepScores
    simp only [lepScores_fold_best]
    simp
  unfold isTauScoreBest
  by_cases hb : (lepScores self jet).isTauScoreBest = true
  · simp only [hb, if_true]
    rw [jetScores_fold_best]
    have := hl.mp hb
    constructor
    · intro h
      exact ⟨this.1, this.2, h.2⟩
    · intro h
      exact ⟨rfl, h.2.2⟩
  · simp only [hb]
    have hn := mt hl.mpr hb
    simp only [Bool.false_eq_true, if_false, false_iff]
    intro h
    exact hn ⟨h.1, h.2.1⟩

theorem tauScores_sum (self : PATTauHybridProducer ℚ) (jet : Jet ℚ) :
    (tauScores self jet).sumOfPnetTauScores
      = (self.pnetTauScoreNames_.map (score self jet)).sum := by
  rw [tauScores_sumF, sumF_rat]

theorem tauScores_plus (self : PATTauHybridProducer ℚ) (jet : Jet ℚ) :
    (tauScores self jet).plusChargeProb
      = (if 0 < (self.pnetTauScoreNames_.map (score self jet)).sum then
          ((self.pnetTauScoreNames_.filter (fun n => decide (contains n "taup"))).map
              (score self jet)).sum
            / (self.pnetTauScoreNames_.map (score self jet)).sum
        else
          ((self.pnetTauScoreNames_.filter (fun n => decide (contains n "taup"))).map
              (score self jet)).sum) := by
  rw [tauScores_plusF]
  simp only [sumF_rat, lt_rat, ofInt_rat, Int.cast_zero, divF_rat]

/-- Non-negative scores with a non-positive total: every filtered sum vanishes. -/
theorem plusSum_eq_zero (self : PATTauHybridProducer ℚ) (jet : Jet ℚ) (names : List String)
    (hnn : ∀ n ∈ names, 0 ≤ score self jet n)
    (hle : (names.map (score self jet)).sum ≤ 0) :
    ((names.filter (fun n => decide (contains n "taup"))).map (score self jet)).sum = 0 := by
  induction names with
  | nil => simp
  | cons n rest ih =>
    have h0 : 0 ≤ score self jet n := hnn n (List.mem_cons_self _ _)
    have hrest : ∀ m ∈ rest, 0 ≤ score self jet m :=
      fun m hm => hnn m (List.mem_cons_of_mem _ hm)
    have hsum : 0 ≤ (rest.map (score self jet)).sum :=
      List.sum_nonneg (by intro x hx; obtain ⟨m, hm, rfl⟩ := List.mem_map.mp hx; exact hrest m hm)
    simp only [List.map_cons, List.sum_cons] at hle
    have hn0 : score self jet n = 0 := by linarith
    have hr0 : (rest.map (score self jet)).sum ≤ 0 := by linarith
    have := ih hrest hr0
    by_cases hc : contains n "taup"
    · simp [List.filter, hc, hn0, this]
    · simp [List.filter, hc, this]

theorem name_data (c : Char) (tag : String) :
    ("probtau" ++ String.singleton c ++ tag).data
      = 'p' :: 'r' :: 'o' :: 'b' :: 't' :: 'a' :: 'u' :: c :: tag.data := by
  simp [String.data_append, String.singleton, String.push]

theorem find_tau_probtau (c : Char) (tag : String) :
    find ("probtau" ++ String.singleton c ++ tag) "tau" = some 4 := by
  unfold find
  rw [name_data]
  have : "tau".data = ['t', 'a', 'u'] := rfl
  rw [this]
  simp [findAux, List.isPrefixOf]

theorem chargeMarker_probtau (c : Char) (tag : String) :
    chargeMarker ("probtau" ++ String.singleton c ++ tag)
      = if c = 'm' then (8, -1) else if c = 'p' then (8, 1) else (7, 0) := by
  unfold chargeMarker
  simp only [find_tau_probtau]
  have hlen : 4 + 3 < ("probtau" ++ String.singleton c ++ tag).data.length := by
    rw [name_data]; simp
  rw [dif_pos hlen]
  have hget : ("probtau" ++ String.singleton c ++ tag).data[4 + 3] = c := by
    simp [name_data]
  rw [hget]

theorem substr_probtau (c : Char) (tag : String) :
    substr ("probtau" ++ String.singleton c ++ tag) 8 = some tag ∧
    substr ("probtau" ++ String.singleton c ++ tag) 7 = some (String.singleton c ++ tag) := by
  unfold substr
  rw [name_data]
  constructor
  · simp
  · simp [String.ext_iff, String.data_append, String.singleton, String.push]

/-! ## Lemmas on the jet loop -/

theorem tauKey_of_lt {i : Nat} (h : i < 2 ^ 32) : tauKey i = i := Nat.mod_eq_of_lt h

omit [Arith R] in
theorem setSecond_map_fst (ids : List (IdPair R)) (idx : Nat) (v : R) :
    (setSecond ids idx v).map Prod.fst = ids.map Prod.fst := by
  induction ids generalizing idx with
  | nil => simp [setSecond]
  | cons p ps ih =>
    cases idx with
    | zero => simp [setSecond]
    | succ k => simp [setSecond, ih]

theorem setDiscriminants_map_fst (self : PATTauHybridProducer R) (jet : Jet R) (ids : List (IdPair R)) :
    (setDiscriminants self jet ids).map Prod.fst = ids.map Prod.fst := by
  simp [setDiscriminants, setSecond_map_fst]

theorem bestName_fold (self : PATTauHybridProducer R) (jet : Jet R) (names : List String)
    (v : TauScores R) :
    (names.foldl (tauScoreStep self jet) v).bestPnetTauScore.1 = v.bestPnetTauScore.1 ∨
    (names.foldl (tauScoreStep self jet) v).bestPnetTauScore.1 ∈ names := by
  induction names generalizing v with
  | nil => simp
  | cons n rest ih =>
    rw [List.foldl_cons]
    rcases ih (tauScoreStep self jet v n) with h | h
    · rw [h]
      unfold tauScoreStep
      simp only []
      split_ifs
      · right; simp
      · left; trivial
    · right; exact List.mem_cons_of_mem _ h

theorem tauScores_bestName (self : PATTauHybridProducer R) (jet : Jet R) :
    (tauScores self jet).bestPnetTauScore.1 = "probtauundef" ∨
    (tauScores self jet).bestPnetTauScore.1 ∈ self.pnetTauScoreNames_ := by
  have h : (tauScores self jet).bestPnetTauScore = (tauScoreLoop self jet).bestPnetTauScore := by
    unfold tauScores
    simp only []
    split_ifs <;> rfl
  rw [h]
  unfold tauScoreLoop
  exact bestName_fold self jet _ _

theorem chargeMarker_le (name : String) (h : contains name "tau") :
    (chargeMarker name).1 ≤ name.data.length := by
  have hf : find name "tau" ≠ none := (find_ne_none_iff _ _).mpr h
  obtain ⟨i, hi⟩ := Option.ne_none_iff_exists'.mp hf
  have hle : i + 3 ≤ name.data.length := by
    have := findAux_add_le "tau".data name.data i hi
    simpa using this
  unfold chargeMarker
  simp only [hi]
  by_cases hlt : i + 3 < name.data.length
  · rw [dif_pos hlt]
    split_ifs <;> dsimp only <;> omega
  · rw [dif_neg hlt]
    split_ifs <;> dsimp only <;> first | exact hle | (exfalso; simp_all)

theorem ctor_tauNamesOk (cfg : ParameterSet R) (self : PATTauHybridProducer R)
    (h : PATTauHybridProducer.ctor cfg = some self) : TauNamesOk self := by
  obtain ⟨s, hs, ht, -⟩ := ctor_spec cfg
  rw [h] at hs
  cases hs
  intro n hn
  rw [ht] at hn
  simp only [List.mem_filter, decide_eq_true_eq] at hn
  exact hn.2.2

theorem chargeAndDM_some (self : PATTauHybridProducer R) (hok : TauNamesOk self) (jet : Jet R)
    (ids : List (IdPair R)) :
    ∃ c ids', chargeAndDM self jet ids = some (c, ids') ∧
      ids'.map Prod.fst = ids.map Prod.fst ∧
      (isTauScoreBest self jet = true →
        c = (chargeMarker (tauScores self jet).bestPnetTauScore.1).2) := by
  unfold chargeAndDM
  by_cases hb : isTauScoreBest self jet = true
  · simp only [hb, if_true]
    have hc : contains (tauScores self jet).bestPnetTauScore.1 "tau" := by
      rcases tauScores_bestName self jet with h | h
      · rw [h]; decide
      · exact hok _ h
    have hle := chargeMarker_le _ hc
    unfold substr
    rw [if_pos hle]
    simp only []
    split
    · exact ⟨_, _, rfl, setSecond_map_fst _ _ _, fun _ => rfl⟩
    · exact ⟨_, _, rfl, rfl, fun _ => rfl⟩
  · simp only [hb]
    exact ⟨0, ids, rfl, rfl, fun h => absurd h (by simp)⟩

theorem tauLoop_spec (self : PATTauHybridProducer R) (fw : Framework R) (jet : Jet R)
    (rest : List (Tau R)) (idx : Nat) (st : LoopState R) (hb : idx + rest.length ≤ 2 ^ 32) :
    (∃ j t, rest[j]? = some t ∧ (idx + j) ∉ st.matched_taus ∧
        withinDR self fw jet t ∧
        (∀ j' t', j' < j → rest[j']? = some t' →
          (idx + j') ∈ st.matched_taus ∨ ¬ withinDR self fw jet t') ∧
        tauLoop self fw jet rest idx st =
          ({ st with
              matched_taus := (idx + j) :: st.matched_taus
              outputTaus := st.outputTaus ++ [augmentedTau t st.tauIds_pnet] }, true)) ∨
    ((∀ j t, rest[j]? = some t →
          (idx + j) ∈ st.matched_taus ∨ ¬ withinDR self fw jet t) ∧
        tauLoop self fw jet rest idx st = (st, false)) := by
  induction rest generalizing idx with
  | nil => right; simp [tauLoop]
  | cons t rest ih =>
    have hidx : idx < 2 ^ 32 := by simp at hb; omega
    have hb' : idx + 1 + rest.length ≤ 2 ^ 32 := by simp at hb; omega
    have hkey : tauKey (idx + 1 - 1) = idx := by
      rw [Nat.add_sub_cancel]; exact tauKey_of_lt hidx
    unfold tauLoop
    simp only [hkey]
    have hstep : ∀ (h0 : idx ∈ st.matched_taus ∨ ¬ withinDR self fw jet t),
        (∃ j t', (t :: rest)[j]? = some t' ∧ (idx + j) ∉ st.matched_taus ∧
          withinDR self fw jet t' ∧
          (∀ j' t'', j' < j → (t :: rest)[j']? = some t'' →
            (idx + j') ∈ st.matched_taus ∨ ¬ withinDR self fw jet t'') ∧
          tauLoop self fw jet rest (idx + 1) st =
            ({ st with
                matched_taus := (idx + j) :: st.matched_taus
                outputTaus := st.outputTaus ++ [augmentedTau t' st.tauIds_pnet] }, true)) ∨
        ((∀ j t', (t :: rest)[j]? = some t' →
            (idx + j) ∈ st.matched_taus ∨ ¬ withinDR self fw jet t') ∧
          tauLoop self fw jet rest (idx + 1) st = (st, false)) := by
      intro h0
      rcases ih (idx + 1) hb' with ⟨j, t', hj, hnm, hd, hmin, heq⟩ | ⟨hall, heq⟩
      · left
        refine ⟨j + 1, t', by simpa using hj, ?_, hd, ?_, ?_⟩
        · rw [← Nat.add_assoc, Nat.add_right_comm]; exact hnm
        · intro j' t'' hlt hget
          cases j' with
          | zero =>
            simp at hget; subst hget; simpa using h0
          | succ k =>
            have := hmin k t'' (by omega) (by simpa using hget)
            rw [← Nat.add_assoc, Nat.add_right_comm]; exact this
        · rw [heq, ← Nat.add_assoc, Nat.add_right_comm]
      · right
        refine ⟨?_, heq⟩
        intro j t' hget
        cases j with
        | zero => simp at hget; subst hget; simpa using h0
        | succ k =>
          have := hall k t' (by simpa using hget)
          rw [← Nat.add_assoc, Nat.add_right_comm]; exact this
    by_cases hm : idx ∈ st.matched_taus
    · rw [if_pos hm]
      exact hstep (Or.inl hm)
    · rw [if_neg hm]
      by_cases hd : withinDR self fw jet t
      · rw [if_pos (show Arith.lt (Arith.narrow (fw.deltaR jet t)) self.dRMax_ from hd)]
        left
        refine ⟨0, t, by simp, by simpa using hm, hd, ?_, by simp⟩
        intro j' t' hlt
        omega
      · rw [if_neg (show ¬ Arith.lt (Arith.narrow (fw.deltaR jet t)) self.dRMax_ from hd)]
        exact hstep (Or.inr hd)

/-- The outcome of one iteration of the jet loop. -/
theorem jetStep_spec (self : PATTauHybridProducer R) (hok : TauNamesOk self) (fw : Framework R)
    (inputTaus : List (Tau R)) (hlen : inputTaus.length ≤ 2 ^ 32) (st : LoopState R) (jet : Jet R) :
    ∃ st', jetStep self fw inputTaus st jet = some st' ∧
      ((¬ passesCuts self jet ∧ st' = st) ∨
       (passesCuts self jet ∧
        ∃ c ids, chargeAndDM self jet (setDiscriminants self jet st.tauIds_pnet) = some (c, ids) ∧
          ids.map Prod.fst = st.tauIds_pnet.map Prod.fst ∧
          (isTauScoreBest self jet = true →
            c = (chargeMarker (tauScores self jet).bestPnetTauScore.1).2) ∧
          st'.tauIds_pnet = ids ∧
          ((∃ i t, inputTaus[i]? = some t ∧ i ∉ st.matched_taus ∧
              withinDR self fw jet t ∧
              (∀ i' t', i' < i → inputTaus[i']? = some t' →
                i' ∈ st.matched_taus ∨ ¬ withinDR self fw jet t') ∧
              st'.matched_taus = i :: st.matched_taus ∧
              st'.outputTaus = st.outputTaus ++ [augmentedTau t ids]) ∨
           ((∀ i t, inputTaus[i]? = some t →
                i ∈ st.matched_taus ∨ ¬ withinDR self fw jet t) ∧
              st'.matched_taus = st.matched_taus ∧
              ((isTauScoreBest self jet = true ∧
                  ¬ Arith.lt (Arith.absD (Arith.subD Arith.half (tauScores self jet).plusChargeProb)) Arith.fifth ∧
                  st'.outputTaus = st.outputTaus ++ [tauFromJet jet c ids]) ∨
               (¬ (isTauScoreBest self jet = true ∧
                  ¬ Arith.lt (Arith.absD (Arith.subD Arith.half (tauScores self jet).plusChargeProb)) Arith.fifth) ∧
                  st'.outputTaus = st.outputTaus)))))) := by
  unfold jetStep
  by_cases hpt : Arith.lt jet.pt self.jetPtMin_
  · rw [if_pos hpt]
    exact ⟨st, rfl, Or.inl ⟨fun h => h.1 hpt, rfl⟩⟩
  rw [if_neg hpt]
  by_cases heta : Arith.lt self.jetEtaMax_ (Arith.absD jet.eta)
  · rw [if_pos heta]
    exact ⟨st, rfl, Or.inl ⟨fun h => h.2 heta, rfl⟩⟩
  rw [if_neg heta]
  have hpass : passesCuts self jet := ⟨hpt, heta⟩
  obtain ⟨c, ids, hcd, hnames, hch⟩ :=
    chargeAndDM_some self hok jet (setDiscriminants self jet st.tauIds_pnet)
  rw [setDiscriminants_map_fst] at hnames
  simp only [hcd]
  rcases tauLoop_spec self fw jet inputTaus 0 { st with tauIds_pnet := ids }
      (by simpa using hlen) with ⟨i, t, hi, hnm, hd, hmin, heq⟩ | ⟨hall, heq⟩
  · simp only [Nat.zero_add] at hnm hmin heq
    rw [heq]
    simp only [if_true]
    refine ⟨_, rfl, Or.inr ⟨hpass, c, ids, rfl, hnames, hch, rfl, Or.inl ⟨i, t, hi, hnm, hd, hmin, rfl, rfl⟩⟩⟩
  · simp only [Nat.zero_add] at hall
    rw [heq]
    simp only [Bool.false_eq_true, if_false]
    by_cases hg : isTauScoreBest self jet = true ∧
        ¬ Arith.lt (Arith.absD (Arith.subD Arith.half (tauScores self jet).plusChargeProb)) Arith.fifth
    · have hcond : (!(isTauScoreBest self jet)
          || decide (Arith.lt (Arith.absD (Arith.subD Arith.half (tauScores self jet).plusChargeProb)) Arith.fifth)) = false := by
        rw [hg.1, decide_eq_false hg.2]; rfl
      rw [hcond]
      simp only [Bool.false_eq_true, if_false]
      exact ⟨_, rfl, Or.inr ⟨hpass, c, ids, rfl, hnames, hch, rfl,
        Or.inr ⟨hall, rfl, Or.inl ⟨hg.1, hg.2, rfl⟩⟩⟩⟩
    · have hcond : (!(isTauScoreBest self jet)
          || decide (Arith.lt (Arith.absD (Arith.subD Arith.half (tauScores self jet).plusChargeProb)) Arith.fifth)) = true := by
        by_cases hb : isTauScoreBest self jet = true
        · have : Arith.lt (Arith.absD (Arith.subD Arith.half (tauScores self jet).plusChargeProb)) Arith.fifth := by
            by_contra hcon; exact hg ⟨hb, hcon⟩
          rw [decide_eq_true this, Bool.or_true]
        · simp [hb]
      rw [hcond]
      simp only [if_true]
      exact ⟨_, rfl, Or.inr ⟨hpass, c, ids, rfl, hnames, hch, rfl,
        Or.inr ⟨hall, rfl, Or.inr ⟨hg, rfl⟩⟩⟩⟩

theorem lt_length_of_getElem? {α : Type} {l : List α} {i : Nat} {a : α}
    (h : l[i]? = some a) : i < l.length := by
  by_contra hc
  rw [List.getElem?_eq_none (not_lt.mp hc)] at h
  cases h

theorem jetStep_inv (self : PATTauHybridProducer R) (hok : TauNamesOk self) (fw : Framework R)
    (inputTaus : List (Tau R)) (hlen : inputTaus.length ≤ 2 ^ 32) (st st' : LoopState R) (jet : Jet R)
    (hinv : LoopInv fw inputTaus st) (h : jetStep self fw inputTaus st jet = some st') :
    LoopInv fw inputTaus st' ∧ st.matched_taus ⊆ st'.matched_taus ∧
      st.outputTaus <+: st'.outputTaus := by
  obtain ⟨s, hs, hcase⟩ := jetStep_spec self hok fw inputTaus hlen st jet
  rw [h] at hs
  cases hs
  obtain ⟨hnd, hrange, hnames⟩ := hinv
  rcases hcase with ⟨-, rfl⟩ | ⟨-, c, ids, -, hn, -, hids, hrest⟩
  · exact ⟨⟨hnd, hrange, hnames⟩, List.Subset.refl _, List.prefix_refl _⟩
  · have hnames' : st'.tauIds_pnet.map Prod.fst = (tauIds_pnet_init fw).map Prod.fst := by
      rw [hids, hn, hnames]
    rcases hrest with ⟨i, t, hi, hnm, -, -, hm, ho⟩ | ⟨-, hm, hout⟩
    · refine ⟨⟨?_, ?_, hnames'⟩, ?_, ?_⟩
      · rw [hm]; exact List.nodup_cons.mpr ⟨hnm, hnd⟩
      · intro x hx
        rw [hm] at hx
        rcases List.mem_cons.mp hx with rfl | hx
        · exact lt_length_of_getElem? hi
        · exact hrange x hx
      · rw [hm]; exact List.subset_cons_self _ _
      · rw [ho]; exact List.prefix_append _ _
    · refine ⟨⟨?_, ?_, hnames'⟩, ?_, ?_⟩
      · rw [hm]; exact hnd
      · rw [hm]; exact hrange
      · rw [hm]; exact List.Subset.refl _
      rcases hout with ⟨-, -, ho⟩ | ⟨-, ho⟩
      · rw [ho]; exact List.prefix_append _ _
      · rw [ho]

theorem jetLoop_append (self : PATTauHybridProducer R) (fw : Framework R) (inputTaus : List (Tau R))
    (l₁ l₂ : List (Jet R)) (st : LoopState R) :
    jetLoop self fw inputTaus st (l₁ ++ l₂)
      = (jetLoop self fw inputTaus st l₁).bind (fun s => jetLoop self fw inputTaus s l₂) := by
  induction l₁ generalizing st with
  | nil => simp [jetLoop]
  | cons j rest ih =>
    simp only [List.cons_append, jetLoop]
    cases hj : jetStep self fw inputTaus st j with
    | none => simp
    | some s => simp [ih]

theorem jetLoop_total (self : PATTauHybridProducer R) (hok : TauNamesOk self) (fw : Framework R)
    (inputTaus : List (Tau R)) (hlen : inputTaus.length ≤ 2 ^ 32) (jets : List (Jet R)) (st : LoopState R)
    (hinv : LoopInv fw inputTaus st) :
    ∃ st', jetLoop self fw inputTaus st jets = some st' ∧ LoopInv fw inputTaus st' := by
  induction jets generalizing st with
  | nil => exact ⟨st, rfl, hinv⟩
  | cons j rest ih =>
    obtain ⟨s, hs, -⟩ := jetStep_spec self hok fw inputTaus hlen st j
    obtain ⟨hinv', -, -⟩ := jetStep_inv self hok fw inputTaus hlen st s j hinv hs
    obtain ⟨s', hs', hi'⟩ := ih s hinv'
    exact ⟨s', by simp only [jetLoop, hs, hs'], hi'⟩

theorem loopInv_init (fw : Framework R) (inputTaus : List (Tau R)) :
    LoopInv fw inputTaus (LoopState.init fw) := by
  simp [LoopInv, LoopState.init]

/-- The states before and after the iteration of the jet at position `k`. -/
theorem stateAfter_succ (self : PATTauHybridProducer R) (hok : TauNamesOk self) (fw : Framework R)
    (inputTaus : List (Tau R)) (hlen : inputTaus.length ≤ 2 ^ 32) (jets : List (Jet R)) (k : Nat) :
    ∃ s s', stateAfter self fw inputTaus jets k = some s ∧
      stateAfter self fw inputTaus jets (k + 1) = some s' ∧
      LoopInv fw inputTaus s ∧ LoopInv fw inputTaus s' ∧
      ((jets.length ≤ k ∧ s' = s) ∨
        ∃ jet, jets[k]? = some jet ∧ jetStep self fw inputTaus s jet = some s') := by
  obtain ⟨s, hs, hi⟩ :=
    jetLoop_total self hok fw inputTaus hlen (jets.take k) _ (loopInv_init fw inputTaus)
  have hs0 : stateAfter self fw inputTaus jets k = some s := hs
  by_cases hk : k < jets.length
  · have hget : jets[k]? = some jets[k] := List.getElem?_eq_getElem hk
    obtain ⟨s', hs', -⟩ := jetStep_spec self hok fw inputTaus hlen s jets[k]
    obtain ⟨hi', -, -⟩ := jetStep_inv self hok fw inputTaus hlen s s' _ hi hs'
    refine ⟨s, s', hs0, ?_, hi, hi', Or.inr ⟨jets[k], hget, hs'⟩⟩
    unfold stateAfter
    rw [List.take_succ, hget, Option.toList, jetLoop_append, hs]
    simp [jetLoop, hs']
  · have hk' : jets.length ≤ k := not_lt.mp hk
    refine ⟨s, s, hs0, ?_, hi, hi, Or.inl ⟨hk', rfl⟩⟩
    unfold stateAfter
    rw [List.take_of_length_le (by omega)]
    rw [List.take_of_length_le hk'] at hs
    exact hs

theorem claimedBy_eq (self : PATTauHybridProducer R) (fw : Framework R) (inputTaus : List (Tau R))
    (jets : List (Jet R)) (k : Nat) (s s' : LoopState R)
    (hs : stateAfter self fw inputTaus jets k = some s)
    (hs' : stateAfter self fw inputTaus jets (k + 1) = some s') :
    claimedBy self fw inputTaus jets k
      = s'.matched_taus.filter (fun i => decide (i ∉ s.matched_taus)) := by
  unfold claimedBy
  rw [hs, hs']

theorem emittedBy_eq (self : PATTauHybridProducer R) (fw : Framework R) (inputTaus : List (Tau R))
    (jets : List (Jet R)) (k : Nat) (s s' : LoopState R)
    (hs : stateAfter self fw inputTaus jets k = some s)
    (hs' : stateAfter self fw inputTaus jets (k + 1) = some s') :
    emittedBy self fw inputTaus jets k = s'.outputTaus.drop s.outputTaus.length := by
  unfold emittedBy
  rw [hs, hs']

theorem filter_not_mem_self (m : List Nat) :
    m.filter (fun i => decide (i ∉ m)) = [] := by
  rw [List.filter_eq_nil_iff]
  intro a ha
  simpa using ha

theorem filter_not_mem_cons (m : List Nat) (i : Nat) (hi : i ∉ m) :
    (i :: m).filter (fun x => decide (x ∉ m)) = [i] := by
  rw [List.filter_cons_of_pos (by simpa using hi), filter_not_mem_self]

/-- The keys in `matched_taus` after `k` jets are the taus claimed by these jets. -/
theorem mem_matched_iff (self : PATTauHybridProducer R) (hok : TauNamesOk self) (fw : Framework R)
    (inputTaus : List (Tau R)) (hlen : inputTaus.length ≤ 2 ^ 32) (jets : List (Jet R)) (k : Nat)
    (s : LoopState R) (hs : stateAfter self fw inputTaus jets k = some s) (i : Nat) :
    i ∈ s.matched_taus ↔ ¬ unclaimedBefore self fw inputTaus jets k i := by
  unfold unclaimedBefore
  induction k generalizing s with
  | zero =>
    have : s = LoopState.init fw := by
      simp [stateAfter, jetLoop] at hs
      exact hs.symm
    subst this
    simp [LoopState.init]
  | succ k ih =>
    obtain ⟨s0, s1, h0, h1, hi0, -, hcase⟩ := stateAfter_succ self hok fw inputTaus hlen jets k
    rw [hs] at h1
    cases h1
    have hcl := claimedBy_eq self fw inputTaus jets k s0 s h0 hs
    have hsub : s0.matched_taus ⊆ s.matched_taus := by
      rcases hcase with ⟨-, rfl⟩ | ⟨jet, -, hstep⟩
      · exact List.Subset.refl _
      · exact (jetStep_inv self hok fw inputTaus hlen s0 s jet hi0 hstep).2.1
    have hmem : i ∈ s.matched_taus ↔
        i ∈ s0.matched_taus ∨ i ∈ claimedBy self fw inputTaus jets k := by
      rw [hcl, List.mem_filter]
      constructor
      · intro h
        by_cases h0' : i ∈ s0.matched_taus
        · exact Or.inl h0'
        · exact Or.inr ⟨h, by simpa using h0'⟩
      · rintro (h | h)
        · exact hsub h
        · exact h.1
    rw [hmem, ih s0 h0]
    constructor
    · rintro (h | h) hall
      · exact h (fun k' hk' => hall k' (by omega))
      · exact hall k (by omega) h
    · intro h
      by_contra hcon
      push_neg at hcon
      apply h
      intro k' hk' hmem'
      rcases Nat.lt_succ_iff_lt_or_eq.mp hk' with hlt | rfl
      · exact hcon.1 k' hlt hmem'
      · exact hcon.2 hmem'

/-- What the jet at position `k` claims and emits. -/
theorem outcome_at (self : PATTauHybridProducer R) (hok : TauNamesOk self) (fw : Framework R)
    (inputTaus : List (Tau R)) (hlen : inputTaus.length ≤ 2 ^ 32) (jets : List (Jet R)) (k : Nat)
    (jet : Jet R) (hk : jets[k]? = some jet) :
    (¬ passesCuts self jet ∧ claimedBy self fw inputTaus jets k = [] ∧
      emittedBy self fw inputTaus jets k = []) ∨
    (passesCuts self jet ∧
      ∃ s c ids, stateAfter self fw inputTaus jets k = some s ∧
        chargeAndDM self jet (setDiscriminants self jet s.tauIds_pnet) = some (c, ids) ∧
        ids.map Prod.fst = (tauIds_pnet_init fw).map Prod.fst ∧
        ((∃ i t, inputTaus[i]? = some t ∧ unclaimedBefore self fw inputTaus jets k i ∧
            withinDR self fw jet t ∧
            (∀ i' t', i' < i → inputTaus[i']? = some t' →
              unclaimedBefore self fw inputTaus jets k i' → ¬ withinDR self fw jet t') ∧
            claimedBy self fw inputTaus jets k = [i] ∧
            emittedBy self fw inputTaus jets k = [augmentedTau t ids]) ∨
         ((∀ i t, inputTaus[i]? = some t → unclaimedBefore self fw inputTaus jets k i →
              ¬ withinDR self fw jet t) ∧
            claimedBy self fw inputTaus jets k = [] ∧
            ((passesGate self jet ∧
                emittedBy self fw inputTaus jets k =
                  [tauFromJet jet (chargeMarker (tauScores self jet).bestPnetTauScore.1).2 ids]) ∨
             (¬ passesGate self jet ∧ emittedBy self fw inputTaus jets k = []))))) := by
  obtain ⟨s, s', hs, hs', hi, -, hcase⟩ := stateAfter_succ self hok fw inputTaus hlen jets k
  have hstep : jetStep self fw inputTaus s jet = some s' := by
    rcases hcase with ⟨hle, -⟩ | ⟨jet', hget, hstep⟩
    · rw [List.getElem?_eq_none hle] at hk; cases hk
    · rw [hk] at hget; cases hget; exact hstep
  have hcl := claimedBy_eq self fw inputTaus jets k s s' hs hs'
  have hem := emittedBy_eq self fw inputTaus jets k s s' hs hs'
  have hmm := mem_matched_iff self hok fw inputTaus hlen jets k s hs
  obtain ⟨s2, hs2, hspec⟩ := jetStep_spec self hok fw inputTaus hlen s jet
  rw [hstep] at hs2
  cases hs2
  rcases hspec with ⟨hnp, rfl⟩ | ⟨hp, c, ids, hcd, hn, hch, -, hrest⟩
  · left
    refine ⟨hnp, ?_, ?_⟩
    · rw [hcl, filter_not_mem_self]
    · rw [hem]; simp
  · right
    refine ⟨hp, s, c, ids, hs, hcd, by rw [hn, hi.2.2], ?_⟩
    rcases hrest with ⟨i, t, hget, hnm, hd, hmin, hm, ho⟩ | ⟨hall, hm, hout⟩
    · left
      refine ⟨i, t, hget, ?_, hd, ?_, ?_, ?_⟩
      · by_contra hcon
        exact hnm ((hmm i).mpr hcon)
      · intro i' t' hlt hget' hun
        rcases hmin i' t' hlt hget' with h | h
        · exact absurd hun ((hmm i').mp h)
        · exact h
      · rw [hcl, hm, filter_not_mem_cons _ _ hnm]
      · rw [hem, ho]; simp
    · right
      refine ⟨?_, ?_, ?_⟩
      · intro i t hget hun
        rcases hall i t hget with h | h
        · exact absurd hun ((hmm i).mp h)
        · exact h
      · rw [hcl, hm, filter_not_mem_self]
      · rcases hout with ⟨hb, hq, ho⟩ | ⟨hng, ho⟩
        · left
          refine ⟨⟨hb, hq⟩, ?_⟩
          rw [hem, ho, ← hch hb]; simp
        · right
          refine ⟨hng, ?_⟩
          rw [hem, ho]; simp

theorem output_eq_flatMap (self : PATTauHybridProducer R) (hok : TauNamesOk self) (fw : Framework R)
    (inputTaus : List (Tau R)) (hlen : inputTaus.length ≤ 2 ^ 32) (jets : List (Jet R)) (k : Nat)
    (s : LoopState R) (hs : stateAfter self fw inputTaus jets k = some s) :
    s.outputTaus = (List.range k).flatMap (emittedBy self fw inputTaus jets) := by
  induction k generalizing s with
  | zero =>
    have : s = LoopState.init fw := by
      simp [stateAfter, jetLoop] at hs
      exact hs.symm
    subst this
    simp [LoopState.init]
  | succ k ih =>
    obtain ⟨s0, s1, h0, h1, hi0, -, hcase⟩ := stateAfter_succ self hok fw inputTaus hlen jets k
    rw [hs] at h1
    cases h1
    have hem := emittedBy_eq self fw inputTaus jets k s0 s h0 hs
    have hpre : s0.outputTaus <+: s.outputTaus := by
      rcases hcase with ⟨-, rfl⟩ | ⟨jet, -, hstep⟩
      · exact List.prefix_refl _
      · exact (jetStep_inv self hok fw inputTaus hlen s0 s jet hi0 hstep).2.2
    obtain ⟨r, hr⟩ := hpre
    have hk1 : [k].flatMap (emittedBy self fw inputTaus jets)
        = emittedBy self fw inputTaus jets k := by simp [List.flatMap]
    rw [List.range_succ, List.flatMap_append, ← ih s0 h0, hk1, hem, ← hr]
    simp

theorem emittedBy_length_le (self : PATTauHybridProducer R) (hok : TauNamesOk self)
    (fw : Framework R) (inputTaus : List (Tau R)) (hlen : inputTaus.length ≤ 2 ^ 32) (jets : List (Jet R))
    (k : Nat) :
    (emittedBy self fw inputTaus jets k).length ≤ 1 ∧
      (claimedBy self fw inputTaus jets k).length ≤ 1 := by
  cases hk : jets[k]? with
  | none =>
    obtain ⟨s, s', hs, hs', -, -, hcase⟩ := stateAfter_succ self hok fw inputTaus hlen jets k
    rcases hcase with ⟨-, rfl⟩ | ⟨jet, hget, -⟩
    · rw [emittedBy_eq self fw inputTaus jets k s' s' hs hs',
        claimedBy_eq self fw inputTaus jets k s' s' hs hs', filter_not_mem_self]
      simp
    · rw [hk] at hget; cases hget
  | some jet =>
    rcases outcome_at self hok fw inputTaus hlen jets k jet hk with
      ⟨-, hc, he⟩ | ⟨-, s, c, ids, -, -, -, hrest⟩
    · rw [hc, he]; simp
    · rcases hrest with ⟨i, t, -, -, -, -, hc, he⟩ | ⟨-, hc, hout⟩
      · rw [hc, he]; simp
      · rcases hout with ⟨-, he⟩ | ⟨-, he⟩ <;> rw [hc, he] <;> simp

theorem unmatchedTau_names (t : Tau R) (ids ids' : List (IdPair R))
    (h : ids.map Prod.fst = ids'.map Prod.fst) : unmatchedTau t ids = unmatchedTau t ids' := by
  unfold unmatchedTau
  have : ids.map (fun p => (p.1, (Arith.ofInt (-1) : R))) = ids'.map (fun p => (p.1, (Arith.ofInt (-1) : R))) := by
    have h1 : ∀ l : List (IdPair R),
        l.map (fun p => (p.1, (Arith.ofInt (-1) : R))) = (l.map Prod.fst).map (fun n => (n, (Arith.ofInt (-1) : R))) := by
      intro l; simp
    rw [h1 ids, h1 ids', h]
  rw [this]

theorem unmatchedLoop_eq (st : LoopState R) (rest : List (Tau R)) (i : Nat)
    (hb : i + rest.length ≤ 2 ^ 32) :
    unmatchedLoop st rest i
      = ((rest.enumFrom i).filter (fun p => decide (p.1 ∉ st.matched_taus))).map
          (fun p => unmatchedTau p.2 st.tauIds_pnet) := by
  induction rest generalizing i with
  | nil => simp [unmatchedLoop]
  | cons t rest ih =>
    have hi : i < 2 ^ 32 := by simp at hb; omega
    have hb' : i + 1 + rest.length ≤ 2 ^ 32 := by simp at hb; omega
    unfold unmatchedLoop
    rw [tauKey_of_lt hi, ih (i + 1) hb', List.enumFrom_cons]
    by_cases hm : i ∈ st.matched_taus
    · rw [if_pos hm, List.filter_cons_of_neg (by simpa using hm)]
    · rw [if_neg hm, List.filter_cons_of_pos (by simpa using hm), List.map_cons]

omit [Arith R] in
theorem all_matched_of_length (inputTaus : List (Tau R)) (m : List Nat) (hnd : m.Nodup)
    (hr : ∀ i ∈ m, i < inputTaus.length) (h : ¬ m.length < inputTaus.length) :
    ∀ i, i < inputTaus.length → i ∈ m := by
  have hsub : m.toFinset ⊆ Finset.range inputTaus.length := by
    intro x hx
    rw [List.mem_toFinset] at hx
    exact Finset.mem_range.mpr (hr x hx)
  have hcard : (Finset.range inputTaus.length).card ≤ m.toFinset.card := by
    rw [Finset.card_range, List.toFinset_card_of_nodup hnd]
    omega
  have heq := Finset.eq_of_subset_of_card_le hsub hcard
  intro i hi
  have : i ∈ m.toFinset := by rw [heq]; exact Finset.mem_range.mpr hi
  exact List.mem_toFinset.mp this

theorem mem_enumFrom_lt {α : Type} (l : List α) (n : Nat) (p : Nat × α)
    (h : p ∈ l.enumFrom n) : p.1 < n + l.length := by
  induction l generalizing n with
  | nil => simp at h
  | cons a rest ih =>
    rw [List.enumFrom_cons] at h
    rcases List.mem_cons.mp h with rfl | h
    · simp
    · have := ih (n + 1) h
      simp; omega

/-- The collection returned by `produce`: the output of the jet loop followed
by the copies of the taus outside `matched_taus`. -/
theorem produce_eq (self : PATTauHybridProducer R) (hok : TauNamesOk self) (fw : Framework R)
    (inputTaus : List (Tau R)) (hlen : inputTaus.length ≤ 2 ^ 32) (jets : List (Jet R)) :
    ∃ s, stateAfter self fw inputTaus jets jets.length = some s ∧
      self.produce fw inputTaus jets = some (s.outputTaus ++
        ((inputTaus.enum.filter (fun p => decide (p.1 ∉ s.matched_taus))).map
          (fun p => unmatchedTau p.2 (tauIds_pnet_init fw)))) := by
  obtain ⟨s, hs, hinv⟩ :=
    jetLoop_total self hok fw inputTaus hlen jets _ (loopInv_init fw inputTaus)
  have hs' : stateAfter self fw inputTaus jets jets.length = some s := by
    unfold stateAfter
    rw [List.take_length]
    exact hs
  refine ⟨s, hs', ?_⟩
  unfold PATTauHybridProducer.produce
  rw [hs]
  simp only []
  have hloop := unmatchedLoop_eq s inputTaus 0 (by simpa using hlen)
  have hnames : ∀ p : Nat × Tau R,
      unmatchedTau p.2 s.tauIds_pnet = unmatchedTau p.2 (tauIds_pnet_init fw) :=
    fun p => unmatchedTau_names p.2 _ _ hinv.2.2
  by_cases hg : s.matched_taus.length < inputTaus.length
  · rw [if_pos hg, hloop]
    simp only [List.enum, hnames]
  · rw [if_neg hg]
    have hall := all_matched_of_length inputTaus s.matched_taus hinv.1 hinv.2.1 hg
    have hnil : inputTaus.enum.filter (fun p => decide (p.1 ∉ s.matched_taus)) = [] := by
      rw [List.filter_eq_nil_iff]
      intro p hp
      have hlt := mem_enumFrom_lt inputTaus 0 p hp
      simpa using hall p.1 (by omega)
    rw [hnil]
    simp

theorem ctor_members (cfg : ParameterSet R) (self : PATTauHybridProducer R)
    (h : PATTauHybridProducer.ctor cfg = some self) :
    self.dRMax_ = Arith.narrow cfg.dRMax ∧ self.jetPtMin_ = Arith.narrow cfg.jetPtMin ∧
      self.jetEtaMax_ = Arith.narrow cfg.jetEtaMax ∧ self.pnetLabel_ = cfg.pnetLabel ∧
      self.tagToDM_ = [("1h0p", 0), ("1h1or2p", 1), ("1h1p", 1), ("1h2p", 2), ("3h0p", 10),
        ("3h1p", 11)] := by
  obtain ⟨s, hs, -, -, -, e1, e2, e3, e4, e5⟩ := ctor_spec cfg
  rw [h] at hs
  cases hs
  exact ⟨e1, e2, e3, e4, e5⟩

theorem passesCuts_iff (cfg : ParameterSet R) (self : PATTauHybridProducer R)
    (h : PATTauHybridProducer.ctor cfg = some self) (jet : Jet R) :
    passesCuts self jet ↔ ¬ Arith.lt jet.pt (Arith.narrow cfg.jetPtMin) ∧
      ¬ Arith.lt (Arith.narrow cfg.jetEtaMax) (Arith.absD jet.eta) := by
  obtain ⟨-, e2, e3, -⟩ := ctor_members cfg self h
  unfold passesCuts
  rw [e2, e3]

theorem ctor_cfgEvent : PATTauHybridProducer.ctor cfgEvent = some prodEvent := by rfl


/-! ## Lemmas on the best tau score and the lepton sums -/

/-- The running best score after the tau-score loop: no score is above it,
and either it was never replaced or it is the first position of its value. -/
theorem bestScore_fold (self : PATTauHybridProducer R) (jet : Jet R) (names : List String)
    (v : TauScores R) :
    (∀ n ∈ names, ¬ Arith.lt (names.foldl (tauScoreStep self jet) v).bestPnetTauScore.2
        (score self jet n)) ∧
    ((names.foldl (tauScoreStep self jet) v).bestPnetTauScore = v.bestPnetTauScore ∨
      Arith.lt v.bestPnetTauScore.2
        (names.foldl (tauScoreStep self jet) v).bestPnetTauScore.2) ∧
    (((names.foldl (tauScoreStep self jet) v).bestPnetTauScore = v.bestPnetTauScore ∧
        ∀ n ∈ names, ¬ Arith.lt v.bestPnetTauScore.2 (score self jet n)) ∨
      ∃ idx, names[idx]? = some (names.foldl (tauScoreStep self jet) v).bestPnetTauScore.1 ∧
        score self jet (names.foldl (tauScoreStep self jet) v).bestPnetTauScore.1
          = (names.foldl (tauScoreStep self jet) v).bestPnetTauScore.2 ∧
        Arith.lt v.bestPnetTauScore.2
          (names.foldl (tauScoreStep self jet) v).bestPnetTauScore.2 ∧
        ∀ (j : Nat) (n : String), j < idx → names[j]? = some n →
          score self jet n ≠ (names.foldl (tauScoreStep self jet) v).bestPnetTauScore.2 ∧
          ¬ Arith.lt (names.foldl (tauScoreStep self jet) v).bestPnetTauScore.2
            (score self jet n)) := by
  induction names generalizing v with
  | nil => simp
  | cons n rest ih =>
    rw [List.foldl_cons]
    obtain ⟨ha, hb, hc⟩ := ih (tauScoreStep self jet v n)
    have hbest : (tauScoreStep self jet v n).bestPnetTauScore
        = if Arith.lt v.bestPnetTauScore.2 (score self jet n) then (n, score self jet n)
          else v.bestPnetTauScore := rfl
    by_cases hgt : Arith.lt v.bestPnetTauScore.2 (score self jet n)
    · rw [hbest, if_pos hgt] at hb hc
      simp only at hb hc
      have hn : ¬ Arith.lt (rest.foldl (tauScoreStep self jet)
          (tauScoreStep self jet v n)).bestPnetTauScore.2 (score self jet n) := by
        intro hcon
        rcases hb with heq | hlt
        · rw [heq] at hcon
          exact Arith.lt_irrefl _ hcon
        · exact Arith.lt_irrefl _ (Arith.lt_trans _ _ _ hlt hcon)
      have hup : Arith.lt v.bestPnetTauScore.2 (rest.foldl (tauScoreStep self jet)
          (tauScoreStep self jet v n)).bestPnetTauScore.2 := by
        rcases hb with heq | hlt
        · rw [heq]; exact hgt
        · exact Arith.lt_trans _ _ _ hgt hlt
      refine ⟨?_, Or.inr hup, ?_⟩
      · intro m hm
        rcases List.mem_cons.mp hm with rfl | hm
        · exact hn
        · exact ha m hm
      · right
        rcases hc with ⟨heq, -⟩ | ⟨idx, hget, hsc, hlt, hmin⟩
        · refine ⟨0, ?_, ?_, hup, ?_⟩
          · rw [heq]; simp
          · rw [heq]
          · intro j _ hj; omega
        · refine ⟨idx + 1, by simpa using hget, hsc, hup, ?_⟩
          intro j m hj hget'
          cases j with
          | zero =>
            simp at hget'; subst hget'
            refine ⟨?_, hn⟩
            intro heq
            rw [heq] at hlt
            exact Arith.lt_irrefl _ hlt
          | succ j' =>
            exact hmin j' m (by omega) (by simpa using hget')
    · rw [hbest, if_neg hgt] at hb hc
      have hn : ¬ Arith.lt (rest.foldl (tauScoreStep self jet)
          (tauScoreStep self jet v n)).bestPnetTauScore.2 (score self jet n) := by
        intro hcon
        rcases hb with heq | hlt
        · rw [heq] at hcon
          exact hgt hcon
        · exact hgt (Arith.lt_trans _ _ _ hlt hcon)
      refine ⟨?_, hb, ?_⟩
      · intro m hm
        rcases List.mem_cons.mp hm with rfl | hm
        · exact hn
        · exact ha m hm
      · rcases hc with ⟨heq, hall⟩ | ⟨idx, hget, hsc, hlt, hmin⟩
        · left
          refine ⟨heq, ?_⟩
          intro m hm
          rcases List.mem_cons.mp hm with rfl | hm
          · exact hgt
          · exact hall m hm
        · right
          refine ⟨idx + 1, by simpa using hget, hsc, hlt, ?_⟩
          intro j m hj hget'
          cases j with
          | zero =>
            simp at hget'; subst hget'
            refine ⟨?_, hn⟩
            intro heq
            rw [← heq] at hlt
            exact hgt hlt
          | succ j' =>
            exact hmin j' m (by omega) (by simpa using hget')

theorem tauScores_best_eq (self : PATTauHybridProducer R) (jet : Jet R) :
    (tauScores self jet).bestPnetTauScore
      = (self.pnetTauScoreNames_.foldl (tauScoreStep self jet)
          { bestPnetTauScore := ("probtauundef", Arith.ofInt (-1)),
            sumOfPnetTauScores := Arith.ofInt 0,
            plusChargeProb := Arith.ofInt 0 }).bestPnetTauScore := by
  unfold tauScores tauScoreLoop
  simp only []
  split_ifs <;> rfl

/-- The best pair of a jet is the initial pair, or its value is above `-1`. -/
theorem tauScores_best_init (self : PATTauHybridProducer R) (jet : Jet R) :
    ((tauScores self jet).bestPnetTauScore = ("probtauundef", Arith.ofInt (-1)) ∧
      ∀ n ∈ self.pnetTauScoreNames_, ¬ Arith.lt (Arith.ofInt (-1)) (score self jet n)) ∨
    Arith.lt (Arith.ofInt (-1)) (tauScores self jet).bestPnetTauScore.2 := by
  rw [tauScores_best_eq]
  obtain ⟨-, -, hc⟩ := bestScore_fold self jet self.pnetTauScoreNames_
    { bestPnetTauScore := ("probtauundef", Arith.ofInt (-1)),
      sumOfPnetTauScores := Arith.ofInt 0, plusChargeProb := Arith.ofInt 0 }
  rcases hc with ⟨heq, hall⟩ | ⟨idx, -, -, hlt, -⟩
  · exact Or.inl ⟨heq, hall⟩
  · exact Or.inr hlt

/-- When some tau score exceeds `-1`, the best pair is the first maximum. -/
theorem tauScores_best_spec (self : PATTauHybridProducer R) (jet : Jet R)
    (h : ∃ n ∈ self.pnetTauScoreNames_, Arith.lt (Arith.ofInt (-1)) (score self jet n)) :
    ∃ idx, self.pnetTauScoreNames_[idx]? = some (tauScores self jet).bestPnetTauScore.1 ∧
      score self jet (tauScores self jet).bestPnetTauScore.1
        = (tauScores self jet).bestPnetTauScore.2 ∧
      Arith.lt (Arith.ofInt (-1)) (tauScores self jet).bestPnetTauScore.2 ∧
      (∀ n ∈ self.pnetTauScoreNames_,
        ¬ Arith.lt (tauScores self jet).bestPnetTauScore.2 (score self jet n)) ∧
      (∀ (j : Nat) (n : String), j < idx → self.pnetTauScoreNames_[j]? = some n →
        score self jet n ≠ (tauScores self jet).bestPnetTauScore.2 ∧
        ¬ Arith.lt (tauScores self jet).bestPnetTauScore.2 (score self jet n)) := by
  rw [tauScores_best_eq]
  obtain ⟨ha, -, hc⟩ := bestScore_fold self jet self.pnetTauScoreNames_
    { bestPnetTauScore := ("probtauundef", Arith.ofInt (-1)),
      sumOfPnetTauScores := Arith.ofInt 0, plusChargeProb := Arith.ofInt 0 }
  rcases hc with ⟨-, hall⟩ | ⟨idx, hget, hsc, hlt, hmin⟩
  · obtain ⟨n, hn, hgt⟩ := h
    exact absurd hgt (hall n hn)
  · exact ⟨idx, hget, hsc, hlt, ha, hmin⟩

/-- In exact arithmetic: the first maximum with `≤` and `<`. -/
theorem tauScores_best_spec_rat (self : PATTauHybridProducer ℚ) (jet : Jet ℚ)
    (h : ∃ n ∈ self.pnetTauScoreNames_, score self jet n > -1) :
    ∃ idx, self.pnetTauScoreNames_[idx]? = some (tauScores self jet).bestPnetTauScore.1 ∧
      score self jet (tauScores self jet).bestPnetTauScore.1
        = (tauScores self jet).bestPnetTauScore.2 ∧
      (∀ n ∈ self.pnetTauScoreNames_,
        score self jet n ≤ (tauScores self jet).bestPnetTauScore.2) ∧
      (∀ (j : Nat) (n : String), j < idx → self.pnetTauScoreNames_[j]? = some n →
        score self jet n < (tauScores self jet).bestPnetTauScore.2) := by
  obtain ⟨idx, h1, h2, -, h3, h4⟩ := tauScores_best_spec self jet
    (by obtain ⟨n, hn, hgt⟩ := h; exact ⟨n, hn, by simpa using hgt⟩)
  refine ⟨idx, h1, h2, ?_, ?_⟩
  · intro n hn
    exact not_lt.mp (h3 n hn)
  · intro j n hj hget
    obtain ⟨hne, hle⟩ := h4 j n hj hget
    exact lt_of_le_of_ne (not_lt.mp hle) hne

theorem lepScores_fold_sumsF (self : PATTauHybridProducer R) (jet : Jet R) (best : String × R)
    (names : List String) (v : LepScores R) :
    (names.foldl (lepScoreStep self jet best) v).sumOfPnetLepScores
      = (names.map (score self jet)).foldl Arith.addF v.sumOfPnetLepScores ∧
    (names.foldl (lepScoreStep self jet best) v).sumOfPnetEleScores
      = ((names.filter (fun n => decide (contains n "ele"))).map (score self jet)).foldl
          Arith.addF v.sumOfPnetEleScores ∧
    (names.foldl (lepScoreStep self jet best) v).sumOfPnetMuScores
      = ((names.filter (fun n => decide (contains n "mu" ∧ ¬ contains n "ele"))).map
            (score self jet)).foldl Arith.addF v.sumOfPnetMuScores := by
  induction names generalizing v with
  | nil => simp
  | cons n rest ih =>
    rw [List.foldl_cons]
    obtain ⟨h1, h2, h3⟩ := ih (lepScoreStep self jet best v n)
    rw [h1, h2, h3]
    by_cases he : contains n "ele"
    · have he' : find n "ele" ≠ none := (find_ne_none_iff _ _).mpr he
      simp only [lepScoreStep, if_pos he']
      simp [List.filter, he, score]
    · have he' : ¬ find n "ele" ≠ none := by rw [find_ne_none_iff]; exact he
      by_cases hm : contains n "mu"
      · have hm' : find n "mu" ≠ none := (find_ne_none_iff _ _).mpr hm
        simp only [lepScoreStep, if_neg he', if_pos hm']
        simp [List.filter, he, hm, score]
      · have hm' : ¬ find n "mu" ≠ none := by rw [find_ne_none_iff]; exact hm
        simp only [lepScoreStep, if_neg he', if_neg hm']
        simp [List.filter, he, hm, score]

/-- The accumulated `float` sums of the lepton loop. -/
theorem lepScores_sumsF (self : PATTauHybridProducer R) (jet : Jet R) :
    (lepScores self jet).sumOfPnetLepScores
      = sumF (self.pnetLepScoreNames_.map (score self jet)) ∧
    (lepScores self jet).sumOfPnetEleScores
      = sumF ((self.pnetLepScoreNames_.filter (fun n => decide (contains n "ele"))).map
          (score self jet)) ∧
    (lepScores self jet).sumOfPnetMuScores
      = sumF ((self.pnetLepScoreNames_.filter
          (fun n => decide (contains n "mu" ∧ ¬ contains n "ele"))).map
          (score self jet)) := by
  unfold lepScores sumF
  exact lepScores_fold_sumsF self jet (tauScores self jet).bestPnetTauScore
    self.pnetLepScoreNames_ _

theorem lepScores_sums (self : PATTauHybridProducer ℚ) (jet : Jet ℚ) :
    (lepScores self jet).sumOfPnetLepScores
      = (self.pnetLepScoreNames_.map (score self jet)).sum ∧
    (lepScores self jet).sumOfPnetEleScores
      = ((self.pnetLepScoreNames_.filter (fun n => decide (contains n "ele"))).map
          (score self jet)).sum ∧
    (lepScores self jet).sumOfPnetMuScores
      = ((self.pnetLepScoreNames_.filter
          (fun n => decide (contains n "mu" ∧ ¬ contains n "ele"))).map
          (score self jet)).sum := by
  obtain ⟨h1, h2, h3⟩ := lepScores_sumsF self jet
  rw [h1, h2, h3, sumF_rat, sumF_rat, sumF_rat]
  exact ⟨rfl, rfl, rfl⟩

omit [Arith R] in
theorem setSecond_getElem?_ne (ids : List (IdPair R)) (i j : Nat) (v : R) (h : i ≠ j) :
    (setSecond ids i v)[j]? = ids[j]? := by
  induction ids generalizing i j with
  | nil => simp [setSecond]
  | cons p ps ih =>
    cases i with
    | zero =>
      cases j with
      | zero => exact absurd rfl h
      | succ j' => simp [setSecond]
    | succ i' =>
      cases j with
      | zero => simp [setSecond]
      | succ j' =>
        simp only [setSecond, List.getElem?_cons_succ]
        exact ih i' j' (by omega)

omit [Arith R] in
theorem setSecond_getElem?_eq (ids : List (IdPair R)) (i : Nat) (v : R) (p : IdPair R)
    (h : ids[i]? = some p) : (setSecond ids i v)[i]? = some (p.1, v) := by
  induction ids generalizing i with
  | nil => simp at h
  | cons q qs ih =>
    cases i with
    | zero =>
      simp at h
      subst h
      simp [setSecond]
    | succ i' =>
      simp only [setSecond, List.getElem?_cons_succ]
      exact ih i' (by simpa using h)


theorem foldl_addF_nonpos (xs : List R) (a : R) (ha : ¬ Arith.lt (Arith.ofInt 0) a)
    (h : ∀ x ∈ xs, ¬ Arith.lt (Arith.ofInt 0) x) :
    ¬ Arith.lt (Arith.ofInt 0) (xs.foldl Arith.addF a) := by
  induction xs generalizing a with
  | nil => simpa using ha
  | cons x rest ih =>
    rw [List.foldl_cons]
    exact ih _ (Arith.addF_nonpos a x ha (h x (List.mem_cons_self _ _)))
      (fun y hy => h y (List.mem_cons_of_mem _ hy))

/-- A positive accumulated sum has a positive term. -/
theorem exists_pos_of_sumF_pos (self : PATTauHybridProducer R) (jet : Jet R)
    (names : List String)
    (h : Arith.lt (Arith.ofInt 0) (sumF (names.map (score self jet)))) :
    ∃ n ∈ names, Arith.lt (Arith.ofInt 0) (score self jet n) := by
  by_contra hcon
  apply foldl_addF_nonpos (names.map (score self jet)) (Arith.ofInt 0)
    (Arith.lt_irrefl _) _ h
  intro x hx
  obtain ⟨n, hn, rfl⟩ := List.mem_map.mp hx
  intro hpos
  exact hcon ⟨n, hn, hpos⟩

/-- With `isTauScoreBest` true the best pair is the first maximum of the tau
scores and its value is positive. -/
theorem tauBest_spec (self : PATTauHybridProducer R) (jet : Jet R)
    (hbest : isTauScoreBest self jet = true) :
    Arith.lt (Arith.ofInt 0) (tauScores self jet).bestPnetTauScore.2 ∧
    ∃ idx, self.pnetTauScoreNames_[idx]? = some (tauScores self jet).bestPnetTauScore.1 ∧
      score self jet (tauScores self jet).bestPnetTauScore.1
        = (tauScores self jet).bestPnetTauScore.2 ∧
      (∀ n ∈ self.pnetTauScoreNames_,
        ¬ Arith.lt (tauScores self jet).bestPnetTauScore.2 (score self jet n)) ∧
      (∀ (j : Nat) (n : String), j < idx → self.pnetTauScoreNames_[j]? = some n →
        score self jet n ≠ (tauScores self jet).bestPnetTauScore.2 ∧
        ¬ Arith.lt (tauScores self jet).bestPnetTauScore.2 (score self jet n)) := by
  have hsum := ((isTauScoreBest_iff self jet).mp hbest).1
  rw [tauScores_sumF] at hsum
  obtain ⟨n, hn, hpos⟩ := exists_pos_of_sumF_pos self jet _ hsum
  have hn1 : Arith.lt (Arith.ofInt (-1)) (score self jet n) :=
    Arith.lt_trans _ _ _ Arith.neg_one_lt_zero hpos
  obtain ⟨idx, h1, h2, h0, h3, h4⟩ := tauScores_best_spec self jet ⟨n, hn, hn1⟩
  refine ⟨?_, idx, h1, h2, h3, h4⟩
  rcases Arith.lt_cases _ _ _ _ hpos h0 with h | h
  · exact h
  · exact absurd h (h3 n hn)

/-- In exact arithmetic: the first maximum, with a positive value. -/
theorem tauBest_spec_rat (self : PATTauHybridProducer ℚ) (jet : Jet ℚ)
    (hbest : isTauScoreBest self jet = true) :
    0 < (tauScores self jet).bestPnetTauScore.2 ∧
    ∃ idx, self.pnetTauScoreNames_[idx]? = some (tauScores self jet).bestPnetTauScore.1 ∧
      score self jet (tauScores self jet).bestPnetTauScore.1
        = (tauScores self jet).bestPnetTauScore.2 ∧
      (∀ n ∈ self.pnetTauScoreNames_,
        score self jet n ≤ (tauScores self jet).bestPnetTauScore.2) ∧
      (∀ (j : Nat) (n : String), j < idx → self.pnetTauScoreNames_[j]? = some n →
        score self jet n < (tauScores self jet).bestPnetTauScore.2) := by
  obtain ⟨h0, idx, h1, h2, h3, h4⟩ := tauBest_spec self jet hbest
  refine ⟨by simpa using h0, idx, h1, h2, ?_, ?_⟩
  · intro n hn
    exact not_lt.mp (h3 n hn)
  · intro j n hj hget
    obtain ⟨hne, hle⟩ := h4 j n hj hget
    exact lt_of_le_of_ne (not_lt.mp hle) hne

theorem mem_of_getElem?_eq_some {α : Type} {l : List α} {i : Nat} {a : α}
    (h : l[i]? = some a) : a ∈ l := by
  rw [List.mem_iff_getElem?]
  exact ⟨i, h⟩


/-! ## Lemmas on whole events -/

theorem jetStep_cutfail (self : PATTauHybridProducer R) (fw : Framework R) (inputTaus : List (Tau R))
    (st : LoopState R) (jet : Jet R) (h : ¬ passesCuts self jet) :
    jetStep self fw inputTaus st jet = some st := by
  unfold jetStep
  by_cases hpt : Arith.lt jet.pt self.jetPtMin_
  · rw [if_pos hpt]
  · rw [if_neg hpt]
    by_cases heta : Arith.lt self.jetEtaMax_ (Arith.absD jet.eta)
    · rw [if_pos heta]
    · exact absurd ⟨hpt, heta⟩ h

theorem jetLoop_filter (self : PATTauHybridProducer R) (fw : Framework R) (inputTaus : List (Tau R))
    (jets : List (Jet R)) (st : LoopState R) :
    jetLoop self fw inputTaus st (jets.filter (fun jet => decide (passesCuts self jet)))
      = jetLoop self fw inputTaus st jets := by
  induction jets generalizing st with
  | nil => rfl
  | cons jet rest ih =>
    by_cases hp : passesCuts self jet
    · rw [List.filter_cons_of_pos (by simpa using hp)]
      simp only [jetLoop]
      cases jetStep self fw inputTaus st jet with
      | none => rfl
      | some s => exact ih s
    · rw [List.filter_cons_of_neg (by simpa using hp)]
      simp only [jetLoop, jetStep_cutfail self fw inputTaus st jet hp]
      exact ih st

theorem produce_filter (self : PATTauHybridProducer R) (fw : Framework R) (inputTaus : List (Tau R))
    (jets : List (Jet R)) :
    self.produce fw inputTaus (jets.filter (fun jet => decide (passesCuts self jet)))
      = self.produce fw inputTaus jets := by
  unfold PATTauHybridProducer.produce
  rw [jetLoop_filter]

theorem filter_passesCuts_eq (cfg : ParameterSet R) (self : PATTauHybridProducer R)
    (h : PATTauHybridProducer.ctor cfg = some self) (jets : List (Jet R)) :
    jets.filter (fun jet => decide (¬ Arith.lt jet.pt (Arith.narrow cfg.jetPtMin) ∧
        ¬ Arith.lt (Arith.narrow cfg.jetEtaMax) (Arith.absD jet.eta)))
      = jets.filter (fun jet => decide (passesCuts self jet)) := by
  apply List.filter_congr
  intro jet _
  have := passesCuts_iff cfg self h jet
  by_cases hp : passesCuts self jet
  · rw [decide_eq_true hp, decide_eq_true (this.mp hp)]
  · rw [decide_eq_false hp, decide_eq_false (fun hc => hp (this.mpr hc))]

/-- The jet output grows by at most one entry per jet that passes the cuts. -/
theorem output_length_le (self : PATTauHybridProducer R) (hok : TauNamesOk self)
    (fw : Framework R) (inputTaus : List (Tau R)) (hlen : inputTaus.length ≤ 2 ^ 32) (jets : List (Jet R))
    (k : Nat) (s : LoopState R) (hs : stateAfter self fw inputTaus jets k = some s) :
    s.outputTaus.length
      ≤ ((jets.take k).filter (fun jet => decide (passesCuts self jet))).length := by
  induction k generalizing s with
  | zero =>
    have : s = LoopState.init fw := by
      simp [stateAfter, jetLoop] at hs
      exact hs.symm
    subst this
    simp [LoopState.init]
  | succ k ih =>
    obtain ⟨s0, s1, h0, h1, -, -, hcase⟩ := stateAfter_succ self hok fw inputTaus hlen jets k
    rw [hs] at h1
    cases h1
    have ih0 := ih s0 h0
    rcases hcase with ⟨hle, rfl⟩ | ⟨jet, hget, hstep⟩
    · rw [List.take_of_length_le (by omega)]
      rw [List.take_of_length_le hle] at ih0
      exact ih0
    · rw [List.take_succ, hget, Option.toList, List.filter_append, List.length_append]
      obtain ⟨s2, hs2, hspec⟩ := jetStep_spec self hok fw inputTaus hlen s0 jet
      rw [hstep] at hs2
      cases hs2
      rcases hspec with ⟨-, rfl⟩ | ⟨hp, c, ids, -, -, -, -, hrest⟩
      · omega
      · rw [List.filter_cons_of_pos (by simpa using hp)]
        rcases hrest with ⟨i, t, -, -, -, -, -, ho⟩ | ⟨-, -, hout⟩
        · rw [ho]; simp; omega
        · rcases hout with ⟨-, -, ho⟩ | ⟨-, ho⟩
          · rw [ho]; simp; omega
          · rw [ho]; simp; omega

theorem ids_shape (fw : Framework R) (ids : List (IdPair R))
    (h : ids.map Prod.fst = (tauIds_pnet_init fw).map Prod.fst) :
    ∃ v0 v1 v2 v3 : R, ids = [("byPNetDecayMode", v0), ("byPNetVSjetraw", v1),
      ("byPNetVSeraw", v2), ("byPNetVSmuraw", v3)] := by
  simp only [tauIds_pnet_init, List.map_cons, List.map_nil] at h
  match ids, h with
  | [(n0, v0), (n1, v1), (n2, v2), (n3, v3)], h =>
    simp only [List.map_cons, List.map_nil, List.cons.injEq, and_true] at h
    obtain ⟨rfl, rfl, rfl, rfl⟩ := h
    exact ⟨v0, v1, v2, v3, rfl⟩

/-- The tag list a jet hands on: the three ratios of the jet, and a decay-mode
value that is the table code of the looked-up tag when there is one and the
value already stored otherwise. -/
theorem evaluator_tags (self : PATTauHybridProducer R) (fw : Framework R) (jet : Jet R)
    (ids0 ids : List (IdPair R)) (c : Int)
    (h0 : ids0.map Prod.fst = (tauIds_pnet_init fw).map Prod.fst)
    (h : chargeAndDM self jet (setDiscriminants self jet ids0) = some (c, ids)) :
    ∃ dm prev : R, ids = derivedTags self jet dm ∧
      ids0[0]? = some ("byPNetDecayMode", prev) ∧
      (∀ tag d, isTauScoreBest self jet = true →
        substr (tauScores self jet).bestPnetTauScore.1
          (chargeMarker (tauScores self jet).bestPnetTauScore.1).1 = some tag →
        self.tagToDM_.lookup tag = some d → dm = Arith.ofInt d) ∧
      ((isTauScoreBest self jet = false ∨
        ∀ tag, substr (tauScores self jet).bestPnetTauScore.1
          (chargeMarker (tauScores self jet).bestPnetTauScore.1).1 = some tag →
          self.tagToDM_.lookup tag = none) → dm = prev) := by
  obtain ⟨v0, v1, v2, v3, rfl⟩ := ids_shape fw ids0 h0
  have hset : setDiscriminants self jet [("byPNetDecayMode", v0), ("byPNetVSjetraw", v1),
      ("byPNetVSeraw", v2), ("byPNetVSmuraw", v3)] = derivedTags self jet v0 := by
    simp only [setDiscriminants, setSecond, derivedTags, tauScores_sumF,
      (lepScores_sumsF self jet).1, (lepScores_sumsF self jet).2.1,
      (lepScores_sumsF self jet).2.2]
  rw [hset] at h
  unfold chargeAndDM at h
  by_cases hb : isTauScoreBest self jet = true
  · simp only [hb, if_true] at h
    cases hsub : substr (tauScores self jet).bestPnetTauScore.1
        (chargeMarker (tauScores self jet).bestPnetTauScore.1).1 with
    | none => rw [hsub] at h; cases h
    | some tag =>
      rw [hsub] at h
      simp only [] at h
      cases hl : self.tagToDM_.lookup tag with
      | some d =>
        rw [hl] at h
        simp only [Option.some.injEq, Prod.mk.injEq] at h
        refine ⟨Arith.ofInt d, v0, ?_, rfl, ?_, ?_⟩
        · rw [← h.2]; simp [derivedTags, setSecond]
        · intro tag' d' _ htag hl'
          cases htag
          rw [hl] at hl'
          cases hl'
          rfl
        · rintro (hf | hnone)
          · rw [hb] at hf; cases hf
          · have := hnone tag rfl
            rw [hl] at this; cases this
      | none =>
        rw [hl] at h
        simp only [Option.some.injEq, Prod.mk.injEq] at h
        refine ⟨v0, v0, h.2.symm, rfl, ?_, fun _ => rfl⟩
        intro tag' d' _ htag hl'
        cases htag
        rw [hl] at hl'
        cases hl'
  · simp only [hb] at h
    simp only [Bool.false_eq_true, if_false, Option.some.injEq, Prod.mk.injEq] at h
    refine ⟨v0, v0, h.2.symm, rfl, ?_, fun _ => rfl⟩
    intro tag d hbt
    exact absurd hbt hb


theorem filter_unclaimed_eq (self : PATTauHybridProducer R) (hok : TauNamesOk self)
    (fw : Framework R) (inputTaus : List (Tau R)) (hlen : inputTaus.length ≤ 2 ^ 32) (jets : List (Jet R))
    (s : LoopState R) (hs : stateAfter self fw inputTaus jets jets.length = some s) :
    inputTaus.enum.filter (fun p => decide (p.1 ∉ s.matched_taus))
      = inputTaus.enum.filter
          (fun p => decide (unclaimedBefore self fw inputTaus jets jets.length p.1)) := by
  apply List.filter_congr
  intro p _
  have := mem_matched_iff self hok fw inputTaus hlen jets jets.length s hs p.1
  by_cases hm : p.1 ∈ s.matched_taus
  · have hn := this.mp hm
    simp [hm, hn]
  · have hn : unclaimedBefore self fw inputTaus jets jets.length p.1 := by
      by_contra hcon; exact hm (this.mpr hcon)
    simp [hm, hn]

/-- Growth of `matched_taus` and `outputTaus` in the iteration of jet `k`. -/
theorem step_counts (self : PATTauHybridProducer R) (hok : TauNamesOk self)
    (fw : Framework R) (inputTaus : List (Tau R)) (hlen : inputTaus.length ≤ 2 ^ 32) (jets : List (Jet R))
    (k : Nat) :
    ∃ s s', stateAfter self fw inputTaus jets k = some s ∧
      stateAfter self fw inputTaus jets (k + 1) = some s' ∧
      s'.matched_taus.length = s.matched_taus.length
        + (claimedBy self fw inputTaus jets k).length ∧
      s'.outputTaus.length = s.outputTaus.length
        + (emittedBy self fw inputTaus jets k).length ∧
      (emittedBy self fw inputTaus jets k).length
        = (claimedBy self fw inputTaus jets k).length
          + (if claimedBy self fw inputTaus jets k = [] ∧
              emittedBy self fw inputTaus jets k ≠ [] then 1 else 0) := by
  obtain ⟨s, s', hs, hs', hi, -, hcase⟩ := stateAfter_succ self hok fw inputTaus hlen jets k
  have hcl := claimedBy_eq self fw inputTaus jets k s s' hs hs'
  have hem := emittedBy_eq self fw inputTaus jets k s s' hs hs'
  refine ⟨s, s', hs, hs', ?_⟩
  rcases hcase with ⟨-, rfl⟩ | ⟨jet, -, hstep⟩
  · have h1 : claimedBy self fw inputTaus jets k = [] := by
      rw [hcl, filter_not_mem_self]
    have h2 : emittedBy self fw inputTaus jets k = [] := by
      rw [hem]; simp
    rw [h1, h2]
    simp
  · obtain ⟨s2, hs2, hspec⟩ := jetStep_spec self hok fw inputTaus hlen s jet
    rw [hstep] at hs2
    cases hs2
    rcases hspec with ⟨-, rfl⟩ | ⟨-, c, ids, -, -, -, -, hrest⟩
    · have h1 : claimedBy self fw inputTaus jets k = [] := by
        rw [hcl, filter_not_mem_self]
      have h2 : emittedBy self fw inputTaus jets k = [] := by
        rw [hem]; simp
      rw [h1, h2]
      simp
    · rcases hrest with ⟨i, t, -, hnm, -, -, hm, ho⟩ | ⟨-, hm, hout⟩
      · have h1 : claimedBy self fw inputTaus jets k = [i] := by
          rw [hcl, hm, filter_not_mem_cons _ _ hnm]
        have h2 : emittedBy self fw inputTaus jets k = [augmentedTau t ids] := by
          rw [hem, ho]; simp
        rw [h1, h2, hm, ho]
        simp
      · have h1 : claimedBy self fw inputTaus jets k = [] := by
          rw [hcl, hm, filter_not_mem_self]
        rcases hout with ⟨-, -, ho⟩ | ⟨-, ho⟩
        · have h2 : emittedBy self fw inputTaus jets k = [tauFromJet jet c ids] := by
            rw [hem, ho]; simp
          rw [h1, h2, hm, ho]
          simp
        · have h2 : emittedBy self fw inputTaus jets k = [] := by
            rw [hem, ho]; simp
          rw [h1, h2, hm, ho]
          simp

/-- After `k` jets the output holds one entry per claimed tau and one per jet
that pushed without claiming. -/
theorem output_length_eq (self : PATTauHybridProducer R) (hok : TauNamesOk self)
    (fw : Framework R) (inputTaus : List (Tau R)) (hlen : inputTaus.length ≤ 2 ^ 32) (jets : List (Jet R))
    (k : Nat) (s : LoopState R) (hs : stateAfter self fw inputTaus jets k = some s) :
    s.outputTaus.length = s.matched_taus.length
      + ((List.range k).filter
          (fun k => decide (claimedBy self fw inputTaus jets k = [] ∧
            emittedBy self fw inputTaus jets k ≠ []))).length := by
  induction k generalizing s with
  | zero =>
    have : s = LoopState.init fw := by
      simp [stateAfter, jetLoop] at hs
      exact hs.symm
    subst this
    simp [LoopState.init]
  | succ k ih =>
    obtain ⟨s0, s1, h0, h1, hm, ho, hc⟩ := step_counts self hok fw inputTaus hlen jets k
    rw [hs] at h1
    cases h1
    have ih0 := ih s0 h0
    rw [List.range_succ, List.filter_append, List.length_append, ho, hm, ih0, hc]
    by_cases hp : claimedBy self fw inputTaus jets k = [] ∧
        emittedBy self fw inputTaus jets k ≠ []
    · rw [if_pos hp, List.filter_cons_of_pos (by simpa using hp)]
      simp; omega
    · rw [if_neg hp, List.filter_cons_of_neg (by simpa using hp)]
      simp; omega

omit [Arith R] in
theorem unclaimed_count (inputTaus : List (Tau R)) (m : List Nat) (hnd : m.Nodup)
    (hr : ∀ i ∈ m, i < inputTaus.length) :
    (inputTaus.enum.filter (fun p => decide (p.1 ∉ m))).length + m.length
      = inputTaus.length := by
  have h1 : (inputTaus.enum.filter (fun p => decide (p.1 ∉ m))).length
      = ((List.range inputTaus.length).filter (fun i => decide (i ∉ m))).length := by
    have : (inputTaus.enum.filter (fun p => decide (p.1 ∉ m))).map Prod.fst
        = (List.range inputTaus.length).filter (fun i => decide (i ∉ m)) := by
      rw [← List.enum_map_fst inputTaus, List.filter_map]
      rfl
    rw [← this, List.length_map]
  have h2 : ((List.range inputTaus.length).filter (fun i => decide (i ∈ m))).length
      = m.length := by
    apply List.Perm.length_eq
    rw [List.perm_ext_iff_of_nodup (List.Nodup.filter _ (List.nodup_range _)) hnd]
    intro a
    simp only [List.mem_filter, List.mem_range, decide_eq_true_eq]
    exact ⟨fun h => h.2, fun h => ⟨hr a h, h⟩⟩
  have h3 : ((List.range inputTaus.length).filter (fun i => decide (i ∈ m))).length
      + ((List.range inputTaus.length).filter (fun i => decide (i ∉ m))).length
      = inputTaus.length := by
    have := List.length_eq_countP_add_countP (fun i => decide (i ∈ m))
      (List.range inputTaus.length)
    rw [List.length_range] at this
    have hfun : (fun a => decide ¬ decide (a ∈ m) = true) = (fun i => decide (i ∉ m)) := by
      funext i; simp
    rw [hfun] at this
    rw [← List.countP_eq_length_filter, ← List.countP_eq_length_filter]
    exact this.symm
  omega

theorem filter_range_unique (p : Nat → Bool) (k0 n : Nat) (hk0 : k0 < n) (hp : p k0 = true)
    (huniq : ∀ k, p k = true → k = k0) : ((List.range n).filter p).length = 1 := by
  induction n with
  | zero => omega
  | succ n ih =>
    rw [List.range_succ, List.filter_append, List.length_append]
    by_cases hn : k0 = n
    · subst hn
      have h0 : (List.range k0).filter p = [] := by
        rw [List.filter_eq_nil_iff]
        intro a ha hpa
        have := huniq a hpa
        rw [List.mem_range] at ha
        omega
      rw [h0, List.filter_cons_of_pos hp]
      rfl
    · have hne : ¬ p n = true := fun h => hn (huniq n h).symm
      rw [List.filter_cons_of_neg hne, ih (by omega)]
      rfl

theorem claimedBy_disjoint (self : PATTauHybridProducer R) (hok : TauNamesOk self)
    (fw : Framework R) (inputTaus : List (Tau R)) (hlen : inputTaus.length ≤ 2 ^ 32) (jets : List (Jet R))
    (k₁ k₂ i : Nat) (hne : k₁ ≠ k₂) (h1 : i ∈ claimedBy self fw inputTaus jets k₁)
    (h2 : i ∈ claimedBy self fw inputTaus jets k₂) : False := by
  have hlt : ∀ a b, a < b → i ∈ claimedBy self fw inputTaus jets a →
      i ∈ claimedBy self fw inputTaus jets b → False := by
    intro a b hab ha hb
    obtain ⟨s, s', hs, hs', -, -, -⟩ := stateAfter_succ self hok fw inputTaus hlen jets b
    rw [claimedBy_eq self fw inputTaus jets b s s' hs hs', List.mem_filter] at hb
    have hnm : i ∉ s.matched_taus := by simpa using hb.2
    have := (mem_matched_iff self hok fw inputTaus hlen jets b s hs i).not.mp hnm
    rw [not_not] at this
    exact this a hab ha
  rcases Nat.lt_or_gt_of_ne hne with h | h
  · exact hlt k₁ k₂ h h1 h2
  · exact hlt k₂ k₁ h h2 h1


/-- The tag list of an entry pushed by the jet at position `k`: the tags of the
claimed tau, or the placeholder, followed by the four tags byPNetDecayMode,
byPNetVSjetraw, byPNetVSeraw, byPNetVSmuraw.  The three ratios are those of the
jet; the decay-mode value is the table code of the tag parsed for the jet when
`isTauScoreBest` holds and the tag is in the table, and the value stored in
`tauIds_pnet` before the jet otherwise. -/
theorem emitted_tags (cfg : ParameterSet R) (self : PATTauHybridProducer R)
    (fw : Framework R) (inputTaus : List (Tau R)) (jets : List (Jet R)) (k : Nat) (jet : Jet R) (e : Tau R)
    (hctor : PATTauHybridProducer.ctor cfg = some self)
    (hlen : inputTaus.length ≤ 2 ^ 32) (hk : jets[k]? = some jet)
    (he : e ∈ emittedBy self fw inputTaus jets k) :
    ∃ (dm prev : R) (s : LoopState R),
      ((∃ i t, claimedBy self fw inputTaus jets k = [i] ∧ inputTaus[i]? = some t ∧
          e.tauIDs = t.tauIDs ++ derivedTags self jet dm ∧
          e.tauIDs.length = t.tauIDs.length + 4 ∧
          e.tauIDs.take t.tauIDs.length = t.tauIDs) ∨
       (claimedBy self fw inputTaus jets k = [] ∧
          e.tauIDs = ("decayModeFindingNewDMs", Arith.ofInt (-1)) :: derivedTags self jet dm ∧
          e.tauIDs.length = 5)) ∧
      stateAfter self fw inputTaus jets k = some s ∧
      s.tauIds_pnet[0]? = some ("byPNetDecayMode", prev) ∧
      (∀ tag d, isTauScoreBest self jet = true →
        substr (tauScores self jet).bestPnetTauScore.1
          (chargeMarker (tauScores self jet).bestPnetTauScore.1).1 = some tag →
        ([("1h0p", 0), ("1h1or2p", 1), ("1h1p", 1), ("1h2p", 2), ("3h0p", 10),
          ("3h1p", 11)] : List (String × Int)).lookup tag = some d → dm = Arith.ofInt d) ∧
      ((isTauScoreBest self jet = false ∨
        ∀ tag, substr (tauScores self jet).bestPnetTauScore.1
          (chargeMarker (tauScores self jet).bestPnetTauScore.1).1 = some tag →
          ([("1h0p", 0), ("1h1or2p", 1), ("1h1p", 1), ("1h2p", 2), ("3h0p", 10),
            ("3h1p", 11)] : List (String × Int)).lookup tag = none) → dm = prev) := by
  have hok := ctor_tauNamesOk cfg self hctor
  obtain ⟨-, -, -, -, e5⟩ := ctor_members cfg self hctor
  rw [← e5]
  obtain ⟨s0, s0', hs0, -, hinv0, -, -⟩ := stateAfter_succ self hok fw inputTaus hlen jets k
  rcases outcome_at self hok fw inputTaus hlen jets k jet hk with
    ⟨-, -, hem⟩ | ⟨-, s, c, ids, hs, hcd, -, hrest⟩
  · rw [hem] at he; cases he
  rw [hs0] at hs
  cases hs
  obtain ⟨dm, prev, hids, hprev, hdm1, hdm2⟩ :=
    evaluator_tags self fw jet s0.tauIds_pnet ids c hinv0.2.2 hcd
  refine ⟨dm, prev, s0, ?_, hs0, hprev, hdm1, hdm2⟩
  rcases hrest with ⟨i, t, hget, -, -, -, hc, hem⟩ | ⟨-, hc, hout⟩
  · left
    rw [hem] at he
    have := List.mem_singleton.mp he
    subst this
    refine ⟨i, t, hc, hget, ?_, ?_, ?_⟩
    · rw [hids]; rfl
    · rw [hids]; simp [augmentedTau, derivedTags]
    · simp [augmentedTau]
  · right
    rcases hout with ⟨-, hem⟩ | ⟨-, hem⟩
    · rw [hem] at he
      have := List.mem_singleton.mp he
      subst this
      refine ⟨hc, ?_, ?_⟩
      · rw [hids]; rfl
      · rw [hids]; simp [tauFromJet, tauIds_minimal, derivedTags]
    · rw [hem] at he; cases he

/-! ## Lemmas for concrete events -/

theorem forall_getElem?_iff {α : Type} (l : List α) (P : Nat → α → Prop) :
    (∀ i t, l[i]? = some t → P i t) ↔ ∀ i (h : i < l.length), P i (l.get ⟨i, h⟩) := by
  constructor
  · intro hall i h
    exact hall i _ (by simp [List.getElem?_eq_getElem h])
  · intro hall i t hget
    have h := lt_length_of_getElem? hget
    have := hall i h
    rw [List.getElem?_eq_getElem h] at hget
    cases hget
    exact this

theorem ctor_cfgIeee : PATTauHybridProducer.ctor cfgIeee = some prodIeee := by decide!

theorem ctor_cfgTwoTau : PATTauHybridProducer.ctor cfgTwoTau = some prodTwoTau := by rfl

/-- Values of the IEEE arithmetic: `0.4` and `0.3999999999` convert to the same
`float`, `13421773 / 2 ^ 25`; the `float` nearest to `20.1` is
`10538189 / 2 ^ 19`, above the `double` nearest to `20.1`, and the `float`
nearest to `20.3` is below `20.2999995`; the `float` sum `0.5 + 2 ^ (-26)` is
`0.5`; the `float` quotient `0.4375 / 0.625` is `11744051 / 2 ^ 24`, below
`7 / 10`; the `double` literal `0.2` is above `1 / 5`; the vsJet ratio
`0.1f / (1. - 0.9f)` is stored as `4194303 / 2 ^ 22`, below `1`; and a positive
value divided by zero is `+inf`. -/
theorem ieee_values :
    Arith.narrow (round64 (2 / 5)) = Fp.fin (13421773 / 33554432) ∧
    Arith.narrow (round64 (3999999999 / 10000000000)) = Fp.fin (13421773 / 33554432) ∧
    Arith.lt (round64 (3999999999 / 10000000000)) (round64 (2 / 5)) ∧
    Arith.narrow (round64 (201 / 10)) = Fp.fin (10538189 / 524288) ∧
    Arith.lt (round64 (201 / 10)) (Arith.narrow (round64 (201 / 10))) ∧
    Arith.lt (Arith.narrow (round64 (203 / 10))) (round64 (202999995 / 10000000)) ∧
    Arith.addF (Fp.fin (1 / 2)) (Fp.fin (1 / 67108864)) = Fp.fin (1 / 2) ∧
    Arith.divF (Fp.fin (7 / 16)) (Fp.fin (5 / 8)) = Fp.fin (11744051 / 16777216) ∧
    (Arith.fifth : Fp) = Fp.fin (3602879701896397 / 18014398509481984) ∧
    Arith.narrow (Arith.divD (round32 (1 / 10))
      (Arith.subD (Arith.ofInt 1) (round32 (9 / 10)))) = Fp.fin (4194303 / 4194304) ∧
    Arith.divD (Fp.fin (1 / 4)) (Arith.subD (Arith.ofInt 1) (Fp.fin 1)) = Fp.pinf := by
  decide!

/-- A jet whose electron score is `1`, in IEEE arithmetic: the denominator of
the vsJet ratio is zero and the stored value is `+inf`. -/
theorem ieee_nonfinite_ratio :
    setDiscriminants prodIeee (jetIeee 50 0 (1 / 4) (1 / 4) 1) (tauIds_pnet_init fwIeee)
      = [("byPNetDecayMode", Fp.fin (-1)), ("byPNetVSjetraw", Fp.pinf),
        ("byPNetVSeraw", Fp.fin (11184811 / 33554432)), ("byPNetVSmuraw", Fp.fin 1)] := by
  decide!

/-- The share `3 / 10` of the best tau score is a sharp bound for the agreement
of charge and charge balance: with the catalog of `cfgFourTau` and `jetBoundary`
the best score is exactly `3 / 10` of the sum, the jet-built entry has charge
`+1` and the charge balance is `3 / 10`. -/
theorem charge_share_sharp :
    (PATTauHybridProducer.ctor cfgFourTau).bind
        (fun self => (self.produce fwEta [] [jetBoundary]).map (List.map Tau.charge))
      = some [1] ∧
    (PATTauHybridProducer.ctor cfgFourTau).map
        (fun self => ((tauScores self jetBoundary).bestPnetTauScore.2,
          (tauScores self jetBoundary).sumOfPnetTauScores,
          (tauScores self jetBoundary).plusChargeProb))
      = some (3 / 10, 1, 3 / 10) := by
  decide!

/-! ## Claims of the specification -/

/-- C1 (Matcher first-match): for a producer built by the constructor and an
event with at most `2 ^ 32` input taus, a jet at position `k` that passes the
pt/eta cuts of lines 102-105 claims exactly the lowest-index input tau that no
earlier jet has claimed and whose deltaR to the jet is strictly below `dRMax`;
when there is no such tau (in particular when every unclaimed tau has deltaR
equal to `dRMax` or above) the jet claims none.  The iteration of the jet ends
without an exception.  The quantities are those the code compares: `dRMax`,
`jetPtMin` and `jetEtaMax` are the `float` members, which the constructor sets
to the configured `double` values converted to `float`, and the deltaR of a jet
and a tau is the `float dR` of line 172, the `double` returned by `deltaR`
converted to `float`.  The statement holds for every arithmetic. -/
theorem matcher_first_match (cfg : ParameterSet R) (self : PATTauHybridProducer R)
    (fw : Framework R) (inputTaus : List (Tau R)) (jets : List (Jet R)) (k : Nat) (jet : Jet R)
    (hctor : PATTauHybridProducer.ctor cfg = some self)
    (hlen : inputTaus.length ≤ 2 ^ 32) (hk : jets[k]? = some jet)
    (hpt : ¬ Arith.lt jet.pt self.jetPtMin_)
    (heta : ¬ Arith.lt self.jetEtaMax_ (Arith.absD jet.eta)) :
    (self.dRMax_ = Arith.narrow cfg.dRMax ∧ self.jetPtMin_ = Arith.narrow cfg.jetPtMin ∧
      self.jetEtaMax_ = Arith.narrow cfg.jetEtaMax) ∧
    (∃ s, stateAfter self fw inputTaus jets (k + 1) = some s) ∧
    (∀ i t, inputTaus[i]? = some t → unclaimedBefore self fw inputTaus jets k i →
        Arith.lt (Arith.narrow (fw.deltaR jet t)) self.dRMax_ →
        (∀ i' t', i' < i → inputTaus[i']? = some t' →
          unclaimedBefore self fw inputTaus jets k i' →
          ¬ Arith.lt (Arith.narrow (fw.deltaR jet t')) self.dRMax_) →
        claimedBy self fw inputTaus jets k = [i]) ∧
    ((∀ i t, inputTaus[i]? = some t → unclaimedBefore self fw inputTaus jets k i →
        ¬ Arith.lt (Arith.narrow (fw.deltaR jet t)) self.dRMax_) →
      claimedBy self fw inputTaus jets k = []) := by
  have hok := ctor_tauNamesOk cfg self hctor
  obtain ⟨e1, e2, e3, -⟩ := ctor_members cfg self hctor
  have hpass : passesCuts self jet := ⟨hpt, heta⟩
  refine ⟨⟨e1, e2, e3⟩, ?_, ?_⟩
  · obtain ⟨s, s', -, hs', -⟩ := stateAfter_succ self hok fw inputTaus hlen jets k
    exact ⟨s', hs'⟩
  rcases outcome_at self hok fw inputTaus hlen jets k jet hk with
    ⟨hnp, -, -⟩ | ⟨-, s, c, ids, -, -, -, hrest⟩
  · exact absurd hpass hnp
  rcases hrest with ⟨i0, t0, hget0, hun0, hd0, hmin0, hc, -⟩ | ⟨hall, hc, -⟩
  · constructor
    · intro i t hget hun hd hmin
      rcases Nat.lt_trichotomy i i0 with hlt | heq | hgt
      · exact absurd hd (hmin0 i t hlt hget hun)
      · rw [hc, heq]
      · exact absurd hd0 (hmin i0 t0 hgt hget0 hun0)
    · intro hnone
      exact absurd hd0 (hnone i0 t0 hget0 hun0)
  · constructor
    · intro i t hget hun hd _
      exact absurd hd (hall i t hget hun)
    · intro _
      exact hc

/-- Witness for `matcher_first_match`, in IEEE arithmetic: three taus at
`eta = 1`, `1.2`, `1.3999999999` and three jets at `eta = 1.1`, `1`, `1`, with
`dRMax = 0.4`.  The first jet has the first two taus in range and claims the
first; the second jet finds the first tau claimed and claims the second; the
third jet finds the third tau at a `float dR` equal to `dRMax` and claims none. -/
theorem matcher_first_match_witness :
    claimedBy prodIeee fwIeee tausIeee jetsIeee 0 = [0] ∧
    claimedBy prodIeee fwIeee tausIeee jetsIeee 1 = [1] ∧
    claimedBy prodIeee fwIeee tausIeee jetsIeee 2 = [] :=
  ⟨(matcher_first_match cfgIeee prodIeee fwIeee tausIeee jetsIeee 0
      (jetIeee 50 (11 / 10) (9 / 10) (1 / 20) (1 / 20)) ctor_cfgIeee (by decide) rfl
      (by decide!) (by decide!)).2.2.1 0 (tauIeee 1) rfl (by decide!) (by decide!)
      (fun i' _ hi' => absurd hi' (Nat.not_lt_zero i')),
    (matcher_first_match cfgIeee prodIeee fwIeee tausIeee jetsIeee 1
      (jetIeee 60 1 (9 / 10) (1 / 20) (1 / 20)) ctor_cfgIeee (by decide) rfl
      (by decide!) (by decide!)).2.2.1 1 (tauIeee (6 / 5)) rfl (by decide!) (by decide!)
      (fun i' t' hi' _ hun => by
        have h0 : i' = 0 := by omega
        subst h0
        exact absurd hun (by decide!)),
    (matcher_first_match cfgIeee prodIeee fwIeee tausIeee jetsIeee 2
      (jetIeee 70 1 (9 / 10) (1 / 20) (1 / 20)) ctor_cfgIeee (by decide) rfl
      (by decide!) (by decide!)).2.2.2
      ((forall_getElem?_iff tausIeee _).mpr (by decide!))⟩

/-- C2 (Output order): for a producer built by the constructor and an event
with at most `2 ^ 32` input taus, `produce` returns; its output is the entries
pushed by the jets, in jet order, followed by one copy (lines 222-233) of every
input tau that no jet claimed, in tau order.  Every jet pushes at most one
entry, which is the augmented copy of the tau it claims or, when it claims
none, a tau built from the jet. -/
theorem output_order (cfg : ParameterSet R) (self : PATTauHybridProducer R)
    (fw : Framework R) (inputTaus : List (Tau R)) (jets : List (Jet R))
    (hctor : PATTauHybridProducer.ctor cfg = some self)
    (hlen : inputTaus.length ≤ 2 ^ 32) :
    ∃ out, self.produce fw inputTaus jets = some out ∧
      out = (List.range jets.length).flatMap (emittedBy self fw inputTaus jets) ++
        (inputTaus.enum.filter
          (fun p => decide (unclaimedBefore self fw inputTaus jets jets.length p.1))).map
          (fun p => unmatchedTau p.2 (tauIds_pnet_init fw)) ∧
      (∀ k, (emittedBy self fw inputTaus jets k).length ≤ 1) ∧
      (∀ k jet e, jets[k]? = some jet → e ∈ emittedBy self fw inputTaus jets k →
        (∃ i t ids, claimedBy self fw inputTaus jets k = [i] ∧ inputTaus[i]? = some t ∧
          e = augmentedTau t ids) ∨
        (∃ c ids, claimedBy self fw inputTaus jets k = [] ∧ e = tauFromJet jet c ids)) := by
  have hok := ctor_tauNamesOk cfg self hctor
  obtain ⟨s, hs, hp⟩ := produce_eq self hok fw inputTaus hlen jets
  refine ⟨_, hp, ?_, ?_, ?_⟩
  · rw [output_eq_flatMap self hok fw inputTaus hlen jets jets.length s hs]
    congr 2
    apply List.filter_congr
    intro p _
    have := mem_matched_iff self hok fw inputTaus hlen jets jets.length s hs p.1
    by_cases hm : p.1 ∈ s.matched_taus
    · have hn := this.mp hm
      simp [hm, hn]
    · have hn : unclaimedBefore self fw inputTaus jets jets.length p.1 := by
        by_contra hcon; exact hm (this.mpr hcon)
      simp [hm, hn]
  · exact fun k => (emittedBy_length_le self hok fw inputTaus hlen jets k).1
  · intro k jet e hk he
    rcases outcome_at self hok fw inputTaus hlen jets k jet hk with
      ⟨-, -, hem⟩ | ⟨-, s', c, ids, -, -, -, hrest⟩
    · rw [hem] at he; cases he
    · rcases hrest with ⟨i, t, hget, -, -, -, hc, hem⟩ | ⟨-, hc, hout⟩
      · left
        rw [hem] at he
        exact ⟨i, t, ids, hc, hget, List.mem_singleton.mp he⟩
      · rcases hout with ⟨-, hem⟩ | ⟨-, hem⟩
        · right
          rw [hem] at he
          exact ⟨_, ids, hc, List.mem_singleton.mp he⟩
        · rw [hem] at he; cases he

/-- Witness for `output_order`: an event with one tau and two jets. -/
theorem output_order_witness :
    ∃ out, prodEvent.produce fwEta [tauNear] [jetTauLike, jetLepLike] = some out ∧
      out = (List.range 2).flatMap
          (emittedBy prodEvent fwEta [tauNear] [jetTauLike, jetLepLike]) ++
        ([tauNear].enum.filter
          (fun p => decide
            (unclaimedBefore prodEvent fwEta [tauNear] [jetTauLike, jetLepLike] 2 p.1))).map
          (fun p => unmatchedTau p.2 (tauIds_pnet_init fwEta)) :=
  let ⟨out, h1, h2, _⟩ := output_order cfgEvent prodEvent fwEta [tauNear]
    [jetTauLike, jetLepLike] ctor_cfgEvent (by decide)
  ⟨out, h1, h2⟩

/-- C3 (At-most-one match per tau): for a producer built by the constructor and
an event with at most `2 ^ 32` input taus, the jet loop runs without an
exception, every jet claims at most one tau,
every claimed key is the position of an input tau, no tau is claimed by two
different jets, and a jet that claims a tau pushes exactly one entry, so no
input tau gives more than one matched entry. -/
theorem at_most_one_match (cfg : ParameterSet R) (self : PATTauHybridProducer R)
    (fw : Framework R) (inputTaus : List (Tau R)) (jets : List (Jet R))
    (hctor : PATTauHybridProducer.ctor cfg = some self)
    (hlen : inputTaus.length ≤ 2 ^ 32) :
    (∀ k, ∃ s, stateAfter self fw inputTaus jets k = some s) ∧
    (∀ k, (claimedBy self fw inputTaus jets k).length ≤ 1) ∧
    (∀ k i, i ∈ claimedBy self fw inputTaus jets k → i < inputTaus.length) ∧
    (∀ k₁ k₂ i, k₁ ≠ k₂ → i ∈ claimedBy self fw inputTaus jets k₁ →
      i ∉ claimedBy self fw inputTaus jets k₂) ∧
    (∀ k i, i ∈ claimedBy self fw inputTaus jets k →
      (emittedBy self fw inputTaus jets k).length = 1) := by
  have hok := ctor_tauNamesOk cfg self hctor
  have hlt : ∀ k₁ k₂ i, k₁ < k₂ → i ∈ claimedBy self fw inputTaus jets k₁ →
      i ∉ claimedBy self fw inputTaus jets k₂ := by
    intro k₁ k₂ i hlt h1 h2
    obtain ⟨s, s', hs, hs', -, -, -⟩ := stateAfter_succ self hok fw inputTaus hlen jets k₂
    rw [claimedBy_eq self fw inputTaus jets k₂ s s' hs hs', List.mem_filter] at h2
    have hnm : i ∉ s.matched_taus := by simpa using h2.2
    have := (mem_matched_iff self hok fw inputTaus hlen jets k₂ s hs i).not.mp hnm
    rw [not_not] at this
    exact this k₁ hlt h1
  refine ⟨?_, fun k => (emittedBy_length_le self hok fw inputTaus hlen jets k).2, ?_, ?_, ?_⟩
  · intro k
    obtain ⟨s, -, hs, -⟩ := stateAfter_succ self hok fw inputTaus hlen jets k
    exact ⟨s, hs⟩
  · intro k i hi
    obtain ⟨s, s', hs, hs', -, hinv', -⟩ := stateAfter_succ self hok fw inputTaus hlen jets k
    rw [claimedBy_eq self fw inputTaus jets k s s' hs hs', List.mem_filter] at hi
    exact hinv'.2.1 i hi.1
  · intro k₁ k₂ i hne h1 h2
    rcases Nat.lt_or_gt_of_ne hne with h | h
    · exact hlt k₁ k₂ i h h1 h2
    · exact hlt k₂ k₁ i h h2 h1
  · intro k i hi
    cases hk : jets[k]? with
    | none =>
      obtain ⟨s, s', hs, hs', -, -, hcase⟩ := stateAfter_succ self hok fw inputTaus hlen jets k
      rcases hcase with ⟨-, rfl⟩ | ⟨jet, hget, -⟩
      · rw [claimedBy_eq self fw inputTaus jets k s' s' hs hs', filter_not_mem_self] at hi
        cases hi
      · rw [hk] at hget; cases hget
    | some jet =>
      rcases outcome_at self hok fw inputTaus hlen jets k jet hk with
        ⟨-, hc, -⟩ | ⟨-, s, c, ids, -, -, -, hrest⟩
      · rw [hc] at hi; cases hi
      · rcases hrest with ⟨i0, t, -, -, -, -, -, hem⟩ | ⟨-, hc, -⟩
        · rw [hem]; rfl
        · rw [hc] at hi; cases hi

/-- Witness for `at_most_one_match`: an event with one tau and two jets. -/
theorem at_most_one_match_witness :
    (claimedBy prodEvent fwEta [tauNear] [jetTauLike, jetLepLike] 0).length ≤ 1 ∧
    (claimedBy prodEvent fwEta [tauNear] [jetTauLike, jetLepLike] 1).length ≤ 1 :=
  ⟨(at_most_one_match cfgEvent prodEvent fwEta [tauNear] [jetTauLike, jetLepLike]
      ctor_cfgEvent (by decide)).2.1 0,
   (at_most_one_match cfgEvent prodEvent fwEta [tauNear] [jetTauLike, jetLepLike]
      ctor_cfgEvent (by decide)).2.1 1⟩

/-- C4 (Synthesizer gate): for a producer built by the constructor and an event
with at most `2 ^ 32` input taus, the iteration of the jet at position `k`
ends without an exception, and the jet pushes an entry without claiming a tau
(the push of line 213) if and only if it passes the pt/eta cuts, no unclaimed
tau has deltaR below `dRMax`, `isTauScoreBest` is true and the charge-balance
value `plusChargeProb` is not within `0.2` of `0.5`, that is, the test
`std::abs(0.5 - plusChargeProb) < 0.2` of line 197 is false; the entry is then
built from the jet: it has the four-momentum of the jet and the charge read
from the best tau score name.  The quantities are those the code compares: the
thresholds are the `float` members (the configured values converted to
`float`), deltaR is the `float dR` of line 172, `plusChargeProb` is the `float`
quotient of the accumulated `float` sums, and the gate is evaluated in
`double` against the `double` literal `0.2`.  The statement holds for every
arithmetic. -/
theorem synthesizer_gate (cfg : ParameterSet R) (self : PATTauHybridProducer R)
    (fw : Framework R) (inputTaus : List (Tau R)) (jets : List (Jet R)) (k : Nat) (jet : Jet R)
    (hctor : PATTauHybridProducer.ctor cfg = some self)
    (hlen : inputTaus.length ≤ 2 ^ 32) (hk : jets[k]? = some jet) :
    (self.dRMax_ = Arith.narrow cfg.dRMax ∧ self.jetPtMin_ = Arith.narrow cfg.jetPtMin ∧
      self.jetEtaMax_ = Arith.narrow cfg.jetEtaMax) ∧
    (∃ s, stateAfter self fw inputTaus jets (k + 1) = some s) ∧
    ((claimedBy self fw inputTaus jets k = [] ∧
        ∃ e, emittedBy self fw inputTaus jets k = [e]) ↔
      (¬ Arith.lt jet.pt self.jetPtMin_ ∧ ¬ Arith.lt self.jetEtaMax_ (Arith.absD jet.eta)) ∧
      (∀ i t, inputTaus[i]? = some t → unclaimedBefore self fw inputTaus jets k i →
        ¬ Arith.lt (Arith.narrow (fw.deltaR jet t)) self.dRMax_) ∧
      isTauScoreBest self jet = true ∧
      ¬ Arith.lt (Arith.absD (Arith.subD Arith.half (tauScores self jet).plusChargeProb))
        Arith.fifth) ∧
    ((tauScores self jet).plusChargeProb
      = (if Arith.lt (Arith.ofInt 0) (sumF (self.pnetTauScoreNames_.map (score self jet))) then
          Arith.divF
            (sumF ((self.pnetTauScoreNames_.filter (fun n => decide (contains n "taup"))).map
              (score self jet)))
            (sumF (self.pnetTauScoreNames_.map (score self jet)))
        else
          sumF ((self.pnetTauScoreNames_.filter (fun n => decide (contains n "taup"))).map
              (score self jet)))) ∧
    (claimedBy self fw inputTaus jets k = [] →
      ∀ e, e ∈ emittedBy self fw inputTaus jets k →
        (∃ ids, e = tauFromJet jet
            (chargeMarker (tauScores self jet).bestPnetTauScore.1).2 ids) ∧
        e.p4 = jet.p4 ∧
        e.charge = (chargeMarker (tauScores self jet).bestPnetTauScore.1).2) := by
  have hok := ctor_tauNamesOk cfg self hctor
  obtain ⟨e1, e2, e3, -⟩ := ctor_members cfg self hctor
  refine ⟨⟨e1, e2, e3⟩, ?_, ?_, tauScores_plusF self jet, ?_⟩
  · obtain ⟨s, s', -, hs', -⟩ := stateAfter_succ self hok fw inputTaus hlen jets k
    exact ⟨s', hs'⟩
  · rcases outcome_at self hok fw inputTaus hlen jets k jet hk with
      ⟨hnp, hc, hem⟩ | ⟨hp, s, c, ids, -, -, -, hrest⟩
    · constructor
      · rintro ⟨-, e, he⟩
        rw [hem] at he; cases he
      · rintro ⟨hp, -⟩
        exact absurd hp hnp
    rcases hrest with ⟨i, t, hget, hun, hd, -, hc, hem⟩ | ⟨hall, hc, hout⟩
    · constructor
      · rintro ⟨hcn, -⟩
        rw [hc] at hcn; cases hcn
      · rintro ⟨-, hnone, -⟩
        exact absurd hd (hnone i t hget hun)
    · rcases hout with ⟨hg, hem⟩ | ⟨hng, hem⟩
      · constructor
        · intro _
          exact ⟨hp, hall, hg⟩
        · intro _
          exact ⟨hc, _, hem⟩
      · constructor
        · rintro ⟨-, e, he⟩
          rw [hem] at he; cases he
        · rintro ⟨-, -, hg⟩
          exact absurd hg hng
  · rcases outcome_at self hok fw inputTaus hlen jets k jet hk with
      ⟨hnp, hc, hem⟩ | ⟨hp, s, c, ids, -, -, -, hrest⟩
    · intro _ e he
      rw [hem] at he; cases he
    rcases hrest with ⟨i, t, hget, hun, hd, -, hc, hem⟩ | ⟨hall, hc, hout⟩
    · intro hcn
      rw [hc] at hcn; cases hcn
    · rcases hout with ⟨hg, hem⟩ | ⟨hng, hem⟩
      · intro _ e he
        rw [hem] at he
        have := List.mem_singleton.mp he
        subst this
        exact ⟨⟨ids, rfl⟩, rfl, rfl⟩
      · intro _ e he
        rw [hem] at he; cases he

/-- Witness for `synthesizer_gate`, in IEEE arithmetic, with one tau at
`eta = 1` and two jets far from it.  The second jet has the tau scores `0.9`
and `0.05`: it passes the gate and pushes an entry without claiming a tau.  The
first jet has the tau scores `0.4375` and `0.1875`: its `float` charge balance
is `11744051 / 2 ^ 24`, just below `0.7`, the gate test is true and the jet
pushes nothing. -/
theorem synthesizer_gate_witness :
    (claimedBy prodIeee fwIeee [tauIeee 1] jetsGate 1 = [] ∧
      ∃ e, emittedBy prodIeee fwIeee [tauIeee 1] jetsGate 1 = [e]) ∧
    (tauScores prodIeee (jetIeee 50 (-1) (7 / 16) (3 / 16) (1 / 10))).plusChargeProb
      = Fp.fin (11744051 / 16777216) ∧
    emittedBy prodIeee fwIeee [tauIeee 1] jetsGate 0 = [] :=
  ⟨(synthesizer_gate cfgIeee prodIeee fwIeee [tauIeee 1] jetsGate 1
      (jetIeee 50 2 (9 / 10) (1 / 20) (1 / 20)) ctor_cfgIeee (by decide) rfl).2.2.1.mpr
      ⟨⟨by decide!, by decide!⟩, (forall_getElem?_iff [tauIeee 1] _).mpr (by decide!),
        by decide!, by decide!⟩,
    by decide!, by decide!⟩

/-- C5 (isTauBest characterisation): for every catalog and every jet, the flag
`isTauScoreBest` is true exactly when the sum of the tau scores is positive, no
lepton-flavor score exceeds the best tau value and no jet-flavor score exceeds
it; skipping the jet-flavor scan after a lepton score disqualified the jet does
not change the result.  The comparisons are the `float` comparisons of lines
127, 131 and 140, in every arithmetic. -/
theorem isTauBest_characterisation (self : PATTauHybridProducer R) (jet : Jet R) :
    isTauScoreBest self jet = true ↔
      Arith.lt (Arith.ofInt 0) (tauScores self jet).sumOfPnetTauScores ∧
      (∀ n ∈ self.pnetLepScoreNames_,
        ¬ Arith.lt (tauScores self jet).bestPnetTauScore.2 (score self jet n)) ∧
      (∀ n ∈ self.pnetJetScoreNames_,
        ¬ Arith.lt (tauScores self jet).bestPnetTauScore.2 (score self jet n)) :=
  isTauScoreBest_iff self jet

/-- C6 (Catalog partition): the constructor returns, and every name of the input
list, read as the catalog reads it (lines 48-50: with everything up to and
including the first ':' stripped), is in exactly one of the three buckets when
it contains "prob" and in none of them when it does not. -/
theorem catalog_partition (cfg : ParameterSet R) :
    ∃ self, PATTauHybridProducer.ctor cfg = some self ∧
      ∀ n ∈ cfg.pnetScoreNames,
        (contains (stripLabel n) "prob" →
          (stripLabel n ∈ self.pnetTauScoreNames_ ∧ stripLabel n ∉ self.pnetLepScoreNames_ ∧
            stripLabel n ∉ self.pnetJetScoreNames_) ∨
          (stripLabel n ∉ self.pnetTauScoreNames_ ∧ stripLabel n ∈ self.pnetLepScoreNames_ ∧
            stripLabel n ∉ self.pnetJetScoreNames_) ∨
          (stripLabel n ∉ self.pnetTauScoreNames_ ∧ stripLabel n ∉ self.pnetLepScoreNames_ ∧
            stripLabel n ∈ self.pnetJetScoreNames_)) ∧
        (¬ contains (stripLabel n) "prob" →
          stripLabel n ∉ self.pnetTauScoreNames_ ∧ stripLabel n ∉ self.pnetLepScoreNames_ ∧
            stripLabel n ∉ self.pnetJetScoreNames_) := by
  obtain ⟨self, h, ht, hl, hj, -⟩ := ctor_spec cfg
  refine ⟨self, h, ?_⟩
  intro n hn
  have hmem : stripLabel n ∈ cfg.pnetScoreNames.map stripLabel := List.mem_map_of_mem _ hn
  rw [ht, hl, hj]
  simp only [List.mem_filter, decide_eq_true_eq, hmem, true_and]
  by_cases hp : contains (stripLabel n) "prob" <;>
    by_cases htau : contains (stripLabel n) "tau" <;>
    by_cases hlep : contains (stripLabel n) "ele" ∨ contains (stripLabel n) "mu" <;>
    simp [hp, htau, hlep]

/-- C7 (catalog classification and order): the constructor returns, and with
`S` the input names with their labels stripped, the tau bucket is the sublist
of `S` of the names containing "prob" and "tau", the lepton bucket the sublist
of those containing "prob", not "tau", and "ele" or "mu", and the jet bucket the
sublist of the remaining names containing "prob", each in input order. -/
theorem catalog_classification (cfg : ParameterSet R) :
    ∃ self, PATTauHybridProducer.ctor cfg = some self ∧
      self.pnetTauScoreNames_ = (cfg.pnetScoreNames.map stripLabel).filter
          (fun n => decide (contains n "prob" ∧ contains n "tau")) ∧
      self.pnetLepScoreNames_ = (cfg.pnetScoreNames.map stripLabel).filter
          (fun n => decide (contains n "prob" ∧ ¬ contains n "tau" ∧
            (contains n "ele" ∨ contains n "mu"))) ∧
      self.pnetJetScoreNames_ = (cfg.pnetScoreNames.map stripLabel).filter
          (fun n => decide (contains n "prob" ∧ ¬ contains n "tau" ∧
            ¬ (contains n "ele" ∨ contains n "mu"))) := by
  obtain ⟨self, h, ht, hl, hj, -⟩ := ctor_spec cfg
  exact ⟨self, h, ht, hl, hj⟩

/-- C8, as stated, fails: with the catalog of `cfgOtherMarker` the jet
`jetQuarter` has `isTauScoreBest` true and the best name "probtau" + 'x' + "1h0p";
the charge is `0`, but the string looked up is "x1h0p", not the tag "1h0p"
(whose table value is `0`), and the decay-mode entry keeps its value `-1`. -/
theorem charge_marker_counterexample :
    (PATTauHybridProducer.ctor cfgOtherMarker).map
        (fun self => (isTauScoreBest self jetQuarter,
          (tauScores self jetQuarter).bestPnetTauScore.1))
      = some (true, "probtau" ++ String.singleton 'x' ++ "1h0p") ∧
    (PATTauHybridProducer.ctor cfgOtherMarker).map
        (fun self => self.tagToDM_.lookup "1h0p") = some (some 0) ∧
    (PATTauHybridProducer.ctor cfgOtherMarker).bind
        (fun self => chargeAndDM self jetQuarter [("byPNetDecayMode", -1)])
      = some (0, [("byPNetDecayMode", -1)]) ∧
    substr "probtaux1h0p" (chargeMarker "probtaux1h0p").1 = some "x1h0p" := by
  decide!

/-- C8 (Charge-marker parsing, amended): for a producer built by the
constructor and a jet with `isTauScoreBest` true whose best score name is
"probtau" + `c` + `tag`, the charge is `-1` for `c = 'm'`, `+1` for `c = 'p'`
and `0` otherwise; the string looked up in the decay-tag table is `tag` when
`c` is 'm' or 'p' and `c` followed by `tag` otherwise; the decay-mode entry
becomes the table's value for that string when the table has one and is
unchanged when not. -/
theorem charge_marker_parsing (cfg : ParameterSet R) (self : PATTauHybridProducer R) (jet : Jet R)
    (ids : List (IdPair R)) (c : Char) (tag : String)
    (hctor : PATTauHybridProducer.ctor cfg = some self)
    (hbest : isTauScoreBest self jet = true)
    (hname : (tauScores self jet).bestPnetTauScore.1
      = "probtau" ++ String.singleton c ++ tag) :
    (chargeMarker (tauScores self jet).bestPnetTauScore.1).2
      = (if c = 'm' then -1 else if c = 'p' then 1 else 0) ∧
    substr (tauScores self jet).bestPnetTauScore.1
        (chargeMarker (tauScores self jet).bestPnetTauScore.1).1
      = some (if c = 'm' ∨ c = 'p' then tag else String.singleton c ++ tag) ∧
    chargeAndDM self jet ids
      = some ((if c = 'm' then -1 else if c = 'p' then 1 else 0),
          match ([("1h0p", 0), ("1h1or2p", 1), ("1h1p", 1), ("1h2p", 2), ("3h0p", 10),
              ("3h1p", 11)] : List (String × Int)).lookup
              (if c = 'm' ∨ c = 'p' then tag else String.singleton c ++ tag) with
          | some dm => setSecond ids 0 (Arith.ofInt dm)
          | none => ids) := by
  obtain ⟨-, -, -, -, e5⟩ := ctor_members cfg self hctor
  have hcm := chargeMarker_probtau c tag
  have hsub := substr_probtau c tag
  have h1 : (chargeMarker (tauScores self jet).bestPnetTauScore.1).2
      = (if c = 'm' then -1 else if c = 'p' then 1 else 0) := by
    rw [hname, hcm]
    split_ifs <;> rfl
  have h2 : substr (tauScores self jet).bestPnetTauScore.1
        (chargeMarker (tauScores self jet).bestPnetTauScore.1).1
      = some (if c = 'm' ∨ c = 'p' then tag else String.singleton c ++ tag) := by
    rw [hname, hcm]
    by_cases hm : c = 'm'
    · simp only [hm, if_true, true_or]
      exact hsub.1
    · by_cases hp : c = 'p'
      · simp only [hp, if_true, or_true]
        exact hsub.1
      · simp only [hm, hp, if_false, or_self]
        exact hsub.2
  refine ⟨h1, h2, ?_⟩
  unfold chargeAndDM
  simp only [hbest, if_true, h2, h1, e5]
  split <;> rename_i hl <;> simp only [hl]

/-- Witness for `charge_marker_parsing`: `jetTauLike` with the best name
"probtaup3h1p". -/
theorem charge_marker_parsing_witness :
    chargeAndDM prodEvent jetTauLike (tauIds_pnet_init fwEta)
      = some (1, setSecond (tauIds_pnet_init fwEta) 0 11) := by
  have h := (charge_marker_parsing cfgEvent prodEvent jetTauLike (tauIds_pnet_init fwEta)
    'p' "3h1p" ctor_cfgEvent (by decide!) (by decide!)).2.2
  rw [h]
  decide!

/-- C9, evaluated on the failing input, in exact arithmetic: `jetLepLike` alone
hands the decay-mode value `-1` (`kNull`) to the tau it matches; preceded by
`jetTauLike`, whose best tag "3h1p" has the code `11`, the same jet hands on
the value `11`. -/
theorem stale_decay_mode :
    (PATTauHybridProducer.ctor cfgEvent).bind
        (fun self => (self.produce fwEta [tauNear] [jetLepLike]).map (List.map Tau.tauIDs))
      = some [[("decayModeFinding", 1), ("byPNetDecayMode", -1), ("byPNetVSjetraw", 1),
          ("byPNetVSeraw", 1 / 10), ("byPNetVSmuraw", 1)]] ∧
    (PATTauHybridProducer.ctor cfgEvent).bind
        (fun self =>
          (self.produce fwEta [tauNear] [jetTauLike, jetLepLike]).map (List.map Tau.tauIDs))
      = some [[("decayModeFindingNewDMs", -1), ("byPNetDecayMode", 11), ("byPNetVSjetraw", 1),
          ("byPNetVSeraw", 9 / 10), ("byPNetVSmuraw", 1)],
        [("decayModeFinding", 1), ("byPNetDecayMode", 11), ("byPNetVSjetraw", 1),
          ("byPNetVSeraw", 1 / 10), ("byPNetVSmuraw", 1)]] := by
  decide!

/-- C10, as stated, fails: for `jetNegative` and the catalog of `cfgTwoTau` the
sum of the tau scores is `-2`, not positive, and `plusChargeProb` is `-1`, not `0`. -/
theorem charge_balance_counterexample :
    (PATTauHybridProducer.ctor cfgTwoTau).map
        (fun self => ((tauScores self jetNegative).sumOfPnetTauScores,
          (tauScores self jetNegative).plusChargeProb))
      = some (-2, -1) := by
  decide!

/-- C10 (chargeBalance, amended): `sumOfPnetTauScores` is the sum of the tau
scores; `plusChargeProb` is the sum of the scores of the tau names containing
"taup", divided by the sum of the tau scores when that sum is positive and left
undivided otherwise; it is `0` in the second case when no tau score is negative.
Scores are rationals and the arithmetic is exact. -/
theorem charge_balance_value (self : PATTauHybridProducer ℚ) (jet : Jet ℚ) :
    (tauScores self jet).sumOfPnetTauScores
        = (self.pnetTauScoreNames_.map (score self jet)).sum ∧
    (tauScores self jet).plusChargeProb
        = (if 0 < (self.pnetTauScoreNames_.map (score self jet)).sum then
            ((self.pnetTauScoreNames_.filter (fun n => decide (contains n "taup"))).map
                (score self jet)).sum
              / (self.pnetTauScoreNames_.map (score self jet)).sum
          else
            ((self.pnetTauScoreNames_.filter (fun n => decide (contains n "taup"))).map
                (score self jet)).sum) ∧
    ((∀ n ∈ self.pnetTauScoreNames_, 0 ≤ score self jet n) →
      ¬ 0 < (self.pnetTauScoreNames_.map (score self jet)).sum →
      (tauScores self jet).plusChargeProb = 0) := by
  have hs := tauScores_sum self jet
  have hp := tauScores_plus self jet
  refine ⟨hs, hp, ?_⟩
  intro hnn hle
  rw [hp, if_neg hle]
  exact plusSum_eq_zero self jet _ hnn (not_lt.mp hle)

/-- Witness for `charge_balance_value`: the two-name catalog of `cfgTwoTau` and
a jet with scores `0` everywhere. -/
theorem charge_balance_value_witness :
    PATTauHybridProducer.ctor cfgTwoTau = some prodTwoTau ∧
    (tauScores prodTwoTau jetZero).plusChargeProb = 0 :=
  ⟨ctor_cfgTwoTau,
    (charge_balance_value prodTwoTau jetZero).2.2 (by decide!) (by decide!)⟩

/-- C11 (bestTau selection): for every catalog and jet such that some tau score
exceeds `-1`, the best pair is a name of the tau bucket with its score; that
score is the maximum of the tau scores (no tau score is above it); among the
names with that score it is the first in catalog order (no earlier name has the
same score or a score above it); and `sumOfPnetTauScores` is the sum of the tau
scores as the loop accumulates it: in `float`, from `0`, in catalog order.  The
statement holds for every arithmetic. -/
theorem bestTau_selection (self : PATTauHybridProducer R) (jet : Jet R)
    (h : ∃ n ∈ self.pnetTauScoreNames_, Arith.lt (Arith.ofInt (-1)) (score self jet n)) :
    (∃ idx, self.pnetTauScoreNames_[idx]? = some (tauScores self jet).bestPnetTauScore.1 ∧
      (tauScores self jet).bestPnetTauScore.2
        = score self jet (tauScores self jet).bestPnetTauScore.1 ∧
      (∀ n ∈ self.pnetTauScoreNames_,
        ¬ Arith.lt (tauScores self jet).bestPnetTauScore.2 (score self jet n)) ∧
      (∀ (j : Nat) (n : String), j < idx → self.pnetTauScoreNames_[j]? = some n →
        score self jet n ≠ (tauScores self jet).bestPnetTauScore.2 ∧
        ¬ Arith.lt (tauScores self jet).bestPnetTauScore.2 (score self jet n))) ∧
    (tauScores self jet).sumOfPnetTauScores
      = sumF (self.pnetTauScoreNames_.map (score self jet)) := by
  obtain ⟨idx, h1, h2, -, h3, h4⟩ := tauScores_best_spec self jet h
  exact ⟨⟨idx, h1, h2.symm, h3, h4⟩, tauScores_sumF self jet⟩

/-- Witness for `bestTau_selection`, in IEEE arithmetic: four tau names with
the scores `2 ^ (-26)`, `0.5`, `0.5`, `2 ^ (-26)`.  The best pair is the second
name with the value `0.5`: the third name has the same score and comes later,
the first name has a smaller score.  The accumulated `float` sum is `1`. -/
theorem bestTau_selection_witness :
    ((∃ idx, prodTie.pnetTauScoreNames_[idx]? = some (tauScores prodTie jetTie).bestPnetTauScore.1 ∧
      (tauScores prodTie jetTie).bestPnetTauScore.2
        = score prodTie jetTie (tauScores prodTie jetTie).bestPnetTauScore.1 ∧
      (∀ n ∈ prodTie.pnetTauScoreNames_,
        ¬ Arith.lt (tauScores prodTie jetTie).bestPnetTauScore.2 (score prodTie jetTie n)) ∧
      (∀ (j : Nat) (n : String), j < idx → prodTie.pnetTauScoreNames_[j]? = some n →
        score prodTie jetTie n ≠ (tauScores prodTie jetTie).bestPnetTauScore.2 ∧
        ¬ Arith.lt (tauScores prodTie jetTie).bestPnetTauScore.2 (score prodTie jetTie n))) ∧
      (tauScores prodTie jetTie).sumOfPnetTauScores
        = sumF (prodTie.pnetTauScoreNames_.map (score prodTie jetTie))) ∧
    (tauScores prodTie jetTie).bestPnetTauScore = ("probtaum1h0p", Fp.fin (1 / 2)) ∧
    prodTie.pnetTauScoreNames_.map (score prodTie jetTie)
      = [Fp.fin (1 / 67108864), Fp.fin (1 / 2), Fp.fin (1 / 2), Fp.fin (1 / 67108864)] ∧
    (tauScores prodTie jetTie).sumOfPnetTauScores = Fp.fin 1 :=
  ⟨bestTau_selection prodTie jetTie ⟨"probtaum1h0p", by decide, by decide!⟩,
    by decide!, by decide!, by decide!⟩

/-- C12 (Sentinel propagation): for a producer built by the constructor and an
event with at most `2 ^ 32` input taus, `produce` returns, and the entries
after those pushed by the jets are, in tau order, the copies of the unclaimed
input taus, each with its own tag list followed by the four tags
byPNetDecayMode, byPNetVSjetraw, byPNetVSeraw, byPNetVSmuraw with value `-1`,
whatever the jets computed. -/
theorem sentinel_propagation (cfg : ParameterSet R) (self : PATTauHybridProducer R)
    (fw : Framework R) (inputTaus : List (Tau R)) (jets : List (Jet R))
    (hctor : PATTauHybridProducer.ctor cfg = some self)
    (hlen : inputTaus.length ≤ 2 ^ 32) :
    ∃ out, self.produce fw inputTaus jets = some out ∧
      out.drop ((List.range jets.length).flatMap (emittedBy self fw inputTaus jets)).length
        = (inputTaus.enum.filter
            (fun p => decide (unclaimedBefore self fw inputTaus jets jets.length p.1))).map
            (fun p => { p.2 with
              tauIDs := p.2.tauIDs ++ [("byPNetDecayMode", Arith.ofInt (-1)),
                ("byPNetVSjetraw", Arith.ofInt (-1)), ("byPNetVSeraw", Arith.ofInt (-1)),
                ("byPNetVSmuraw", Arith.ofInt (-1))] }) := by
  have hok := ctor_tauNamesOk cfg self hctor
  obtain ⟨s, hs, hp⟩ := produce_eq self hok fw inputTaus hlen jets
  refine ⟨_, hp, ?_⟩
  rw [← output_eq_flatMap self hok fw inputTaus hlen jets jets.length s hs, List.drop_left]
  have hfilter : inputTaus.enum.filter (fun p => decide (p.1 ∉ s.matched_taus))
      = inputTaus.enum.filter
          (fun p => decide (unclaimedBefore self fw inputTaus jets jets.length p.1)) := by
    apply List.filter_congr
    intro p _
    have := mem_matched_iff self hok fw inputTaus hlen jets jets.length s hs p.1
    by_cases hm : p.1 ∈ s.matched_taus
    · have hn := this.mp hm
      simp [hm, hn]
    · have hn : unclaimedBefore self fw inputTaus jets jets.length p.1 := by
        by_contra hcon; exact hm (this.mpr hcon)
      simp [hm, hn]
  rw [hfilter]
  apply List.map_congr_left
  intro p _
  simp [unmatchedTau, tauIds_pnet_init]

/-- Witness for `sentinel_propagation`: an event with one tau and one jet far
from it. -/
theorem sentinel_propagation_witness :
    ∃ out, prodEvent.produce fwEta [tauNear] [jetTauLike] = some out ∧
      out.drop ((List.range 1).flatMap (emittedBy prodEvent fwEta [tauNear] [jetTauLike])).length
        = ([tauNear].enum.filter
            (fun p => decide (unclaimedBefore prodEvent fwEta [tauNear] [jetTauLike] 1 p.1))).map
            (fun p => { p.2 with
              tauIDs := p.2.tauIDs ++ [("byPNetDecayMode", -1), ("byPNetVSjetraw", -1),
                ("byPNetVSeraw", -1), ("byPNetVSmuraw", -1)] }) :=
  sentinel_propagation cfgEvent prodEvent fwEta [tauNear] [jetTauLike] ctor_cfgEvent
    (by decide)

/-- C13, evaluated on the failing input, in IEEE arithmetic: one tau at
`eta = 1` and the two jets of `jetsStale`.  The second jet claims the tau and
pushes its copy; the tag list of that entry is the tau's one tag followed by
the four tags in the stated order, with the three ratios of the second jet but
the decay-mode value `11`.  The evaluator derived no decay mode for that jet
(`isTauScoreBest` is false, so no tag is parsed): `11` is the code of the tag
"3h1p" of the first jet, left in `tauIds_pnet`.  The same jet alone pushes the
entry with the decay-mode value `kNull`. -/
theorem tag_layout_stale_value :
    emittedBy prodIeee fwIeee [tauIeee 1] jetsStale 1
      = [augmentedTau (tauIeee 1)
          (derivedTags prodIeee (jetIeee 60 1 (1 / 20) (1 / 20) (9 / 10)) (Arith.ofInt 11))] ∧
    isTauScoreBest prodIeee (jetIeee 60 1 (1 / 20) (1 / 20) (9 / 10)) = false ∧
    (chargeMarker (tauScores prodIeee
      (jetIeee 50 2 (9 / 10) (1 / 20) (1 / 20))).bestPnetTauScore.1).1 = 8 ∧
    substr (tauScores prodIeee (jetIeee 50 2 (9 / 10) (1 / 20) (1 / 20))).bestPnetTauScore.1 8
      = some "3h1p" ∧
    emittedBy prodIeee fwIeee [tauIeee 1] [jetIeee 60 1 (1 / 20) (1 / 20) (9 / 10)] 0
      = [augmentedTau (tauIeee 1)
          (derivedTags prodIeee (jetIeee 60 1 (1 / 20) (1 / 20) (9 / 10))
            (Arith.ofInt fwIeee.kNull))] := by
  decide!

/-- C14 (Cut-failed jets are inert): for a producer built by the constructor
and an event with at most `2 ^ 32` input taus, a jet with `pt < jetPtMin` or
`|eta| > jetEtaMax` claims no tau and pushes no entry, and `produce` returns the
same collection for the jet list and for the jet list without the jets that
fail the cuts.  The cuts are those of lines 102-105: `jetPtMin` and `jetEtaMax`
are the `float` members, which the constructor sets to the configured `double`
values converted to `float`.  The statement holds for every arithmetic. -/
theorem cut_failed_jets_inert (cfg : ParameterSet R) (self : PATTauHybridProducer R)
    (fw : Framework R) (inputTaus : List (Tau R)) (jets : List (Jet R))
    (hctor : PATTauHybridProducer.ctor cfg = some self)
    (hlen : inputTaus.length ≤ 2 ^ 32) :
    (self.jetPtMin_ = Arith.narrow cfg.jetPtMin ∧
      self.jetEtaMax_ = Arith.narrow cfg.jetEtaMax) ∧
    (∀ (k : Nat) (jet : Jet R), jets[k]? = some jet →
      (Arith.lt jet.pt self.jetPtMin_ ∨ Arith.lt self.jetEtaMax_ (Arith.absD jet.eta)) →
      claimedBy self fw inputTaus jets k = [] ∧ emittedBy self fw inputTaus jets k = []) ∧
    ∃ out, self.produce fw inputTaus jets = some out ∧
      self.produce fw inputTaus
        (jets.filter
          (fun jet => decide (¬ (Arith.lt jet.pt self.jetPtMin_ ∨
            Arith.lt self.jetEtaMax_ (Arith.absD jet.eta)))))
        = some out := by
  have hok := ctor_tauNamesOk cfg self hctor
  obtain ⟨-, e2, e3, -⟩ := ctor_members cfg self hctor
  have hfail : ∀ jet : Jet R,
      (Arith.lt jet.pt self.jetPtMin_ ∨ Arith.lt self.jetEtaMax_ (Arith.absD jet.eta)) ↔
      ¬ passesCuts self jet := by
    intro jet
    unfold passesCuts
    tauto
  refine ⟨⟨e2, e3⟩, ?_, ?_⟩
  · intro k jet hk hcut
    rcases outcome_at self hok fw inputTaus hlen jets k jet hk with
      ⟨-, hc, he⟩ | ⟨hp, -⟩
    · exact ⟨hc, he⟩
    · exact absurd hp ((hfail jet).mp hcut)
  · obtain ⟨s, -, hp⟩ := produce_eq self hok fw inputTaus hlen jets
    refine ⟨_, hp, ?_⟩
    have hf : jets.filter
          (fun jet => decide (¬ (Arith.lt jet.pt self.jetPtMin_ ∨
            Arith.lt self.jetEtaMax_ (Arith.absD jet.eta))))
        = jets.filter (fun jet => decide (passesCuts self jet)) := by
      apply List.filter_congr
      intro jet _
      exact decide_eq_decide.mpr
        ⟨fun h => by_contra (fun hc => h ((hfail jet).mpr hc)),
          fun hc h => (hfail jet).mp h hc⟩
    rw [hf, produce_filter, hp]

/-- Witness for `cut_failed_jets_inert`, in IEEE arithmetic, with the
configured `jetPtMin = 20.3`, whose `float` member is `5321523 / 2 ^ 18`, just
below `20.3`.  The first jet has `pt = 20.1`: it fails the cut and, although it
is at the position of the tau, claims and pushes nothing.  The second jet has
`pt = 20.2999995`, between the member and the configured value: it passes the
cut and claims the tau. -/
theorem cut_failed_jets_inert_witness :
    (claimedBy prodIeee fwIeee [tauIeee 1] jetsSoft 0 = [] ∧
      emittedBy prodIeee fwIeee [tauIeee 1] jetsSoft 0 = []) ∧
    prodIeee.jetPtMin_ = Arith.narrow cfgIeee.jetPtMin ∧
    passesCuts prodIeee (jetIeee (202999995 / 10000000) 1 (9 / 10) (1 / 20) (1 / 20)) ∧
    claimedBy prodIeee fwIeee [tauIeee 1] jetsSoft 1 = [0] :=
  ⟨(cut_failed_jets_inert cfgIeee prodIeee fwIeee [tauIeee 1] jetsSoft
      ctor_cfgIeee (by decide)).2.1 0 (jetIeee (201 / 10) 1 (9 / 10) (1 / 20) (1 / 20)) rfl
      (Or.inl (by decide!)),
    by decide!, by decide!, by decide!⟩

/-- C15 (Output size bound): for a producer built by the constructor and an
event with at most `2 ^ 32` input taus, `produce` returns a collection whose
size is at most the number of jets passing the cuts plus the number of input
taus, and at least the number of input taus that no jet claimed.  The cuts are
those of lines 102-105, on the `float` members `jetPtMin_` and `jetEtaMax_`
(the configured values converted to `float`).  The statement holds for every
arithmetic. -/
theorem output_size_bound (cfg : ParameterSet R) (self : PATTauHybridProducer R)
    (fw : Framework R) (inputTaus : List (Tau R)) (jets : List (Jet R))
    (hctor : PATTauHybridProducer.ctor cfg = some self)
    (hlen : inputTaus.length ≤ 2 ^ 32) :
    (self.jetPtMin_ = Arith.narrow cfg.jetPtMin ∧
      self.jetEtaMax_ = Arith.narrow cfg.jetEtaMax) ∧
    ∃ out, self.produce fw inputTaus jets = some out ∧
      out.length
        ≤ (jets.filter
            (fun jet => decide (¬ Arith.lt jet.pt self.jetPtMin_ ∧
              ¬ Arith.lt self.jetEtaMax_ (Arith.absD jet.eta)))).length
          + inputTaus.length ∧
      (inputTaus.enum.filter
          (fun p => decide (unclaimedBefore self fw inputTaus jets jets.length p.1))).length
        ≤ out.length := by
  have hok := ctor_tauNamesOk cfg self hctor
  obtain ⟨-, e2, e3, -⟩ := ctor_members cfg self hctor
  obtain ⟨s, hs, hp⟩ := produce_eq self hok fw inputTaus hlen jets
  refine ⟨⟨e2, e3⟩, _, hp, ?_, ?_⟩
  · have hf : jets.filter
          (fun jet => decide (¬ Arith.lt jet.pt self.jetPtMin_ ∧
            ¬ Arith.lt self.jetEtaMax_ (Arith.absD jet.eta)))
        = jets.filter (fun jet => decide (passesCuts self jet)) := rfl
    rw [hf, List.length_append, List.length_map]
    have h1 := output_length_le self hok fw inputTaus hlen jets jets.length s hs
    rw [List.take_length] at h1
    have h2 : (inputTaus.enum.filter (fun p => decide (p.1 ∉ s.matched_taus))).length
        ≤ inputTaus.length := by
      have := List.length_filter_le (fun p : Nat × Tau R => decide (p.1 ∉ s.matched_taus))
        inputTaus.enum
      simpa using this
    omega
  · rw [List.length_append, List.length_map]
    have hfilter : inputTaus.enum.filter (fun p => decide (p.1 ∉ s.matched_taus))
        = inputTaus.enum.filter
            (fun p => decide (unclaimedBefore self fw inputTaus jets jets.length p.1)) := by
      apply List.filter_congr
      intro p _
      have := mem_matched_iff self hok fw inputTaus hlen jets jets.length s hs p.1
      by_cases hm : p.1 ∈ s.matched_taus
      · have hn := this.mp hm
        simp [hm, hn]
      · have hn : unclaimedBefore self fw inputTaus jets jets.length p.1 := by
          by_contra hcon; exact hm (this.mpr hcon)
        simp [hm, hn]
    rw [hfilter]
    omega

/-- Witness for `output_size_bound`, in IEEE arithmetic, with the configured
`jetPtMin = 20.3`: no input tau, a jet with `pt = 20.1`, which fails the cut,
and a tau-like jet with `pt = 20.2999995`, which passes it and pushes a
jet-built entry.  One jet passes the cuts and the output has one entry. -/
theorem output_size_bound_witness :
    (∃ out, prodIeee.produce fwIeee [] jetsSoft = some out ∧
      out.length
        ≤ (jetsSoft.filter
            (fun jet => decide (¬ Arith.lt jet.pt prodIeee.jetPtMin_ ∧
              ¬ Arith.lt prodIeee.jetEtaMax_ (Arith.absD jet.eta)))).length
          + ([] : List (Tau Fp)).length) ∧
    (jetsSoft.filter
      (fun jet => decide (¬ Arith.lt jet.pt prodIeee.jetPtMin_ ∧
        ¬ Arith.lt prodIeee.jetEtaMax_ (Arith.absD jet.eta)))).length = 1 ∧
    (prodIeee.produce fwIeee [] jetsSoft).map List.length = some 1 :=
  ⟨(output_size_bound cfgIeee prodIeee fwIeee [] jetsSoft
      ctor_cfgIeee (by decide)).2.elim (fun out h => ⟨out, h.1, h.2.1⟩),
    by decide!, by decide!⟩

/-- C16, as stated, fails: with the lepton bucket `["probelemu"]` of `cfgEleMu`
and `jetQuarter`, the scores of the lepton names containing "mu" sum to `1 / 4`
but `sumOfPnetMuScores` is `0`; the score went to `sumOfPnetEleScores`. -/
theorem lepton_sum_counterexample :
    (PATTauHybridProducer.ctor cfgEleMu).map
        (fun self => (self.pnetLepScoreNames_,
          ((self.pnetLepScoreNames_.filter (fun n => decide (contains n "mu"))).map
            (score self jetQuarter)).sum,
          (lepScores self jetQuarter).sumOfPnetMuScores,
          (lepScores self jetQuarter).sumOfPnetEleScores))
      = some (["probelemu"], 1 / 4, 0, 1 / 4) := by
  decide!

/-- C16 (Lepton sum split, amended): for every catalog and jet,
`sumOfPnetLepScores` is the sum of all lepton scores, `sumOfPnetEleScores` the
sum of the scores of the lepton names containing "ele", and `sumOfPnetMuScores`
the sum of the scores of the lepton names containing "mu" and not "ele".
Scores are rationals and the arithmetic is exact. -/
theorem lepton_sum_split (self : PATTauHybridProducer ℚ) (jet : Jet ℚ) :
    (lepScores self jet).sumOfPnetLepScores
      = (self.pnetLepScoreNames_.map (score self jet)).sum ∧
    (lepScores self jet).sumOfPnetEleScores
      = ((self.pnetLepScoreNames_.filter (fun n => decide (contains n "ele"))).map
          (score self jet)).sum ∧
    (lepScores self jet).sumOfPnetMuScores
      = ((self.pnetLepScoreNames_.filter
          (fun n => decide (contains n "mu" ∧ ¬ contains n "ele"))).map
          (score self jet)).sum :=
  lepScores_sums self jet

/-- C17 (vsJet meaning): for every catalog and jet whose tau, lepton and jet
scores sum to `1` and whose lepton sum is not `1`, the value written into the
vsJet entry, `sumTau / (1 - sumLepton)`, has a non-zero denominator and equals
the sum of the tau scores divided by the sum of the tau and jet scores.  Scores
are rationals and the arithmetic is exact. -/
theorem vsJet_meaning (self : PATTauHybridProducer ℚ) (fw : Framework ℚ) (jet : Jet ℚ)
    (hsum : (self.pnetTauScoreNames_.map (score self jet)).sum
      + (self.pnetLepScoreNames_.map (score self jet)).sum
      + (self.pnetJetScoreNames_.map (score self jet)).sum = 1)
    (hne : (lepScores self jet).sumOfPnetLepScores ≠ 1) :
    (setDiscriminants self jet (tauIds_pnet_init fw))[1]?
      = some ("byPNetVSjetraw",
          (tauScores self jet).sumOfPnetTauScores
            / (1 - (lepScores self jet).sumOfPnetLepScores)) ∧
    1 - (lepScores self jet).sumOfPnetLepScores ≠ 0 ∧
    (tauScores self jet).sumOfPnetTauScores / (1 - (lepScores self jet).sumOfPnetLepScores)
      = (self.pnetTauScoreNames_.map (score self jet)).sum
        / ((self.pnetTauScoreNames_.map (score self jet)).sum
          + (self.pnetJetScoreNames_.map (score self jet)).sum) := by
  refine ⟨?_, ?_, ?_⟩
  · unfold setDiscriminants
    simp only []
    rw [setSecond_getElem?_ne _ 3 1 _ (by decide), setSecond_getElem?_ne _ 2 1 _ (by decide)]
    exact setSecond_getElem?_eq _ 1 _ ("byPNetVSjetraw", -1) rfl
  · exact sub_ne_zero.mpr (Ne.symm hne)
  · rw [tauScores_sum, (lepScores_sums self jet).1]
    congr 1
    linarith

/-- Witness for `vsJet_meaning`: `jetTauLike` with the catalog of `prodEvent`. -/
theorem vsJet_meaning_witness :
    (setDiscriminants prodEvent jetTauLike (tauIds_pnet_init fwEta))[1]?
      = some ("byPNetVSjetraw",
          (tauScores prodEvent jetTauLike).sumOfPnetTauScores
            / (1 - (lepScores prodEvent jetTauLike).sumOfPnetLepScores)) :=
  (vsJet_meaning prodEvent fwEta jetTauLike (by decide!) (by decide!)).1

/-- C18 (Every input tau is emitted exactly once): for a producer built by the
constructor and an event with at most `2 ^ 32` input taus, every input tau is
either claimed by exactly one jet, which pushes one augmented copy of it, or
claimed by none, and then it has one copy after the jet entries; `produce`
returns these entries, so the output size is the number of input taus plus the
number of jets that push an entry without claiming a tau, and it is at least
the number of input taus. -/
theorem every_tau_once (cfg : ParameterSet R) (self : PATTauHybridProducer R)
    (fw : Framework R) (inputTaus : List (Tau R)) (jets : List (Jet R))
    (hctor : PATTauHybridProducer.ctor cfg = some self)
    (hlen : inputTaus.length ≤ 2 ^ 32) :
    (∀ i, i < inputTaus.length →
      ((List.range jets.length).filter
          (fun k => decide (i ∈ claimedBy self fw inputTaus jets k))).length
        + (if unclaimedBefore self fw inputTaus jets jets.length i then 1 else 0) = 1) ∧
    (∀ k i, i ∈ claimedBy self fw inputTaus jets k →
      ∃ t ids, inputTaus[i]? = some t ∧
        emittedBy self fw inputTaus jets k = [augmentedTau t ids]) ∧
    ∃ out, self.produce fw inputTaus jets = some out ∧
      out = (List.range jets.length).flatMap (emittedBy self fw inputTaus jets) ++
        (inputTaus.enum.filter
          (fun p => decide (unclaimedBefore self fw inputTaus jets jets.length p.1))).map
          (fun p => unmatchedTau p.2 (tauIds_pnet_init fw)) ∧
      out.length = inputTaus.length + synthesizedCount self fw inputTaus jets ∧
      inputTaus.length ≤ out.length := by
  have hok := ctor_tauNamesOk cfg self hctor
  refine ⟨?_, ?_, ?_⟩
  · intro i _
    by_cases hun : unclaimedBefore self fw inputTaus jets jets.length i
    · rw [if_pos hun]
      have : (List.range jets.length).filter
          (fun k => decide (i ∈ claimedBy self fw inputTaus jets k)) = [] := by
        rw [List.filter_eq_nil_iff]
        intro k hk
        rw [List.mem_range] at hk
        simpa using hun k hk
      rw [this]
      rfl
    · rw [if_neg hun]
      unfold unclaimedBefore at hun
      push_neg at hun
      obtain ⟨k0, hk0, hmem⟩ := hun
      rw [filter_range_unique _ k0 jets.length hk0 (by simpa using hmem)]
      intro k hk
      by_contra hne
      exact claimedBy_disjoint self hok fw inputTaus hlen jets k k0 i hne
        (by simpa using hk) hmem
  · intro k i hi
    cases hk : jets[k]? with
    | none =>
      obtain ⟨s, s', hs, hs', -, -, hcase⟩ := stateAfter_succ self hok fw inputTaus hlen jets k
      rcases hcase with ⟨-, rfl⟩ | ⟨jet, hget, -⟩
      · rw [claimedBy_eq self fw inputTaus jets k s' s' hs hs', filter_not_mem_self] at hi
        cases hi
      · rw [hk] at hget; cases hget
    | some jet =>
      rcases outcome_at self hok fw inputTaus hlen jets k jet hk with
        ⟨-, hc, -⟩ | ⟨-, s, c, ids, -, -, -, hrest⟩
      · rw [hc] at hi; cases hi
      · rcases hrest with ⟨i0, t, hget, -, -, -, hc, hem⟩ | ⟨-, hc, -⟩
        · rw [hc] at hi
          have := List.mem_singleton.mp hi
          subst this
          exact ⟨t, ids, hget, hem⟩
        · rw [hc] at hi; cases hi
  · obtain ⟨s, hs, hp⟩ := produce_eq self hok fw inputTaus hlen jets
    obtain ⟨s0, -, hs0, -, hinv, -, -⟩ :=
      stateAfter_succ self hok fw inputTaus hlen jets jets.length
    rw [hs] at hs0
    cases hs0
    have hlenout := output_length_eq self hok fw inputTaus hlen jets jets.length s hs
    have hcount := unclaimed_count inputTaus s.matched_taus hinv.1 hinv.2.1
    have hsize : (s.outputTaus ++
        (inputTaus.enum.filter (fun p => decide (p.1 ∉ s.matched_taus))).map
          (fun p => unmatchedTau p.2 (tauIds_pnet_init fw))).length
        = inputTaus.length + synthesizedCount self fw inputTaus jets := by
      rw [List.length_append, List.length_map, hlenout]
      unfold synthesizedCount
      omega
    refine ⟨_, hp, ?_, hsize, ?_⟩
    · rw [output_eq_flatMap self hok fw inputTaus hlen jets jets.length s hs,
        filter_unclaimed_eq self hok fw inputTaus hlen jets s hs]
    · rw [hsize]
      omega

/-- Witness for `every_tau_once`: an event with one tau and two jets. -/
theorem every_tau_once_witness :
    ∃ out, prodEvent.produce fwEta [tauNear] [jetTauLike, jetLepLike] = some out ∧
      out.length = [tauNear].length
        + synthesizedCount prodEvent fwEta [tauNear] [jetTauLike, jetLepLike] ∧
      [tauNear].length ≤ out.length :=
  let ⟨out, h1, _, h3, h4⟩ := (every_tau_once cfgEvent prodEvent fwEta [tauNear]
    [jetTauLike, jetLepLike] ctor_cfgEvent (by decide)).2.2
  ⟨out, h1, h3, h4⟩

/-- C19, as stated, fails: the catalog built from `cfgUndef` holds the name
"probtauundef", and for `jetQuarter` the flag `isTauScoreBest` is true while the
best name is "probtauundef", the string of the placeholder. -/
theorem best_name_counterexample :
    (PATTauHybridProducer.ctor cfgUndef).map
        (fun self => (self.pnetTauScoreNames_, isTauScoreBest self jetQuarter,
          (tauScores self jetQuarter).bestPnetTauScore))
      = some (["probtauundef"], true, ("probtauundef", 1 / 4)) := by
  decide!

/-- C19 (Best name is well defined when parsed, amended): for a producer built
by the constructor and a jet with `isTauScoreBest` true, the best pair was
assigned in the loop: it is not the initial pair `("probtauundef", -1)`, its
name is an element of the tau bucket (so it is spelled "probtauundef" only when
the catalog holds that name) and its value is the score of that name; the best
value is positive; the name contains "tau"; three characters after the first
"tau" is at most the length of the name; the position handed to `substr` is at
most the length; and `substr` and the whole parsing step return without an
exception.  The statement holds for every arithmetic. -/
theorem best_name_well_defined (cfg : ParameterSet R) (self : PATTauHybridProducer R)
    (jet : Jet R)
    (hctor : PATTauHybridProducer.ctor cfg = some self)
    (hbest : isTauScoreBest self jet = true) :
    (tauScores self jet).bestPnetTauScore.1 ∈ self.pnetTauScoreNames_ ∧
    (∃ idx : Nat, self.pnetTauScoreNames_[idx]? = some (tauScores self jet).bestPnetTauScore.1 ∧
      (tauScores self jet).bestPnetTauScore.2
        = score self jet (tauScores self jet).bestPnetTauScore.1) ∧
    ((tauScores self jet).bestPnetTauScore = ("probtauundef", Arith.ofInt (-1)) → False) ∧
    ((tauScores self jet).bestPnetTauScore.1 = "probtauundef" →
      "probtauundef" ∈ self.pnetTauScoreNames_) ∧
    Arith.lt (Arith.ofInt 0) (tauScores self jet).bestPnetTauScore.2 ∧
    contains (tauScores self jet).bestPnetTauScore.1 "tau" ∧
    (∃ i, find (tauScores self jet).bestPnetTauScore.1 "tau" = some i ∧
      i + 3 ≤ (tauScores self jet).bestPnetTauScore.1.data.length) ∧
    (chargeMarker (tauScores self jet).bestPnetTauScore.1).1
      ≤ (tauScores self jet).bestPnetTauScore.1.data.length ∧
    (∃ tag, substr (tauScores self jet).bestPnetTauScore.1
      (chargeMarker (tauScores self jet).bestPnetTauScore.1).1 = some tag) ∧
    (∀ ids, ∃ r, chargeAndDM self jet ids = some r) := by
  have hok := ctor_tauNamesOk cfg self hctor
  obtain ⟨hpos, idx, hget, hsc, -, -⟩ := tauBest_spec self jet hbest
  have hmem := mem_of_getElem?_eq_some hget
  have hc : contains (tauScores self jet).bestPnetTauScore.1 "tau" := hok _ hmem
  have hle := chargeMarker_le _ hc
  refine ⟨hmem, ⟨idx, hget, hsc.symm⟩, ?_, ?_, hpos, hc, ?_, hle, ?_, ?_⟩
  · intro heq
    rw [heq] at hpos
    exact Arith.lt_irrefl _ (Arith.lt_trans _ _ _ Arith.neg_one_lt_zero hpos)
  · intro heq
    rw [← heq]
    exact hmem
  · have hf : find (tauScores self jet).bestPnetTauScore.1 "tau" ≠ none :=
      (find_ne_none_iff _ _).mpr hc
    obtain ⟨i, hi⟩ := Option.ne_none_iff_exists'.mp hf
    refine ⟨i, hi, ?_⟩
    have := findAux_add_le "tau".data _ i hi
    simpa using this
  · unfold substr
    rw [if_pos hle]
    exact ⟨_, rfl⟩
  · intro ids
    obtain ⟨c, ids', h, -, -⟩ := chargeAndDM_some self hok jet ids
    exact ⟨_, h⟩

/-- Witness for `best_name_well_defined`, in IEEE arithmetic: a jet with the
scores `0.9` for "probtaup3h1p" and `0.05` for the other two names. -/
theorem best_name_well_defined_witness :
    ((tauScores prodIeee (jetIeee 50 2 (9 / 10) (1 / 20) (1 / 20))).bestPnetTauScore.1
        ∈ prodIeee.pnetTauScoreNames_ ∧
      Arith.lt (Arith.ofInt 0)
        (tauScores prodIeee (jetIeee 50 2 (9 / 10) (1 / 20) (1 / 20))).bestPnetTauScore.2 ∧
      (chargeMarker
        (tauScores prodIeee (jetIeee 50 2 (9 / 10) (1 / 20) (1 / 20))).bestPnetTauScore.1).1
        ≤ (tauScores prodIeee
            (jetIeee 50 2 (9 / 10) (1 / 20) (1 / 20))).bestPnetTauScore.1.data.length) ∧
    (tauScores prodIeee (jetIeee 50 2 (9 / 10) (1 / 20) (1 / 20))).bestPnetTauScore
      = ("probtaup3h1p", Fp.fin (15099494 / 16777216)) :=
  ⟨⟨(best_name_well_defined cfgIeee prodIeee (jetIeee 50 2 (9 / 10) (1 / 20) (1 / 20))
      ctor_cfgIeee (by decide!)).1,
    (best_name_well_defined cfgIeee prodIeee (jetIeee 50 2 (9 / 10) (1 / 20) (1 / 20))
      ctor_cfgIeee (by decide!)).2.2.2.2.1,
    (best_name_well_defined cfgIeee prodIeee (jetIeee 50 2 (9 / 10) (1 / 20) (1 / 20))
      ctor_cfgIeee (by decide!)).2.2.2.2.2.2.2.1⟩,
    by decide!⟩

end PatAlgos
